import Mathlib

/-!
# Tempesta TLS: PKCS#12 key derivation and password based encryption

A shallow embedding of `src/tls/pkcs12.c`.

* Bytes are natural numbers; every store that truncates in C (`(unsigned char) x`,
  `x & 0xFF`, `++b` on an `unsigned char`) is written with an explicit `% 256`.
* A buffer is a list of bytes; a pointer into a buffer is the buffer together with an
  offset.
* Loops whose termination depends on their arguments (`while (data_len > 0)`,
  `while (datalen > 0)`) take a fuel argument and return `none` when it runs out.
  The counted `for` loops are structural recursions on their counter.
* The message digest and cipher modules (`md.h`, `cipher.h`, `arc4.h`, `asn1.h`) are
  not part of the translated sources: their operations are parameters of the model.
* Local arrays that C leaves uninitialised start with arbitrary contents, read from a
  `junk` parameter.
-/

namespace Tempesta

/-- A byte buffer. -/
abbrev Buf := List Nat

/-! ## Constants of `pkcs12.h` and `md.h` -/

/-- Error code `TTLS_ERR_PKCS12_BAD_INPUT_DATA` of `pkcs12.h` (value of the mbed TLS header). -/
def TTLS_ERR_PKCS12_BAD_INPUT_DATA : Int := -0x1F80
/-- Error code `TTLS_ERR_PKCS12_FEATURE_UNAVAILABLE` of `pkcs12.h`. -/
def TTLS_ERR_PKCS12_FEATURE_UNAVAILABLE : Int := -0x1F00
/-- Error code `TTLS_ERR_PKCS12_PBE_INVALID_FORMAT` of `pkcs12.h`. -/
def TTLS_ERR_PKCS12_PBE_INVALID_FORMAT : Int := -0x1E80
/-- Error code `TTLS_ERR_PKCS12_PASSWORD_MISMATCH` of `pkcs12.h`. -/
def TTLS_ERR_PKCS12_PASSWORD_MISMATCH : Int := -0x1E00
/-- Diversifier `TTLS_PKCS12_DERIVE_KEY` of `pkcs12.h`. -/
def TTLS_PKCS12_DERIVE_KEY : Int := 1
/-- Diversifier `TTLS_PKCS12_DERIVE_IV` of `pkcs12.h`. -/
def TTLS_PKCS12_DERIVE_IV : Int := 2
/-- Size of the largest digest, `TTLS_MD_MAX_SIZE` of `md.h`. -/
def TTLS_MD_MAX_SIZE : Nat := 64
/-- Width of `size_t` on the target (x86-64 Linux kernel). -/
def SIZE_T_BITS : Nat := 64

/-! ## Memory primitives -/

/-- The C call `memcpy(dst + off, src, n)`. -/
def memcpy (dst : Buf) (off : Nat) (src : Buf) (n : Nat) : Buf :=
  dst.take off ++ src.take n ++ dst.drop (off + n)

/-- The C call `memset(dst, c, n)`. -/
def memset (dst : Buf) (c : Nat) (n : Nat) : Buf :=
  List.replicate n c ++ dst.drop n

/-- The loop `while (n--) *p++ = 0;` of `ttls_zeroize`. -/
def ttls_zeroize : Buf → Nat → Buf
  | v, 0 => v
  | [], _ + 1 => []
  | _ :: v, n + 1 => 0 :: ttls_zeroize v n

/-- An uninitialised local array of `n` bytes: its contents are whatever `junk` holds. -/
def stack_array (junk : Nat → Nat) (n : Nat) : Buf :=
  (List.range n).map (fun i => junk i % 256)

/-! ## The message digest module (parameter) -/

/-- The operations of one message digest, as `pkcs12.c` uses them. Every operation
returns its `int` return code first; a code different from 0 is a failure. -/
structure ttls_md_info_t (Ctx : Type) where
  /-- Result of `ttls_md_get_size`. -/
  size : Nat
  /-- Result of `ttls_md_init` followed by `ttls_md_setup(&md_ctx, md_info, 0)`. -/
  setup : Int × Ctx
  /-- Call `ttls_md_starts(&md_ctx)`. -/
  starts : Ctx → Int × Ctx
  /-- Call `ttls_md_update(&md_ctx, input, ilen)`, given the `ilen` input bytes. -/
  update : Ctx → Buf → Int × Ctx
  /-- Call `ttls_md_finish(&md_ctx, output)`: the code, the context, the bytes written. -/
  finish : Ctx → Int × Ctx × Buf
  /-- Call `ttls_md(md_info, input, ilen, output)`: the code and the bytes written. -/
  md : Buf → Int × Buf

/-- A digest operation wrote the bytes `out` at the start of the buffer `buf`. -/
def md_output (buf : Buf) (out : Buf) : Buf :=
  out ++ buf.drop out.length

/-! ## `pkcs12_fill_buffer` -/

/-- The loop of `pkcs12_fill_buffer`; `p` is the offset of the write pointer in `data`. -/
def fill_loop (filler : Buf) (fill_len : Nat) : Nat → Buf → Nat → Nat → Option Buf
  | 0, data, _, data_len => if data_len = 0 then some data else none
  | fuel + 1, data, p, data_len =>
    if data_len = 0 then some data else
    let use_len := if data_len > fill_len then fill_len else data_len
    fill_loop filler fill_len fuel (memcpy data p filler use_len) (p + use_len)
      (data_len - use_len)

/-- The function `pkcs12_fill_buffer(data, data_len, filler, fill_len)`. -/
def pkcs12_fill_buffer (fuel : Nat) (data : Buf) (data_len : Nat)
    (filler : Buf) (fill_len : Nat) : Option Buf :=
  fill_loop filler fill_len fuel data 0 data_len

/-! ## `ttls_pkcs12_derivation` -/

/-- The loop `for (i = v; i > 0; i--) if (++hash_block[i - 1] != 0) break;`. -/
def incr_block : Nat → Buf → Buf
  | 0, hash_block => hash_block
  | i + 1, hash_block =>
    let b := (hash_block.getD i 0 + 1) % 256
    if b ≠ 0 then hash_block.set i b else incr_block i (hash_block.set i b)

/-- The loop `for (i = v; i > 0; i--) { j = blk[i-1] + hash_block[i-1] + c;
c = (unsigned char) (j >> 8); blk[i-1] = j & 0xFF; }`, with `j` an `unsigned int`. -/
def add_block (hash_block : Buf) : Nat → Buf → Nat → Buf
  | 0, blk, _ => blk
  | i + 1, blk, c =>
    let j := (blk.getD i 0 + hash_block.getD i 0 + c) % 2 ^ 32
    add_block hash_block i (blk.set i (j % 256)) ((j / 256) % 256)

/-- The loop `for (i = 1; i < (size_t) iterations; i++)` around
`ttls_md(md_info, hash_output, hlen, hash_output)`, run `n` times at most. -/
def rehash {Ctx : Type} (md : ttls_md_info_t Ctx) (hlen : Nat) : Nat → Buf → Int × Buf
  | 0, hash_output => (0, hash_output)
  | n + 1, hash_output =>
    let r := md.md (hash_output.take hlen)
    if r.1 ≠ 0 then (r.1, md_output hash_output r.2)
    else rehash md hlen n (md_output hash_output r.2)

/-- Number of passes of the loop `for (i = 1; i < (size_t) iterations; i++)`. -/
def rehash_count (iterations : Int) : Nat :=
  (iterations % 2 ^ SIZE_T_BITS).toNat - 1

/-- The block size `v` chosen at lines 284 to 287: `if (hlen <= 32) v = 64; else v = 128;`. -/
def block_size (hlen : Nat) : Nat :=
  if hlen ≤ 32 then 64 else 128

/-- The local state of `ttls_pkcs12_derivation` inside its main loop. -/
structure DerivState (Ctx : Type) where
  /-- The caller's output buffer. -/
  data : Buf
  /-- Offset of the write pointer `p` in `data`. -/
  p : Nat
  salt_block : Buf
  pwd_block : Buf
  hash_block : Buf
  hash_output : Buf
  md_ctx : Ctx
  deriving DecidableEq, Repr

/-- Lines 297 to 318 of the loop body: the digest of
`diversifier || salt_block || pwd_block` followed by the `iterations - 1` further
digests, all through `hash_output`. The result is `ret`, `md_ctx` and `hash_output`. -/
def derivation_hash {Ctx : Type} (md : ttls_md_info_t Ctx) (v hlen : Nat)
    (diversifier : Buf) (iterations : Int) (md_ctx : Ctx)
    (salt_block pwd_block hash_output : Buf) : Int × Ctx × Buf :=
  let r1 := md.starts md_ctx
  if r1.1 ≠ 0 then (r1.1, r1.2, hash_output) else
  let r2 := md.update r1.2 (diversifier.take v)
  if r2.1 ≠ 0 then (r2.1, r2.2, hash_output) else
  let r3 := md.update r2.2 (salt_block.take v)
  if r3.1 ≠ 0 then (r3.1, r3.2, hash_output) else
  let r4 := md.update r3.2 (pwd_block.take v)
  if r4.1 ≠ 0 then (r4.1, r4.2, hash_output) else
  let r5 := md.finish r4.2
  let hash_output := md_output hash_output r5.2.2
  if r5.1 ≠ 0 then (r5.1, r5.2.1, hash_output) else
  let r6 := rehash md hlen (rehash_count iterations) hash_output
  (r6.1, r5.2.1, r6.2)

/-- Lines 328 to 352 of the loop body: `hash_block` is filled with copies of
`hash_output`, incremented, and added to `salt_block` and to `pwd_block`. The result
is the new `hash_block`, `salt_block` and `pwd_block`. -/
def derivation_blocks (ffuel v hlen : Nat) (hash_output hash_block salt_block pwd_block : Buf) :
    Option (Buf × Buf × Buf) :=
  match pkcs12_fill_buffer ffuel hash_block v hash_output hlen with
  | none => none
  | some hash_block =>
    let hash_block := incr_block v hash_block
    some (hash_block, add_block hash_block v salt_block 0, add_block hash_block v pwd_block 0)

/-- How one pass of the main loop ends: at the label `exit` (by `goto exit` or by
`break`) with a value of `ret`, or back at the loop head with the remaining `datalen`. -/
inductive Round (Ctx : Type) where
  | done (ret : Int) (st : DerivState Ctx)
  | more (st : DerivState Ctx) (datalen : Nat)
  deriving DecidableEq, Repr

/-- One pass of the body of `while (datalen > 0)` in `ttls_pkcs12_derivation`;
`none` when `pkcs12_fill_buffer` does not return. -/
def derivation_round {Ctx : Type} (md : ttls_md_info_t Ctx) (ffuel v hlen : Nat)
    (diversifier : Buf) (iterations : Int) (st : DerivState Ctx) (datalen : Nat) :
    Option (Round Ctx) :=
  let h := derivation_hash md v hlen diversifier iterations st.md_ctx st.salt_block
    st.pwd_block st.hash_output
  if h.1 ≠ 0 then
    some (.done h.1 { st with md_ctx := h.2.1, hash_output := h.2.2 })
  else
    let use_len := if datalen > hlen then hlen else datalen
    let data := memcpy st.data st.p h.2.2 use_len
    let datalen := datalen - use_len
    let p := st.p + use_len
    if datalen = 0 then
      some (.done 0 { st with data := data, p := p, md_ctx := h.2.1, hash_output := h.2.2 })
    else
      match derivation_blocks ffuel v hlen h.2.2 st.hash_block st.salt_block st.pwd_block with
      | none => none
      | some b =>
        some (.more { data := data, p := p, salt_block := b.2.1, pwd_block := b.2.2,
                      hash_block := b.1, hash_output := h.2.2, md_ctx := h.2.1 } datalen)

/-- The main loop `while (datalen > 0)` of `ttls_pkcs12_derivation`. The result is the
value of `ret` and the state at the label `exit`. `ffuel` is the fuel of the calls of
`pkcs12_fill_buffer`. -/
def derivation_loop {Ctx : Type} (md : ttls_md_info_t Ctx) (ffuel v hlen : Nat)
    (diversifier : Buf) (iterations : Int) :
    Nat → DerivState Ctx → Nat → Option (Int × DerivState Ctx)
  | 0, st, datalen => if datalen = 0 then some (0, st) else none
  | fuel + 1, st, datalen =>
    if datalen = 0 then some (0, st) else
    match derivation_round md ffuel v hlen diversifier iterations st datalen with
    | none => none
    | some (.done ret st) => some (ret, st)
    | some (.more st datalen) =>
      derivation_loop md ffuel v hlen diversifier iterations fuel st datalen

/-- What a call of `ttls_pkcs12_derivation` leaves behind: the return value, the
caller's output buffer and the four intermediate local buffers. -/
structure DerivResult where
  ret : Int
  data : Buf
  salt_block : Buf
  pwd_block : Buf
  hash_block : Buf
  hash_output : Buf
  deriving DecidableEq, Repr

/-- The function `ttls_pkcs12_derivation`. `md_info_from_type` is the digest registry
(`ttls_md_info_from_type`, `none` for `NULL`), `junk` the contents of the stack on
entry and `data` the contents of the caller's output buffer on entry. -/
def ttls_pkcs12_derivation {Ctx : Type}
    (md_info_from_type : Nat → Option (ttls_md_info_t Ctx))
    (fuel : Nat) (junk : Nat → Nat → Nat)
    (data : Buf) (datalen : Nat) (pwd : Buf) (pwdlen : Nat) (salt : Buf) (saltlen : Nat)
    (md_type : Nat) (id : Int) (iterations : Int) : Option DerivResult :=
  let diversifier := stack_array (junk 0) 128
  let salt_block := stack_array (junk 1) 128
  let pwd_block := stack_array (junk 2) 128
  let hash_block := stack_array (junk 3) 128
  let hash_output := stack_array (junk 4) TTLS_MD_MAX_SIZE
  if datalen > 128 ∨ pwdlen > 64 ∨ saltlen > 64 then
    some ⟨TTLS_ERR_PKCS12_BAD_INPUT_DATA, data, salt_block, pwd_block, hash_block,
      hash_output⟩
  else
    match md_info_from_type md_type with
    | none =>
      some ⟨TTLS_ERR_PKCS12_FEATURE_UNAVAILABLE, data, salt_block, pwd_block, hash_block,
        hash_output⟩
    | some md_info =>
      let s := md_info.setup
      if s.1 ≠ 0 then
        some ⟨s.1, data, salt_block, pwd_block, hash_block, hash_output⟩
      else
        let hlen := md_info.size
        let v := block_size hlen
        let diversifier := memset diversifier (id % 256).toNat v
        match pkcs12_fill_buffer fuel salt_block v salt saltlen with
        | none => none
        | some salt_block =>
          match pkcs12_fill_buffer fuel pwd_block v pwd pwdlen with
          | none => none
          | some pwd_block =>
            match derivation_loop md_info fuel v hlen diversifier iterations fuel
                { data := data, p := 0, salt_block := salt_block, pwd_block := pwd_block,
                  hash_block := hash_block, hash_output := hash_output, md_ctx := s.2 }
                datalen with
            | none => none
            | some (ret, st) =>
              some ⟨ret, st.data,
                ttls_zeroize st.salt_block 128, ttls_zeroize st.pwd_block 128,
                ttls_zeroize st.hash_block 128,
                ttls_zeroize st.hash_output TTLS_MD_MAX_SIZE⟩

/-! ## Password based encryption -/

/-- The ASN.1 tag `TTLS_ASN1_CONSTRUCTED | TTLS_ASN1_SEQUENCE` of `asn1.h`. -/
def TTLS_ASN1_CONSTRUCTED_SEQUENCE : Nat := 0x30
/-- The ASN.1 tag `TTLS_ASN1_OCTET_STRING` of `asn1.h`. -/
def TTLS_ASN1_OCTET_STRING : Nat := 0x04
/-- Error code `TTLS_ERR_ASN1_UNEXPECTED_TAG` of `asn1.h`. -/
def TTLS_ERR_ASN1_UNEXPECTED_TAG : Int := -0x0062
/-- Error code `TTLS_ERR_ASN1_LENGTH_MISMATCH` of `asn1.h`. -/
def TTLS_ERR_ASN1_LENGTH_MISMATCH : Int := -0x0066
/-- Digest type `TTLS_MD_SHA1` of `md.h`. -/
def TTLS_MD_SHA1 : Nat := 4
/-- The bound `PKCS12_MAX_PWDLEN`. -/
def PKCS12_MAX_PWDLEN : Nat := 128

/-- An ASN.1 buffer `ttls_asn1_buf`: the tag, the length, and the pointer `p`, given
as the memory it points into (`mem`) and an offset (`p`). -/
structure ttls_asn1_buf where
  tag : Nat
  len : Nat
  mem : Buf
  p : Nat
  deriving DecidableEq, Repr

/-- The two ASN.1 parsers `pkcs12.c` calls. Both get the memory, the offset of `*p`
and the offset of `end`, and return their code and the new offset of `*p`. -/
structure ttls_asn1_ops where
  /-- Call `ttls_asn1_get_tag(p, end, &len, tag)`: code, new `*p`, `len`. -/
  get_tag : Buf → Nat → Nat → Nat → Int × Nat × Nat
  /-- Call `ttls_asn1_get_int(p, end, &val)`: code, new `*p`, `val`. -/
  get_int : Buf → Nat → Nat → Int × Nat × Int

/-- What `pkcs12_parse_pbe_params` leaves behind: the return value, `params->p`,
the salt (`salt->p` as an offset in the memory of `params`, `salt->len`) and
`*iterations`. -/
structure PbeParams where
  ret : Int
  p : Nat
  salt_p : Nat
  salt_len : Nat
  iterations : Int
  deriving DecidableEq, Repr

/-- The function `pkcs12_parse_pbe_params`; `salt_p0`, `salt_len0` and `iterations0`
are the values of `salt->p`, `salt->len` and `*iterations` on entry. -/
def pkcs12_parse_pbe_params (asn1 : ttls_asn1_ops) (params : ttls_asn1_buf)
    (salt_p0 salt_len0 : Nat) (iterations0 : Int) : PbeParams :=
  let end_ := params.p + params.len
  if params.tag ≠ TTLS_ASN1_CONSTRUCTED_SEQUENCE then
    ⟨TTLS_ERR_PKCS12_PBE_INVALID_FORMAT + TTLS_ERR_ASN1_UNEXPECTED_TAG, params.p,
      salt_p0, salt_len0, iterations0⟩
  else
    let r1 := asn1.get_tag params.mem params.p end_ TTLS_ASN1_OCTET_STRING
    if r1.1 ≠ 0 then
      ⟨TTLS_ERR_PKCS12_PBE_INVALID_FORMAT + r1.1, r1.2.1, salt_p0, r1.2.2, iterations0⟩
    else
      let salt_p := r1.2.1
      let salt_len := r1.2.2
      let p := r1.2.1 + salt_len
      let r2 := asn1.get_int params.mem p end_
      if r2.1 ≠ 0 then
        ⟨TTLS_ERR_PKCS12_PBE_INVALID_FORMAT + r2.1, r2.2.1, salt_p, salt_len, r2.2.2⟩
      else if r2.2.1 ≠ end_ then
        ⟨TTLS_ERR_PKCS12_PBE_INVALID_FORMAT + TTLS_ERR_ASN1_LENGTH_MISMATCH, r2.2.1,
          salt_p, salt_len, r2.2.2⟩
      else
        ⟨0, r2.2.1, salt_p, salt_len, r2.2.2⟩

/-- The loop `for (i = 0; i < pwdlen; i++) unipwd[i * 2 + 1] = pwd[i];`. -/
def unipwd_fill (unipwd : Buf) (pwd : Buf) (pwdlen : Nat) : Buf :=
  (List.range pwdlen).foldl (fun u i => u.set (i * 2 + 1) (pwd.getD i 0)) unipwd

/-- The secret `pkcs12_pbe_derive_key_iv` hands to `ttls_pkcs12_derivation`: the local
array `unipwd` after `memset(&unipwd, 0, sizeof(unipwd))` and the transcoding loop. -/
def pbe_unipwd (pwd : Buf) (pwdlen : Nat) : Buf :=
  unipwd_fill (List.replicate (PKCS12_MAX_PWDLEN * 2 + 2) 0) pwd pwdlen

/-- What `pkcs12_pbe_derive_key_iv` leaves behind: the return value, the buffers
`key` and `iv` of the caller (`iv` may be `NULL`), and the local array `unipwd`. -/
structure DeriveKeyIv where
  ret : Int
  key : Buf
  iv : Option Buf
  unipwd : Buf
  deriving DecidableEq, Repr

/-- The function `pkcs12_pbe_derive_key_iv`. `junk` is the stack on entry, `junk 1`
and `junk 2` the stacks the two calls of `ttls_pkcs12_derivation` find. -/
def pkcs12_pbe_derive_key_iv {Ctx : Type} (asn1 : ttls_asn1_ops)
    (md_info_from_type : Nat → Option (ttls_md_info_t Ctx))
    (fuel : Nat) (junk : Nat → Nat → Nat → Nat)
    (pbe_params : ttls_asn1_buf) (md_type : Nat) (pwd : Buf) (pwdlen : Nat)
    (key : Buf) (keylen : Nat) (iv : Option Buf) (ivlen : Nat) : Option DeriveKeyIv :=
  let unipwd := stack_array (junk 0 0) (PKCS12_MAX_PWDLEN * 2 + 2)
  if pwdlen > PKCS12_MAX_PWDLEN then
    some ⟨TTLS_ERR_PKCS12_BAD_INPUT_DATA, key, iv, unipwd⟩
  else
    let unipwd := memset unipwd 0 (PKCS12_MAX_PWDLEN * 2 + 2)
    let r := pkcs12_parse_pbe_params asn1 pbe_params 0 0 0
    if r.ret ≠ 0 then some ⟨r.ret, key, iv, unipwd⟩
    else
      let unipwd := unipwd_fill unipwd pwd pwdlen
      let salt := pbe_params.mem.drop r.salt_p
      match ttls_pkcs12_derivation md_info_from_type fuel (junk 1) key keylen
          unipwd (pwdlen * 2 + 2) salt r.salt_len md_type TTLS_PKCS12_DERIVE_KEY
          r.iterations with
      | none => none
      | some k =>
        if k.ret ≠ 0 then some ⟨k.ret, k.data, iv, unipwd⟩
        else
          match iv with
          | none => some ⟨0, k.data, none, unipwd⟩
          | some ivbuf =>
            if ivlen = 0 then some ⟨0, k.data, some ivbuf, unipwd⟩
            else
              match ttls_pkcs12_derivation md_info_from_type fuel (junk 2) ivbuf ivlen
                  unipwd (pwdlen * 2 + 2) salt r.salt_len md_type TTLS_PKCS12_DERIVE_IV
                  r.iterations with
              | none => none
              | some v =>
                if v.ret ≠ 0 then some ⟨v.ret, k.data, some v.data, unipwd⟩
                else some ⟨0, k.data, some v.data, unipwd⟩

/-- The ARC4 module as `ttls_pkcs12_pbe_sha1_rc4_128` uses it: `ttls_arc4_setup` with
the key followed by `ttls_arc4_crypt` on the `len` input bytes gives a code and the
bytes written to `output`. -/
structure ttls_arc4_ops where
  crypt : Buf → Buf → Int × Buf

/-- What the two encryption functions leave behind: the return value, the caller's
`output` buffer, and the local arrays `key` and `iv`. -/
structure PbeResult where
  ret : Int
  output : Buf
  key : Buf
  iv : Buf
  deriving DecidableEq, Repr

/-- The function `ttls_pkcs12_pbe_sha1_rc4_128`. `arc4_c` tells whether `TTLS_ARC4_C`
is defined; the function has no local `iv`, the field is left empty. -/
def ttls_pkcs12_pbe_sha1_rc4_128 {Ctx : Type} (arc4_c : Bool) (asn1 : ttls_asn1_ops)
    (md_info_from_type : Nat → Option (ttls_md_info_t Ctx)) (arc4 : ttls_arc4_ops)
    (fuel : Nat) (junk : Nat → Nat → Nat → Nat)
    (pbe_params : ttls_asn1_buf) (_mode : Int) (pwd : Buf) (pwdlen : Nat)
    (data : Buf) (len : Nat) (output : Buf) : Option PbeResult :=
  if arc4_c = false then
    some ⟨TTLS_ERR_PKCS12_FEATURE_UNAVAILABLE, output, [], []⟩
  else
    let key := stack_array (junk 0 1) 16
    match pkcs12_pbe_derive_key_iv asn1 md_info_from_type fuel junk pbe_params
        TTLS_MD_SHA1 pwd pwdlen key 16 none 0 with
    | none => none
    | some d =>
      if d.ret ≠ 0 then some ⟨d.ret, output, d.key, []⟩
      else
        let r := arc4.crypt (d.key.take 16) (data.take len)
        some ⟨r.1, memcpy output 0 r.2 r.2.length, ttls_zeroize d.key 16, []⟩

/-- One cipher of the cipher module (`cipher.h`) as `ttls_pkcs12_pbe` uses it. Every
operation returns its code first. -/
structure ttls_cipher_info_t (CCtx : Type) where
  key_bitlen : Nat
  iv_size : Nat
  /-- Calls `ttls_cipher_init` and `ttls_cipher_setup(&cipher_ctx, cipher_info)`. -/
  setup : Int × CCtx
  /-- Call `ttls_cipher_setkey(&cipher_ctx, key, key_bitlen, operation)`. -/
  setkey : CCtx → Buf → Nat → Int → Int × CCtx
  /-- Call `ttls_cipher_set_iv(&cipher_ctx, iv, iv_len)`. -/
  set_iv : CCtx → Buf → Nat → Int × CCtx
  /-- Call `ttls_cipher_reset(&cipher_ctx)`. -/
  reset : CCtx → Int × CCtx
  /-- Call `ttls_cipher_update(&cipher_ctx, input, ilen, output, &olen)`: the code, the
  context and the `olen` bytes written. -/
  update : CCtx → Buf → Int × CCtx × Buf
  /-- Call `ttls_cipher_finish(&cipher_ctx, output, &olen)`. -/
  finish : CCtx → Int × CCtx × Buf

/-- The function `ttls_pkcs12_pbe`; `cipher_info_from_type` is the cipher registry. -/
def ttls_pkcs12_pbe {Ctx CCtx : Type} (asn1 : ttls_asn1_ops)
    (md_info_from_type : Nat → Option (ttls_md_info_t Ctx))
    (cipher_info_from_type : Nat → Option (ttls_cipher_info_t CCtx))
    (fuel : Nat) (junk : Nat → Nat → Nat → Nat)
    (pbe_params : ttls_asn1_buf) (mode : Int) (cipher_type : Nat) (md_type : Nat)
    (pwd : Buf) (pwdlen : Nat) (data : Buf) (len : Nat) (output : Buf) :
    Option PbeResult :=
  let key := stack_array (junk 0 1) 32
  let iv := stack_array (junk 0 2) 16
  match cipher_info_from_type cipher_type with
  | none => some ⟨TTLS_ERR_PKCS12_FEATURE_UNAVAILABLE, output, key, iv⟩
  | some cipher_info =>
    let keylen := cipher_info.key_bitlen / 8
    match pkcs12_pbe_derive_key_iv asn1 md_info_from_type fuel junk pbe_params md_type
        pwd pwdlen key keylen (some iv) cipher_info.iv_size with
    | none => none
    | some d =>
      let key := d.key
      let iv := d.iv.getD iv
      if d.ret ≠ 0 then some ⟨d.ret, output, key, iv⟩
      else
        let zkey := ttls_zeroize key 32
        let ziv := ttls_zeroize iv 16
        let r1 := cipher_info.setup
        if r1.1 ≠ 0 then some ⟨r1.1, output, zkey, ziv⟩ else
        let r2 := cipher_info.setkey r1.2 (key.take keylen) (8 * keylen) mode
        if r2.1 ≠ 0 then some ⟨r2.1, output, zkey, ziv⟩ else
        let r3 := cipher_info.set_iv r2.2 (iv.take cipher_info.iv_size) cipher_info.iv_size
        if r3.1 ≠ 0 then some ⟨r3.1, output, zkey, ziv⟩ else
        let r4 := cipher_info.reset r3.2
        if r4.1 ≠ 0 then some ⟨r4.1, output, zkey, ziv⟩ else
        let r5 := cipher_info.update r4.2 (data.take len)
        let olen := r5.2.2.length
        let output := memcpy output 0 r5.2.2 olen
        if r5.1 ≠ 0 then some ⟨r5.1, output, zkey, ziv⟩ else
        let r6 := cipher_info.finish r5.2.1
        let output := memcpy output olen r6.2.2 r6.2.2.length
        if r6.1 ≠ 0 then some ⟨TTLS_ERR_PKCS12_PASSWORD_MISMATCH, output, zkey, ziv⟩
        else some ⟨r6.1, output, zkey, ziv⟩

/-! ## A small digest used to run the model on concrete inputs -/

/-- One-byte digest: one more than the sum of the message bytes, modulo 256. -/
def toy_digest (msg : Buf) : Buf := [(msg.sum + 1) % 256]

/-- A digest whose context is the message collected so far and whose operations
always succeed. -/
def toy_md : ttls_md_info_t Buf where
  size := 1
  setup := (0, [])
  starts := fun _ => (0, [])
  update := fun c x => (0, c ++ x)
  finish := fun c => (0, c, toy_digest c)
  md := fun x => (0, toy_digest x)

/-- A registry that knows the single digest type 4. -/
def toy_registry : Nat → Option (ttls_md_info_t Buf) :=
  fun t => if t = 4 then some toy_md else none

/-- A small parser for the two ASN.1 elements, short length form only: the element at
offset `p` has its tag at `p`, its length at `p + 1` and its content after that. -/
def toy_asn1 : ttls_asn1_ops where
  get_tag := fun mem p end_ tag =>
    if end_ < p + 2 then (-0x0060, p, 0)
    else if mem.getD p 0 ≠ tag then (-0x0062, p, 0)
    else if end_ < p + 2 + mem.getD (p + 1) 0 then (-0x0060, p + 2, mem.getD (p + 1) 0)
    else (0, p + 2, mem.getD (p + 1) 0)
  get_int := fun mem p end_ =>
    if end_ < p + 2 then (-0x0060, p, 0)
    else if mem.getD p 0 ≠ 0x02 then (-0x0062, p, 0)
    else if end_ < p + 2 + mem.getD (p + 1) 0 then (-0x0060, p + 2, 0)
    else
      (0, p + 2 + mem.getD (p + 1) 0,
        (((mem.drop (p + 2)).take (mem.getD (p + 1) 0)).foldl (fun a x => a * 256 + x) 0 : Nat))

/-- A stream cipher that adds the first key byte to every input byte. -/
def toy_arc4 : ttls_arc4_ops where
  crypt := fun key data => (0, data.map (fun x => (x + key.getD 0 0) % 256))

/-- A cipher with a 16 byte key and a 16 byte IV whose operations always succeed; it adds
the first key byte to every input byte and writes nothing when it finishes. -/
def toy_cipher : ttls_cipher_info_t Nat where
  key_bitlen := 128
  iv_size := 16
  setup := (0, 0)
  setkey := fun _ key _ _ => (0, key.getD 0 0)
  set_iv := fun c _ _ => (0, c)
  reset := fun c => (0, c)
  update := fun c data => (0, c, data.map (fun x => (x + c) % 256))
  finish := fun c => (0, c, [])

/-- A cipher registry that knows the single cipher type 2. -/
def toy_cipher_registry : Nat → Option (ttls_cipher_info_t Nat) :=
  fun t => if t = 2 then some toy_cipher else none

/-- The parameters `SEQUENCE { OCTET STRING 01 02, INTEGER 1 }`, given by their content. -/
def toy_params : ttls_asn1_buf :=
  { tag := 0x30, len := 7, mem := [0x04, 0x02, 0x01, 0x02, 0x02, 0x01, 0x01], p := 0 }

/-! ## Specification side definitions -/

/-- The filler repeated and truncated to `n` bytes: byte `i` is `filler[i mod fill_len]`. -/
def repeat_fill (filler : Buf) (fill_len n : Nat) : Buf :=
  (List.range n).map (fun i => filler.getD (i % fill_len) 0)

/-- The digest respects its buffer: its size is at most `TTLS_MD_MAX_SIZE`, no operation
writes more than `TTLS_MD_MAX_SIZE` bytes, and a successful one writes `size` bytes. -/
def md_sound {Ctx : Type} (md : ttls_md_info_t Ctx) : Prop :=
  md.size ≤ TTLS_MD_MAX_SIZE ∧
  (∀ c, (md.finish c).2.2.length ≤ TTLS_MD_MAX_SIZE ∧
    ((md.finish c).1 = 0 → (md.finish c).2.2.length = md.size)) ∧
  (∀ x, (md.md x).2.length ≤ TTLS_MD_MAX_SIZE ∧
    ((md.md x).1 = 0 → (md.md x).2.length = md.size))

/-- The four local arrays have their declared sizes. -/
def st_ok {Ctx : Type} (st : DerivState Ctx) : Prop :=
  st.salt_block.length = 128 ∧ st.pwd_block.length = 128 ∧ st.hash_block.length = 128 ∧
    st.hash_output.length = TTLS_MD_MAX_SIZE

/-- Two loop states agree on everything later rounds read: the write offset, the digest
context, the first `v` bytes of the salt and secret blocks and the bytes written so far. -/
def st_rel {Ctx : Type} (v : Nat) (s t : DerivState Ctx) : Prop :=
  s.p = t.p ∧ s.md_ctx = t.md_ctx ∧ s.salt_block.take v = t.salt_block.take v ∧
    s.pwd_block.take v = t.pwd_block.take v ∧ s.data.take s.p = t.data.take s.p

/-- Every operation of the digest returns 0. -/
def md_succeeds {Ctx : Type} (md : ttls_md_info_t Ctx) : Prop :=
  md.setup.1 = 0 ∧ (∀ c, (md.starts c).1 = 0) ∧ (∀ c x, (md.update c x).1 = 0) ∧
    (∀ c, (md.finish c).1 = 0) ∧ (∀ x, (md.md x).1 = 0)

/-- The state in which `ttls_pkcs12_derivation` enters its main loop. -/
def init_state {Ctx : Type} (junk : Nat → Nat → Nat) (data sb pb : Buf) (c : Ctx) : DerivState Ctx :=
  { data := data, p := 0, salt_block := sb, pwd_block := pb,
    hash_block := stack_array (junk 3) 128,
    hash_output := stack_array (junk 4) TTLS_MD_MAX_SIZE, md_ctx := c }

/-- The digest `md` computes the function `H`: the streaming interface on three chunks
and the one-shot call both give `H` of the message whenever they succeed, and
every value of `H` has `md.size` bytes. -/
def md_computes {Ctx : Type} (md : ttls_md_info_t Ctx) (H : Buf → Buf) : Prop :=
  (∀ c a b d,
    (md.starts c).1 = 0 →
    (md.update (md.starts c).2 a).1 = 0 →
    (md.update (md.update (md.starts c).2 a).2 b).1 = 0 →
    (md.update (md.update (md.update (md.starts c).2 a).2 b).2 d).1 = 0 →
    (md.finish (md.update (md.update (md.update (md.starts c).2 a).2 b).2 d).2).1 = 0 →
    (md.finish (md.update (md.update (md.update (md.starts c).2 a).2 b).2 d).2).2.2
      = H (a ++ b ++ d)) ∧
  (∀ x, (md.md x).1 = 0 → (md.md x).2 = H x) ∧
  (∀ x, (H x).length = md.size)

/-- The value of a buffer read as a big-endian integer. -/
def be_val (b : Buf) : Nat := b.foldl (fun a x => a * 256 + x) 0

/-- Every entry of the buffer is a byte. -/
def bytes_ok (b : Buf) : Prop := ∀ x ∈ b, x < 256

/-- Every digest the operations of `md` write consists of bytes. -/
def md_bytes {Ctx : Type} (md : ttls_md_info_t Ctx) : Prop :=
  (∀ c, bytes_ok (md.finish c).2.2) ∧ (∀ x, bytes_ok (md.md x).2)

/-- A state of the main loop used to run one round on concrete values. -/
def toy_state : DerivState Buf :=
  { data := [0, 0], p := 0, salt_block := List.replicate 128 3,
    pwd_block := List.replicate 128 5, hash_block := List.replicate 128 0,
    hash_output := List.replicate 64 0, md_ctx := [] }

/-- The state after one round from `toy_state` when the round digest is the byte `d`. -/
def toy_next (d : Nat) : DerivState Buf :=
  { data := [d, 0], p := 1,
    salt_block := List.replicate 63 (3 + d) ++ [4 + d] ++ List.replicate 64 3,
    pwd_block := List.replicate 63 (5 + d) ++ [6 + d] ++ List.replicate 64 5,
    hash_block := List.replicate 63 d ++ [d + 1] ++ List.replicate 64 0,
    hash_output := d :: List.replicate 63 0,
    md_ctx := List.replicate 64 1 ++ List.replicate 64 3 ++ List.replicate 64 5 }

/-- The result of the call `ttls_pkcs12_derivation` makes for 3 bytes with the secret
`[1, 2]`, the salt `[3]`, the toy digest, id 1 and one iteration. -/
def toy_result : DerivResult :=
  ⟨0, [97, 227, 227], List.replicate 128 0, List.replicate 128 0, List.replicate 128 0,
    List.replicate 64 0⟩

/-- A digest like `toy_md` whose `ttls_md_update` fails with -1 on a chunk that starts
with the byte 2, the first chunk of a derivation with the diversifier
`TTLS_PKCS12_DERIVE_IV`. -/
def toy_md_iv_fails : ttls_md_info_t Buf where
  size := 1
  setup := (0, [])
  starts := fun _ => (0, [])
  update := fun c x => (if x.head? = some 2 then -1 else 0, c ++ x)
  finish := fun c => (0, c, toy_digest c)
  md := fun x => (0, toy_digest x)

/-- A registry that knows `toy_md` as type 4 and `toy_md_iv_fails` as type 5. -/
def toy_registry_iv : Nat → Option (ttls_md_info_t Buf) :=
  fun t => if t = 4 then some toy_md else if t = 5 then some toy_md_iv_fails else none

/-- The parameters `SEQUENCE { OCTET STRING (empty), INTEGER 1 }`, given by their
content. -/
def toy_params_empty_salt : ttls_asn1_buf :=
  { tag := 0x30, len := 5, mem := [0x04, 0x00, 0x02, 0x01, 0x01], p := 0 }

/-! ## `src/tls/ssl_internal.h` -/

/-- Transport `TTLS_SSL_TRANSPORT_STREAM` of `ssl.h`. -/
def TTLS_SSL_TRANSPORT_STREAM : Nat := 0
/-- Transport `TTLS_SSL_TRANSPORT_DATAGRAM` of `ssl.h`. -/
def TTLS_SSL_TRANSPORT_DATAGRAM : Nat := 1
/-- The macro `TTLS_SSL_HEADER_LEN`. -/
def TTLS_SSL_HEADER_LEN : Nat := 13

/-- The part of `ttls_ssl_config` the header functions read. -/
structure ttls_ssl_config where
  transport : Nat
  deriving DecidableEq, Repr

/-- The part of `ttls_ssl_context` the header functions read. -/
structure ttls_ssl_context where
  conf : ttls_ssl_config
  deriving DecidableEq, Repr

/-- The function `ttls_ssl_hdr_len`; `proto_dtls` tells whether `TTLS_SSL_PROTO_DTLS`
is defined. -/
def ttls_ssl_hdr_len (proto_dtls : Bool) (ssl : ttls_ssl_context) : Nat :=
  if proto_dtls = true then
    if ssl.conf.transport = TTLS_SSL_TRANSPORT_DATAGRAM then 13 else 5
  else 5

/-- The function `ttls_ssl_hs_hdr_len`; `proto_dtls` tells whether
`TTLS_SSL_PROTO_DTLS` is defined. -/
def ttls_ssl_hs_hdr_len (proto_dtls : Bool) (ssl : ttls_ssl_context) : Nat :=
  if proto_dtls = true then
    if ssl.conf.transport = TTLS_SSL_TRANSPORT_DATAGRAM then 12 else 4
  else 4

/-- The function `ttls_ssl_safer_memcmp`: the loop
`for (i = 0; i < n; i++) diff |= A[i] ^ B[i];` on the `unsigned char` `diff`, whose last
value is returned as an `int`. -/
def ttls_ssl_safer_memcmp (a b : Buf) (n : Nat) : Int :=
  ((List.range n).foldl (fun diff i => (diff ||| (a.getD i 0 ^^^ b.getD i 0)) % 256) 0 : Nat)

/-- Digest type `TTLS_MD_NONE` of `md.h`. -/
def TTLS_MD_NONE : Nat := 0
/-- Digest type `TTLS_MD_SHA256` of `md.h`. -/
def TTLS_MD_SHA256 : Nat := 6
/-- Digest type `TTLS_MD_SHA384` of `md.h`. -/
def TTLS_MD_SHA384 : Nat := 7
/-- Signature type `TTLS_PK_RSA` of `pk.h`. -/
def TTLS_PK_RSA : Nat := 1
/-- Signature type `TTLS_PK_ECDSA` of `pk.h`. -/
def TTLS_PK_ECDSA : Nat := 4

/-- The structure `ttls_ssl_sig_hash_set_t`: one hash per signature algorithm. -/
structure ttls_ssl_sig_hash_set_t where
  rsa : Nat
  ecdsa : Nat
  deriving DecidableEq, Repr

/-- Modelled from the spec: `ttls_ssl_sig_hash_set_const_hash` is declared in
`ssl_internal.h` and defined outside the translated sources. Its declaration says
"Allow exactly one hash algorithm for each signature": both entries become `md_alg`. -/
def ttls_ssl_sig_hash_set_const_hash (_set : ttls_ssl_sig_hash_set_t) (md_alg : Nat) :
    ttls_ssl_sig_hash_set_t :=
  { rsa := md_alg, ecdsa := md_alg }

/-- The inline function `ttls_ssl_sig_hash_set_init`. -/
def ttls_ssl_sig_hash_set_init (set : ttls_ssl_sig_hash_set_t) : ttls_ssl_sig_hash_set_t :=
  ttls_ssl_sig_hash_set_const_hash set TTLS_MD_NONE

/-- Modelled from the spec: `ttls_ssl_sig_hash_set_add` is declared in `ssl_internal.h`
and defined outside the translated sources. The spec keeps "at most one hash per
signature algorithm" with "last-write-wins semantics": the entry of `sig_alg` becomes
`md_alg`, and a signature algorithm other than RSA and ECDSA has no entry. -/
def ttls_ssl_sig_hash_set_add (set : ttls_ssl_sig_hash_set_t) (sig_alg md_alg : Nat) :
    ttls_ssl_sig_hash_set_t :=
  if sig_alg = TTLS_PK_RSA then { set with rsa := md_alg }
  else if sig_alg = TTLS_PK_ECDSA then { set with ecdsa := md_alg }
  else set

/-- Modelled from the spec: `ttls_ssl_sig_hash_set_find` is declared in `ssl_internal.h`
and defined outside the translated sources. The set is "a compact mapping from signature
algorithm (RSA, ECDSA) to the single negotiated hash algorithm": the entry of `sig_alg`,
and `TTLS_MD_NONE` for a signature algorithm without entry. -/
def ttls_ssl_sig_hash_set_find (set : ttls_ssl_sig_hash_set_t) (sig_alg : Nat) : Nat :=
  if sig_alg = TTLS_PK_RSA then set.rsa
  else if sig_alg = TTLS_PK_ECDSA then set.ecdsa
  else TTLS_MD_NONE

/-- The return codes of the ASN.1 parsers are 0 or negative error codes. -/
def asn1_codes_ok (asn1 : ttls_asn1_ops) : Prop :=
  (∀ mem p e t, (asn1.get_tag mem p e t).1 ≤ 0) ∧ (∀ mem p e, (asn1.get_int mem p e).1 ≤ 0)

/-- The call `ttls_asn1_get_tag(p, end, &salt->len, TTLS_ASN1_OCTET_STRING)` of
`pkcs12_parse_pbe_params`. -/
def pbe_salt_tag (asn1 : ttls_asn1_ops) (params : ttls_asn1_buf) : Int × Nat × Nat :=
  asn1.get_tag params.mem params.p (params.p + params.len) TTLS_ASN1_OCTET_STRING

/-- The call `ttls_asn1_get_int(p, end, iterations)` of `pkcs12_parse_pbe_params`, made
right after the content of the octet string. -/
def pbe_iter_int (asn1 : ttls_asn1_ops) (params : ttls_asn1_buf) : Int × Nat × Int :=
  asn1.get_int params.mem ((pbe_salt_tag asn1 params).2.1 + (pbe_salt_tag asn1 params).2.2)
    (params.p + params.len)

/-- The bitwise OR of `a[i] XOR b[i]` over all `i < n`. -/
def or_of_xors (a b : Buf) (n : Nat) : Nat :=
  (List.range n).foldl (fun d i => d ||| (a.getD i 0 ^^^ b.getD i 0)) 0

/-! ## Definitions for the password based encryption claims -/

/-- The key derivation of `pkcs12_pbe_derive_key_iv`: the call of `ttls_pkcs12_derivation`
with the diversifier `TTLS_PKCS12_DERIVE_KEY`. -/
def pbe_key_derivation {Ctx : Type} (asn1 : ttls_asn1_ops)
    (md_info_from_type : Nat → Option (ttls_md_info_t Ctx))
    (fuel : Nat) (junk : Nat → Nat → Nat → Nat)
    (pbe_params : ttls_asn1_buf) (md_type : Nat) (pwd : Buf) (pwdlen : Nat)
    (key : Buf) (keylen : Nat) : Option DerivResult :=
  ttls_pkcs12_derivation md_info_from_type fuel (junk 1) key keylen (pbe_unipwd pwd pwdlen)
    (pwdlen * 2 + 2) (pbe_params.mem.drop (pkcs12_parse_pbe_params asn1 pbe_params 0 0 0).salt_p)
    (pkcs12_parse_pbe_params asn1 pbe_params 0 0 0).salt_len md_type TTLS_PKCS12_DERIVE_KEY
    (pkcs12_parse_pbe_params asn1 pbe_params 0 0 0).iterations

/-- The IV derivation of `pkcs12_pbe_derive_key_iv`: the call of `ttls_pkcs12_derivation`
with the diversifier `TTLS_PKCS12_DERIVE_IV`. -/
def pbe_iv_derivation {Ctx : Type} (asn1 : ttls_asn1_ops)
    (md_info_from_type : Nat → Option (ttls_md_info_t Ctx))
    (fuel : Nat) (junk : Nat → Nat → Nat → Nat)
    (pbe_params : ttls_asn1_buf) (md_type : Nat) (pwd : Buf) (pwdlen : Nat)
    (iv : Buf) (ivlen : Nat) : Option DerivResult :=
  ttls_pkcs12_derivation md_info_from_type fuel (junk 2) iv ivlen (pbe_unipwd pwd pwdlen)
    (pwdlen * 2 + 2) (pbe_params.mem.drop (pkcs12_parse_pbe_params asn1 pbe_params 0 0 0).salt_p)
    (pkcs12_parse_pbe_params asn1 pbe_params 0 0 0).salt_len md_type TTLS_PKCS12_DERIVE_IV
    (pkcs12_parse_pbe_params asn1 pbe_params 0 0 0).iterations

/-- A cipher without key and IV, as the NULL cipher is, whose `ttls_cipher_finish` fails
with the code `TTLS_ERR_CIPHER_INVALID_PADDING` (-0x6200). -/
def toy_cipher_bad_finish : ttls_cipher_info_t Nat where
  key_bitlen := 0
  iv_size := 0
  setup := (0, 0)
  setkey := fun _ key _ _ => (0, key.getD 0 0)
  set_iv := fun c _ _ => (0, c)
  reset := fun c => (0, c)
  update := fun c data => (0, c, data.map (fun x => (x + c) % 256))
  finish := fun c => (-0x6200, c, [])

/-- A cipher registry that knows `toy_cipher` as type 2 and `toy_cipher_bad_finish` as
type 3. -/
def toy_cipher_registry_finish : Nat → Option (ttls_cipher_info_t Nat) :=
  fun t => if t = 2 then some toy_cipher else if t = 3 then some toy_cipher_bad_finish else none

/-- The call `ttls_cipher_setkey(&cipher_ctx, key, 8 * keylen, mode)` of `ttls_pkcs12_pbe`,
made on the context `ttls_cipher_setup` left. -/
def pbe_setkey {CCtx : Type} (ci : ttls_cipher_info_t CCtx) (key : Buf) (mode : Int) :
    Int × CCtx :=
  ci.setkey ci.setup.2 (key.take (ci.key_bitlen / 8)) (8 * (ci.key_bitlen / 8)) mode

/-- The call `ttls_cipher_set_iv(&cipher_ctx, iv, cipher_info->iv_size)` of
`ttls_pkcs12_pbe`. -/
def pbe_set_iv {CCtx : Type} (ci : ttls_cipher_info_t CCtx) (key iv : Buf) (mode : Int) :
    Int × CCtx :=
  ci.set_iv (pbe_setkey ci key mode).2 (iv.take ci.iv_size) ci.iv_size

/-- The call `ttls_cipher_reset(&cipher_ctx)` of `ttls_pkcs12_pbe`. -/
def pbe_reset {CCtx : Type} (ci : ttls_cipher_info_t CCtx) (key iv : Buf) (mode : Int) :
    Int × CCtx :=
  ci.reset (pbe_set_iv ci key iv mode).2

/-- The call `ttls_cipher_update(&cipher_ctx, data, len, output, &olen)` of
`ttls_pkcs12_pbe`. -/
def pbe_update {CCtx : Type} (ci : ttls_cipher_info_t CCtx) (key iv : Buf) (mode : Int)
    (data : Buf) (len : Nat) : Int × CCtx × Buf :=
  ci.update (pbe_reset ci key iv mode).2 (data.take len)

/-- The call `ttls_cipher_finish(&cipher_ctx, output + olen, &olen)` of
`ttls_pkcs12_pbe`. -/
def pbe_finish {CCtx : Type} (ci : ttls_cipher_info_t CCtx) (key iv : Buf) (mode : Int)
    (data : Buf) (len : Nat) : Int × CCtx × Buf :=
  ci.finish (pbe_update ci key iv mode data len).2.1

/-- The code `ttls_pkcs12_pbe` returns after a key derivation that left `d`: the code of
the first step that failed, `TTLS_ERR_PKCS12_PASSWORD_MISMATCH` in place of the code of
`ttls_cipher_finish`, and 0 when no step failed. -/
def pbe_first_failure {CCtx : Type} (ci : ttls_cipher_info_t CCtx) (d : DeriveKeyIv) (iv : Buf)
    (mode : Int) (data : Buf) (len : Nat) : Int :=
  if d.ret ≠ 0 then d.ret
  else if ci.setup.1 ≠ 0 then ci.setup.1
  else if (pbe_setkey ci d.key mode).1 ≠ 0 then (pbe_setkey ci d.key mode).1
  else if (pbe_set_iv ci d.key iv mode).1 ≠ 0 then (pbe_set_iv ci d.key iv mode).1
  else if (pbe_reset ci d.key iv mode).1 ≠ 0 then (pbe_reset ci d.key iv mode).1
  else if (pbe_update ci d.key iv mode data len).1 ≠ 0 then
    (pbe_update ci d.key iv mode data len).1
  else if (pbe_finish ci d.key iv mode data len).1 ≠ 0 then TTLS_ERR_PKCS12_PASSWORD_MISMATCH
  else 0

/-! ## `src/tls/x509_create.c` -/

/-- The macro `TTLS_X509_MAX_DN_NAME_SIZE` of `x509.h`. -/
def TTLS_X509_MAX_DN_NAME_SIZE : Nat := 256

/-- Error code `TTLS_ERR_X509_UNKNOWN_OID` of `x509.h`. -/
def TTLS_ERR_X509_UNKNOWN_OID : Int := -0x2100

/-- Error code `TTLS_ERR_X509_INVALID_NAME` of `x509.h`. -/
def TTLS_ERR_X509_INVALID_NAME : Int := -0x2380

/-- Error code `TTLS_ERR_X509_ALLOC_FAILED` of `x509.h`. -/
def TTLS_ERR_X509_ALLOC_FAILED : Int := -0x2880

/-- The ASN.1 tag `TTLS_ASN1_OID` of `asn1.h`. -/
def TTLS_ASN1_OID : Nat := 0x06

/-- The bytes of a C string literal, without its terminating NUL. -/
def str_bytes (s : String) : Buf := s.toList.map Char.toNat

/-- The function `strlen`: the number of bytes before the first NUL; a list that ends
without one is followed by the terminator. -/
def strlen : Buf → Nat
  | [] => 0
  | x :: rest => if x = 0 then 0 else strlen rest + 1

/-- The function `strncmp(a, b, n)`: the difference at the first position below `n`
where the strings differ, 0 when there is none before `n` or before a common NUL. -/
def strncmp : Buf → Buf → Nat → Int
  | _, _, 0 => 0
  | a, b, n + 1 =>
    if a.headD 0 ≠ b.headD 0 then (a.headD 0 : Int) - (b.headD 0 : Int)
    else if a.headD 0 = 0 then 0
    else strncmp a.tail b.tail n

/-- The object identifier `TTLS_OID_AT_CN` of `oid.h`. -/
def TTLS_OID_AT_CN : Buf := [0x55, 0x04, 0x03]

/-- The object identifier `TTLS_OID_AT_SUR_NAME` of `oid.h`. -/
def TTLS_OID_AT_SUR_NAME : Buf := [0x55, 0x04, 0x04]

/-- The object identifier `TTLS_OID_AT_SERIAL_NUMBER` of `oid.h`. -/
def TTLS_OID_AT_SERIAL_NUMBER : Buf := [0x55, 0x04, 0x05]

/-- The object identifier `TTLS_OID_AT_COUNTRY` of `oid.h`. -/
def TTLS_OID_AT_COUNTRY : Buf := [0x55, 0x04, 0x06]

/-- The object identifier `TTLS_OID_AT_LOCALITY` of `oid.h`. -/
def TTLS_OID_AT_LOCALITY : Buf := [0x55, 0x04, 0x07]

/-- The object identifier `TTLS_OID_AT_STATE` of `oid.h`. -/
def TTLS_OID_AT_STATE : Buf := [0x55, 0x04, 0x08]

/-- The object identifier `TTLS_OID_AT_ORGANIZATION` of `oid.h`. -/
def TTLS_OID_AT_ORGANIZATION : Buf := [0x55, 0x04, 0x0A]

/-- The object identifier `TTLS_OID_AT_ORG_UNIT` of `oid.h`. -/
def TTLS_OID_AT_ORG_UNIT : Buf := [0x55, 0x04, 0x0B]

/-- The object identifier `TTLS_OID_AT_TITLE` of `oid.h`. -/
def TTLS_OID_AT_TITLE : Buf := [0x55, 0x04, 0x0C]

/-- The object identifier `TTLS_OID_AT_POSTAL_ADDRESS` of `oid.h`. -/
def TTLS_OID_AT_POSTAL_ADDRESS : Buf := [0x55, 0x04, 0x10]

/-- The object identifier `TTLS_OID_AT_POSTAL_CODE` of `oid.h`. -/
def TTLS_OID_AT_POSTAL_CODE : Buf := [0x55, 0x04, 0x11]

/-- The object identifier `TTLS_OID_AT_GIVEN_NAME` of `oid.h`. -/
def TTLS_OID_AT_GIVEN_NAME : Buf := [0x55, 0x04, 0x2A]

/-- The object identifier `TTLS_OID_AT_INITIALS` of `oid.h`. -/
def TTLS_OID_AT_INITIALS : Buf := [0x55, 0x04, 0x2B]

/-- The object identifier `TTLS_OID_AT_GENERATION_QUALIFIER` of `oid.h`. -/
def TTLS_OID_AT_GENERATION_QUALIFIER : Buf := [0x55, 0x04, 0x2C]

/-- The object identifier `TTLS_OID_AT_DN_QUALIFIER` of `oid.h`. -/
def TTLS_OID_AT_DN_QUALIFIER : Buf := [0x55, 0x04, 0x2E]

/-- The object identifier `TTLS_OID_AT_PSEUDONYM` of `oid.h`. -/
def TTLS_OID_AT_PSEUDONYM : Buf := [0x55, 0x04, 0x41]

/-- The object identifier `TTLS_OID_PKCS9_EMAIL` of `oid.h`. -/
def TTLS_OID_PKCS9_EMAIL : Buf := [0x2A, 0x86, 0x48, 0x86, 0xF7, 0x0D, 0x01, 0x09, 0x01]

/-- The object identifier `TTLS_OID_DOMAIN_COMPONENT` of `oid.h`. -/
def TTLS_OID_DOMAIN_COMPONENT : Buf :=
  [0x09, 0x92, 0x26, 0x89, 0x93, 0xF2, 0x2C, 0x64, 0x01, 0x19]

/-- The type `x509_attr_descriptor_t`. -/
structure x509_attr_descriptor_t where
  name : Buf
  name_len : Nat
  oid : Buf
  deriving DecidableEq, Repr

/-- One row `{ ADD_STRLEN(s), oid }` of the table: the name and `sizeof(s) - 1`. -/
def ADD_STRLEN (s : String) (oid : Buf) : x509_attr_descriptor_t :=
  { name := str_bytes s, name_len := (str_bytes s).length, oid := oid }

/-- The table `x509_attrs`; the end of the list stands for the row `{ NULL, 0, NULL }`. -/
def x509_attrs : List x509_attr_descriptor_t :=
  [ ADD_STRLEN "CN" TTLS_OID_AT_CN,
    ADD_STRLEN "commonName" TTLS_OID_AT_CN,
    ADD_STRLEN "C" TTLS_OID_AT_COUNTRY,
    ADD_STRLEN "countryName" TTLS_OID_AT_COUNTRY,
    ADD_STRLEN "O" TTLS_OID_AT_ORGANIZATION,
    ADD_STRLEN "organizationName" TTLS_OID_AT_ORGANIZATION,
    ADD_STRLEN "L" TTLS_OID_AT_LOCALITY,
    ADD_STRLEN "locality" TTLS_OID_AT_LOCALITY,
    ADD_STRLEN "R" TTLS_OID_PKCS9_EMAIL,
    ADD_STRLEN "OU" TTLS_OID_AT_ORG_UNIT,
    ADD_STRLEN "organizationalUnitName" TTLS_OID_AT_ORG_UNIT,
    ADD_STRLEN "ST" TTLS_OID_AT_STATE,
    ADD_STRLEN "stateOrProvinceName" TTLS_OID_AT_STATE,
    ADD_STRLEN "emailAddress" TTLS_OID_PKCS9_EMAIL,
    ADD_STRLEN "serialNumber" TTLS_OID_AT_SERIAL_NUMBER,
    ADD_STRLEN "postalAddress" TTLS_OID_AT_POSTAL_ADDRESS,
    ADD_STRLEN "postalCode" TTLS_OID_AT_POSTAL_CODE,
    ADD_STRLEN "dnQualifier" TTLS_OID_AT_DN_QUALIFIER,
    ADD_STRLEN "title" TTLS_OID_AT_TITLE,
    ADD_STRLEN "surName" TTLS_OID_AT_SUR_NAME,
    ADD_STRLEN "SN" TTLS_OID_AT_SUR_NAME,
    ADD_STRLEN "givenName" TTLS_OID_AT_GIVEN_NAME,
    ADD_STRLEN "GN" TTLS_OID_AT_GIVEN_NAME,
    ADD_STRLEN "initials" TTLS_OID_AT_INITIALS,
    ADD_STRLEN "pseudonym" TTLS_OID_AT_PSEUDONYM,
    ADD_STRLEN "generationQualifier" TTLS_OID_AT_GENERATION_QUALIFIER,
    ADD_STRLEN "domainComponent" TTLS_OID_DOMAIN_COMPONENT,
    ADD_STRLEN "DC" TTLS_OID_DOMAIN_COMPONENT ]

/-- The loop of `x509_at_oid_from_name` from the row `cur` on; `none` is `NULL`, the `oid`
of the last row. -/
def at_oid_loop : List x509_attr_descriptor_t → Buf → Nat → Option Buf
  | [], _, _ => none
  | cur :: rest, name, name_len =>
    if cur.name_len = name_len ∧ strncmp cur.name name name_len = 0 then some cur.oid
    else at_oid_loop rest name name_len

/-- The function `x509_at_oid_from_name`. -/
def x509_at_oid_from_name (name : Buf) (name_len : Nat) : Option Buf :=
  at_oid_loop x509_attrs name name_len

/-- An entry `ttls_asn1_named_data` of `asn1.h`: the buffers `oid` and `val`, each given
by its bytes; a list of entries is a chain linked by `next`. -/
structure ttls_asn1_named_data where
  oid : Buf
  val : Buf
  deriving DecidableEq, Repr

/-- The function `ttls_asn1_store_named_data(head, oid, oid_len, val, val_len)` of
`asn1write.c`, a parameter of the model: it gets the chain, the `oid_len` bytes at `oid`,
the `val_len` bytes at `val` (`none` for `NULL`) and `val_len`, and returns `none` for
`NULL`, or the new chain and the position of the entry it returns. -/
abbrev store_named_data_t : Type :=
  List ttls_asn1_named_data → Buf → Option Buf → Nat →
    Option (List ttls_asn1_named_data × Nat)

/-- Modelled from the spec: `ttls_asn1_free_named_data_list` is defined outside the
sources at hand; as the comment at its call says it clears the existing chain, which
leaves `*head` empty. -/
def ttls_asn1_free_named_data_list (_head : List ttls_asn1_named_data) :
    List ttls_asn1_named_data := []

/-- The variables of `ttls_x509_string_to_names` inside its loop: the chain at `*head`,
the pointers `c` and `s` as offsets in `name`, `in_tag`, `oid` (empty for `NULL`), the
array `data`, the pointer `d` as an offset in `data`, and a ghost flag that records a
write to `data` at an offset that is not below `TTLS_X509_MAX_DN_NAME_SIZE`. -/
structure NamesState where
  head : List ttls_asn1_named_data
  c : Nat
  s : Nat
  in_tag : Bool
  oid : Buf
  data : Buf
  d : Nat
  overflow : Bool
  deriving DecidableEq, Repr

/-- What `ttls_x509_string_to_names` leaves behind: the return value, the chain at
`*head`, and the ghost flag of `NamesState`. -/
structure NamesResult where
  ret : Int
  head : List ttls_asn1_named_data
  overflow : Bool
  deriving DecidableEq, Repr

/-- One pass of the loop body ends the function or goes on to the next pass. -/
inductive NamesStep where
  | done (r : NamesResult)
  | more (st : NamesState)
  deriving DecidableEq, Repr

/-- The loop `while (c < end && *(c + 1) == ' ') c++;`, which makes at most `end - c`
passes. -/
def skip_loop (name : Buf) (end_ : Nat) : Nat → Nat → Nat
  | 0, c => c
  | k + 1, c => if c < end_ ∧ name.getD (c + 1) 0 = 32 then skip_loop name end_ k (c + 1) else c

/-- The last part of the loop body: `if (!in_tag && s != c + 1)` with the write
`*(d++) = *c` and the length check, then `c++`. -/
def names_write (name : Buf) (st : NamesState) : NamesStep :=
  if st.in_tag = false ∧ st.s ≠ st.c + 1 then
    let data := st.data.set st.d (name.getD st.c 0)
    let overflow := st.overflow || decide (TTLS_X509_MAX_DN_NAME_SIZE ≤ st.d)
    let d := st.d + 1
    if d = TTLS_X509_MAX_DN_NAME_SIZE then
      .done ⟨TTLS_ERR_X509_INVALID_NAME, st.head, overflow⟩
    else .more { st with data := data, d := d, overflow := overflow, c := st.c + 1 }
  else .more { st with c := st.c + 1 }

/-- The first part of the loop body: `if (in_tag && *c == '=')` with the lookup of the
tag; `none` is the jump to `exit` with `TTLS_ERR_X509_UNKNOWN_OID`. -/
def names_tag (name : Buf) (st : NamesState) : Option NamesState :=
  if st.in_tag = true ∧ name.getD st.c 0 = 61 then
    match x509_at_oid_from_name (name.drop st.s) (st.c - st.s) with
    | none => none
    | some oid => some { st with oid := oid, s := st.c + 1, in_tag := false, d := 0 }
  else some st

/-- One pass of the body of the loop `while (c <= end)` of `ttls_x509_string_to_names`;
`end_` is the offset of `end`, where `name` has its terminating NUL. -/
def names_step (store : store_named_data_t) (name : Buf) (end_ : Nat) (st0 : NamesState) :
    NamesStep :=
  match names_tag name st0 with
  | none => .done ⟨TTLS_ERR_X509_UNKNOWN_OID, st0.head, st0.overflow⟩
  | some st =>
    if st.in_tag = false ∧ name.getD st.c 0 = 92 ∧ st.c ≠ end_ then
      if st.c + 1 = end_ ∨ name.getD (st.c + 1) 0 ≠ 44 then
        .done ⟨TTLS_ERR_X509_INVALID_NAME, st.head, st.overflow⟩
      else names_write name { st with c := st.c + 1 }
    else if st.in_tag = false ∧ (name.getD st.c 0 = 44 ∨ st.c = end_) then
      match store st.head (st.oid.take (strlen st.oid)) (some (st.data.take st.d)) st.d with
      | none => .done ⟨TTLS_ERR_X509_ALLOC_FAILED, st.head, st.overflow⟩
      | some h =>
        let c := skip_loop name end_ (end_ - st.c) st.c
        names_write name { st with head := h.1, c := c, s := c + 1, in_tag := true }
    else names_write name st

/-- The loop `while (c <= end)`; a pass uses one unit of fuel, and leaving the loop
returns `ret`, which is still 0. -/
def names_loop (store : store_named_data_t) (name : Buf) (end_ : Nat) :
    Nat → NamesState → Option NamesResult
  | 0, st => if st.c ≤ end_ then none else some ⟨0, st.head, st.overflow⟩
  | fuel + 1, st =>
    if st.c ≤ end_ then
      match names_step store name end_ st with
      | .done r => some r
      | .more st1 => names_loop store name end_ fuel st1
    else some ⟨0, st.head, st.overflow⟩

/-- The function `ttls_x509_string_to_names`. `name` holds the bytes of the C string,
`junk` is the stack the array `data` finds. -/
def ttls_x509_string_to_names (store : store_named_data_t) (fuel : Nat) (junk : Nat → Nat)
    (head : List ttls_asn1_named_data) (name : Buf) : Option NamesResult :=
  names_loop store name (strlen name) fuel
    { head := ttls_asn1_free_named_data_list head, c := 0, s := 0, in_tag := true, oid := [],
      data := stack_array junk TTLS_X509_MAX_DN_NAME_SIZE, d := 0, overflow := false }

/-- A store that appends the new entry to the chain and never fails; a value given as
`NULL` is allocated as `val_len` zero bytes. -/
def toy_store : store_named_data_t :=
  fun head oid val val_len =>
    some (head ++ [⟨oid, (val.getD (List.replicate val_len 0)).take val_len⟩], head.length)

/-- Every row of a table has its name length right and no NUL in its name. -/
def attrs_ok (tbl : List x509_attr_descriptor_t) : Prop :=
  ∀ cur ∈ tbl, cur.name_len = cur.name.length ∧ ∀ x ∈ cur.name, x ≠ 0

/-- The text of an attribute value: every comma of the value is written as a backslash
followed by a comma. -/
def escape_value : Buf → Buf
  | [] => []
  | x :: rest => if x = 44 then 92 :: 44 :: escape_value rest else x :: escape_value rest

/-- One attribute of a name in text form: the tag, the value, and the number of spaces
that follow the comma before it. -/
structure dn_attr where
  tag : Buf
  value : Buf
  spaces : Nat
  deriving DecidableEq, Repr

/-- The text after the first attribute: for each further attribute a comma, its spaces,
its tag, `=` and its value. -/
def dn_rest : List dn_attr → Buf
  | [] => []
  | b :: rest =>
    44 :: (List.replicate b.spaces 32 ++ (b.tag ++ 61 :: (escape_value b.value ++ dn_rest rest)))

/-- The text `T1=V1,T2=V2,...,Tn=Vn` of a list of attributes. -/
def dn_text : List dn_attr → Buf
  | [] => []
  | a :: rest => a.tag ++ 61 :: (escape_value a.value ++ dn_rest rest)

/-- The calls of `ttls_asn1_store_named_data` for a list of attributes, in their order:
each with the table OID of the tag and the bytes of the value; `none` when a tag is not
in the table or a call returns `NULL`. -/
def store_seq (store : store_named_data_t) :
    List ttls_asn1_named_data → List dn_attr → Option (List ttls_asn1_named_data)
  | h, [] => some h
  | h, a :: rest =>
    match x509_at_oid_from_name a.tag a.tag.length with
    | none => none
    | some oid =>
      match store h (oid.take (strlen oid)) (some a.value) a.value.length with
      | none => none
      | some p => store_seq store p.1 rest

/-- The tag is a name of the attribute table and the value can be written: it has no
NUL and no backslash and fewer than `TTLS_X509_MAX_DN_NAME_SIZE` bytes. -/
def attr_ok (a : dn_attr) : Prop :=
  a.tag ∈ x509_attrs.map (fun cur => cur.name) ∧ (∀ x ∈ a.value, x ≠ 92 ∧ x ≠ 0) ∧
    a.value.length < TTLS_X509_MAX_DN_NAME_SIZE

/-- The entry an attribute is stored as: the table OID of its tag and its value. -/
def named_entry (a : dn_attr) : ttls_asn1_named_data :=
  ⟨(x509_at_oid_from_name a.tag a.tag.length).getD [], a.value⟩

/-- The writers of `asn1write.c` that `x509_create.c` calls, parameters of the model. `W`
is the state of the output (`*p` and the bytes written below it); each writer returns
its `int` result, a negative error or the number of bytes written, and the new state. -/
structure ttls_asn1_write_ops (W : Type) where
  /-- Call `ttls_asn1_write_raw_buffer(p, start, buf, size)`. -/
  raw_buffer : W → Buf → Nat → Int × W
  /-- Call `ttls_asn1_write_len(p, start, len)`. -/
  len : W → Nat → Int × W
  /-- Call `ttls_asn1_write_tag(p, start, tag)`. -/
  tag : W → Nat → Int × W
  /-- Call `ttls_asn1_write_bool(p, start, boolean)`. -/
  bool : W → Int → Int × W

/-- The macro `TTLS_ASN1_CHK_ADD(g, f)` of `asn1write.h`: a negative result `r` of `f`
is returned, another one is added to the `size_t` `g` and the function goes on with
`k`. -/
def TTLS_ASN1_CHK_ADD {W : Type} (g : Nat) (r : Int × W) (k : Nat → W → Int × W) : Int × W :=
  if r.1 < 0 then (r.1, r.2) else k ((g + r.1.toNat) % 2 ^ SIZE_T_BITS) r.2

/-- The conversion `(int) len` of a `size_t`. -/
def int_of_size (n : Nat) : Int :=
  if n % 2 ^ 32 < 2 ^ 31 then ((n % 2 ^ 32 : Nat) : Int) else ((n % 2 ^ 32 : Nat) : Int) - 2 ^ 32

/-- The `size_t` difference `a - b`. -/
def size_sub (a b : Nat) : Nat := (a + 2 ^ SIZE_T_BITS - b % 2 ^ SIZE_T_BITS) % 2 ^ SIZE_T_BITS

/-- The function `ttls_x509_set_extension`. -/
def ttls_x509_set_extension (store : store_named_data_t) (head : List ttls_asn1_named_data)
    (oid : Buf) (oid_len : Nat) (critical : Int) (val : Buf) (val_len : Nat) :
    Int × List ttls_asn1_named_data :=
  match store head (oid.take oid_len) none ((val_len + 1) % 2 ^ SIZE_T_BITS) with
  | none => (TTLS_ERR_X509_ALLOC_FAILED, head)
  | some (l, i) =>
    match l[i]? with
    | none => (0, l)
    | some cur =>
      let p := cur.val.set 0 (critical % 256).toNat
      let p := memcpy p 1 val val_len
      (0, l.set i { cur with val := p })

/-- The function `x509_write_extension`. -/
def x509_write_extension {W : Type} (ops : ttls_asn1_write_ops W) (w : W)
    (ext : ttls_asn1_named_data) : Int × W :=
  TTLS_ASN1_CHK_ADD 0 (ops.raw_buffer w (ext.val.drop 1) (size_sub ext.val.length 1))
    fun len w =>
  TTLS_ASN1_CHK_ADD len (ops.len w (size_sub ext.val.length 1)) fun len w =>
  TTLS_ASN1_CHK_ADD len (ops.tag w TTLS_ASN1_OCTET_STRING) fun len w =>
  (if ext.val.getD 0 0 ≠ 0 then TTLS_ASN1_CHK_ADD len (ops.bool w 1)
    else fun k => k len w) fun len w =>
  TTLS_ASN1_CHK_ADD len (ops.raw_buffer w ext.oid ext.oid.length) fun len w =>
  TTLS_ASN1_CHK_ADD len (ops.len w ext.oid.length) fun len w =>
  TTLS_ASN1_CHK_ADD len (ops.tag w TTLS_ASN1_OID) fun len w =>
  TTLS_ASN1_CHK_ADD len (ops.len w len) fun len w =>
  TTLS_ASN1_CHK_ADD len (ops.tag w TTLS_ASN1_CONSTRUCTED_SEQUENCE) fun len w =>
  (int_of_size len, w)

/-- The loop of `ttls_x509_write_extensions` from the entry `cur_ext` on. -/
def write_extensions_loop {W : Type} (ops : ttls_asn1_write_ops W) :
    List ttls_asn1_named_data → Nat → W → Int × W
  | [], len, w => (int_of_size len, w)
  | cur_ext :: rest, len, w =>
    TTLS_ASN1_CHK_ADD len (x509_write_extension ops w cur_ext) fun len w =>
      write_extensions_loop ops rest len w

/-- The function `ttls_x509_write_extensions`. -/
def ttls_x509_write_extensions {W : Type} (ops : ttls_asn1_write_ops W) (w : W)
    (first : List ttls_asn1_named_data) : Int × W :=
  write_extensions_loop ops first 0 w

/-- A writer without a size limit: the state is the bytes written so far, new bytes go
in front of them; lengths below 128 only. -/
def toy_writer : ttls_asn1_write_ops Buf where
  raw_buffer := fun w buf size => (size, buf.take size ++ w)
  len := fun w n => if n < 128 then (1, n :: w) else (-0x0064, w)
  tag := fun w t => (1, t :: w)
  bool := fun w b => (3, [1, 1, if b ≠ 0 then 255 else 0] ++ w)

/-- What the claim says is written for an extension: the bytes of the value as an OCTET
STRING, a BOOLEAN TRUE when the extension is critical, the OID, and the SEQUENCE header
in front of them. -/
def extension_words {W : Type} (ops : ttls_asn1_write_ops W) (w : W) (oid : Buf)
    (critical : Bool) (val : Buf) : Int × W :=
  TTLS_ASN1_CHK_ADD 0 (ops.raw_buffer w val val.length) fun len w =>
  TTLS_ASN1_CHK_ADD len (ops.len w val.length) fun len w =>
  TTLS_ASN1_CHK_ADD len (ops.tag w TTLS_ASN1_OCTET_STRING) fun len w =>
  (if critical = true then TTLS_ASN1_CHK_ADD len (ops.bool w 1) else fun k => k len w)
    fun len w =>
  TTLS_ASN1_CHK_ADD len (ops.raw_buffer w oid oid.length) fun len w =>
  TTLS_ASN1_CHK_ADD len (ops.len w oid.length) fun len w =>
  TTLS_ASN1_CHK_ADD len (ops.tag w TTLS_ASN1_OID) fun len w =>
  TTLS_ASN1_CHK_ADD len (ops.len w len) fun len w =>
  TTLS_ASN1_CHK_ADD len (ops.tag w TTLS_ASN1_CONSTRUCTED_SEQUENCE) fun len w =>
  (int_of_size len, w)

/-- A store that keeps the value buffer of the first entry of the chain when that entry
has the OID asked for and a buffer of at least `val_len` bytes (a value that is given is
copied into it), and puts a new entry in front of the chain otherwise. -/
def toy_store_reuse : store_named_data_t :=
  fun head oid val val_len =>
    match head with
    | cur :: rest =>
      if cur.oid = oid ∧ val_len ≤ cur.val.length then
        some (⟨oid, match val with
          | none => cur.val
          | some v => memcpy cur.val 0 v val_len⟩ :: rest, 0)
      else some (⟨oid, (val.getD (List.replicate val_len 0)).take val_len⟩ :: head, 0)
    | [] => some ([⟨oid, (val.getD (List.replicate val_len 0)).take val_len⟩], 0)

/-! ## Lemmas -/

variable {Ctx : Type}

set_option maxRecDepth 100000

theorem getD_take_lt (l : Buf) (i k : Nat) (h : i < k) : (l.take k).getD i 0 = l.getD i 0 := by
  simp [List.getD_eq_getElem?_getD, List.getElem?_take, h]

theorem repeat_fill_length (filler : Buf) (fill_len n : Nat) :
    (repeat_fill filler fill_len n).length = n := by
  simp [repeat_fill]

theorem repeat_fill_small (filler : Buf) (fill_len n : Nat)
    (h1 : n ≤ fill_len) (h2 : fill_len ≤ filler.length) :
    repeat_fill filler fill_len n = filler.take n := by
  apply List.ext_getElem
  · simp [repeat_fill]; omega
  · intro i h3 h4
    simp [repeat_fill] at h3 ⊢
    have : i % fill_len = i := Nat.mod_eq_of_lt (by omega)
    rw [this]
    simp [List.getElem?_eq_getElem (show i < filler.length by omega)]

theorem repeat_fill_step (filler : Buf) (fill_len n : Nat)
    (h1 : fill_len < n) (h2 : fill_len ≤ filler.length) :
    repeat_fill filler fill_len n
      = filler.take fill_len ++ repeat_fill filler fill_len (n - fill_len) := by
  apply List.ext_getElem
  · simp [repeat_fill]; omega
  · intro i h3 h4
    simp [repeat_fill] at h3
    by_cases hi : i < fill_len
    · rw [List.getElem_append_left (by simp; omega)]
      simp [repeat_fill]
      have : i % fill_len = i := Nat.mod_eq_of_lt (by omega)
      rw [this]
      simp [List.getElem?_eq_getElem (show i < filler.length by omega)]
    · rw [List.getElem_append_right (by simp; omega)]
      simp [repeat_fill]
      have e : min fill_len filler.length = fill_len := by omega
      rw [e]
      have : (i - fill_len) % fill_len = i % fill_len := by
        conv_rhs => rw [show i = (i - fill_len) + fill_len by omega]
        simp
      rw [this]

theorem fill_loop_zero (filler : Buf) (fuel : Nat) (data : Buf) (p data_len : Nat)
    (h : 0 < data_len) : fill_loop filler 0 fuel data p data_len = none := by
  induction fuel generalizing data p with
  | zero => simp [fill_loop]; omega
  | succ n ih =>
    rw [fill_loop]
    have : ¬ data_len = 0 := by omega
    simp [this, h]
    exact ih _ _

theorem memcpy_length (dst : Buf) (off : Nat) (src : Buf) (n : Nat)
    (h1 : off + n ≤ dst.length) (h2 : n ≤ src.length) :
    (memcpy dst off src n).length = dst.length := by
  simp [memcpy]; omega

theorem memcpy_take (dst : Buf) (off : Nat) (src : Buf) (n : Nat)
    (h1 : off ≤ dst.length) (h2 : n ≤ src.length) :
    (memcpy dst off src n).take (off + n) = dst.take off ++ src.take n := by
  unfold memcpy
  apply List.take_left'
  simp; omega

theorem memcpy_drop (dst : Buf) (off : Nat) (src : Buf) (n k : Nat)
    (h1 : off ≤ dst.length) (h2 : n ≤ src.length) :
    (memcpy dst off src n).drop (off + n + k) = dst.drop (off + n + k) := by
  unfold memcpy
  have e : (List.take off dst ++ List.take n src).length = off + n := by simp; omega
  rw [← e, List.drop_append, List.drop_drop, e]

theorem memcpy_take_mid (dst : Buf) (off : Nat) (src : Buf) (n k : Nat)
    (h1 : off ≤ dst.length) (h2 : n ≤ src.length) (hk : k ≤ n) :
    (memcpy dst off src n).take (off + k) = dst.take off ++ src.take k := by
  have := congrArg (List.take (off + k)) (memcpy_take dst off src n h1 h2)
  rw [List.take_take, Nat.min_eq_left (by omega)] at this
  rw [this]
  have e : (List.take off dst).length = off := by simp; omega
  rw [List.take_append_eq_append_take, e, List.take_take, List.take_take]
  simp [Nat.min_eq_left hk]

theorem fill_loop_closed (filler : Buf) (fill_len : Nat)
    (h2 : fill_len ≤ filler.length) (fuel : Nat) :
    ∀ (data : Buf) (p data_len : Nat) (out : Buf), p + data_len ≤ data.length →
      fill_loop filler fill_len fuel data p data_len = some out →
      out = data.take p ++ repeat_fill filler fill_len data_len ++ data.drop (p + data_len) := by
  induction fuel with
  | zero =>
    intro data p data_len out _ h
    simp only [fill_loop] at h
    split at h
    · next hz => subst hz; simp at h; simp [repeat_fill, h]
    · simp at h
  | succ n ih =>
    intro data p data_len out hl h
    rw [fill_loop] at h
    by_cases hz : data_len = 0
    · subst hz; simp at h; simp [repeat_fill, h]
    · simp only [hz, if_false] at h
      by_cases hc : data_len > fill_len
      · simp only [hc, if_true] at h
        rw [ih _ _ _ _ (by rw [memcpy_length _ _ _ _ (by omega) (by omega)]; omega) h]
        rw [repeat_fill_step filler fill_len data_len hc h2]
        rw [memcpy_take _ _ _ _ (by omega) (by omega), memcpy_drop _ _ _ _ _ (by omega) (by omega)]
        have : p + fill_len + (data_len - fill_len) = p + data_len := by omega
        rw [this]
        simp [List.append_assoc]
      · simp only [hc, if_false] at h
        rw [ih _ _ _ _ (by rw [memcpy_length _ _ _ _ (by omega) (by omega)]; omega) h]
        rw [repeat_fill_small filler fill_len data_len (by omega) h2]
        have := memcpy_drop data p filler data_len 0 (by omega) (by omega)
        simp only [Nat.add_zero] at this
        simp only [Nat.sub_self, Nat.add_zero]
        rw [memcpy_take _ _ _ _ (by omega) (by omega), this]
        simp [repeat_fill]

theorem fill_loop_terminates (filler : Buf) (fill_len : Nat) (h0 : 1 ≤ fill_len) (fuel : Nat) :
    ∀ (data : Buf) (p data_len : Nat), data_len ≤ fuel →
      ∃ out, fill_loop filler fill_len fuel data p data_len = some out := by
  induction fuel with
  | zero =>
    intro data p data_len h
    have : data_len = 0 := by omega
    subst this
    exact ⟨data, by simp [fill_loop]⟩
  | succ n ih =>
    intro data p data_len h
    rw [fill_loop]
    by_cases hz : data_len = 0
    · exact ⟨data, by simp [hz]⟩
    · simp only [hz, if_false]
      apply ih
      split <;> omega

theorem fill_loop_congr (f1 f2 : Buf) (fill_len : Nat) (fuel : Nat) :
    ∀ (d1 d2 : Buf) (p1 p2 data_len : Nat) (o2 : Buf),
      fill_loop f2 fill_len fuel d2 p2 data_len = some o2 →
      ∃ o1, fill_loop f1 fill_len fuel d1 p1 data_len = some o1 := by
  induction fuel with
  | zero =>
    intro d1 d2 p1 p2 data_len o2 h
    simp only [fill_loop] at h ⊢
    split at h
    · next hz => simp [hz]
    · simp at h
  | succ n ih =>
    intro d1 d2 p1 p2 data_len o2 h
    rw [fill_loop] at h ⊢
    by_cases hz : data_len = 0
    · simp [hz]
    · simp only [hz, if_false] at h ⊢
      exact ih _ _ _ _ _ _ h

theorem repeat_fill_take (filler : Buf) (fill_len n : Nat) (h : 1 ≤ fill_len) :
    repeat_fill (filler.take fill_len) fill_len n = repeat_fill filler fill_len n := by
  simp only [repeat_fill]
  apply List.map_congr_left
  intro i _
  exact getD_take_lt filler (i % fill_len) fill_len (Nat.mod_lt _ (by omega))

theorem incr_block_length (i : Nat) (hb : Buf) : (incr_block i hb).length = hb.length := by
  induction i generalizing hb with
  | zero => simp [incr_block]
  | succ n ih =>
    simp only [incr_block]
    split
    · simp
    · rw [ih]; simp

theorem add_block_length (hb : Buf) (i : Nat) (blk : Buf) (c : Nat) :
    (add_block hb i blk c).length = blk.length := by
  induction i generalizing blk c with
  | zero => simp [add_block]
  | succ n ih => simp only [add_block]; rw [ih]; simp

theorem incr_block_take (i : Nat) : ∀ (hb : Buf) (k : Nat), i ≤ k →
    (incr_block i hb).take k = incr_block i (hb.take k) := by
  induction i with
  | zero => intro hb k _; simp [incr_block]
  | succ n ih =>
    intro hb k hk
    simp only [incr_block]
    rw [getD_take_lt hb n k (by omega)]
    split
    · rw [← List.set_take]
    · rw [ih _ _ (by omega), ← List.set_take]

theorem add_block_take (hb : Buf) (i : Nat) : ∀ (blk : Buf) (c k : Nat), i ≤ k →
    (add_block hb i blk c).take k = add_block (hb.take k) i (blk.take k) c := by
  induction i with
  | zero => intro blk c k _; simp [add_block]
  | succ n ih =>
    intro blk c k hk
    simp only [add_block]
    rw [getD_take_lt hb n k (by omega), getD_take_lt blk n k (by omega)]
    rw [ih _ _ _ (by omega), ← List.set_take]

theorem md_output_length (buf out : Buf) (h : out.length ≤ buf.length) :
    (md_output buf out).length = buf.length := by
  simp [md_output]; omega

theorem md_output_take (buf out : Buf) (n : Nat) (h : out.length = n) :
    (md_output buf out).take n = out := by
  simp [md_output, ← h]

theorem rehash_length (md : ttls_md_info_t Ctx) (hs : md_sound md) (hlen n : Nat) :
    ∀ ho : Buf, ho.length = TTLS_MD_MAX_SIZE →
      (rehash md hlen n ho).2.length = TTLS_MD_MAX_SIZE := by
  induction n with
  | zero => intro ho h; simpa [rehash] using h
  | succ k ih =>
    intro ho h
    have hl := (hs.2.2 (ho.take hlen)).1
    have e : (md_output ho (md.md (ho.take hlen)).2).length = TTLS_MD_MAX_SIZE := by
      rw [md_output_length _ _ (by omega)]; exact h
    simp only [rehash]
    split
    · exact e
    · exact ih _ e

theorem rehash_rel (md : ttls_md_info_t Ctx) (hs : md_sound md) (n : Nat) :
    ∀ ho1 ho2 : Buf, ho1.take md.size = ho2.take md.size →
      (rehash md md.size n ho1).1 = (rehash md md.size n ho2).1 ∧
      ((rehash md md.size n ho1).1 = 0 →
        (rehash md md.size n ho1).2.take md.size = (rehash md md.size n ho2).2.take md.size) := by
  induction n with
  | zero => intro ho1 ho2 h; simp [rehash, h]
  | succ k ih =>
    intro ho1 ho2 h
    simp only [rehash, ← h]
    by_cases hr : (md.md (ho1.take md.size)).1 = 0
    · simp only [hr, ne_eq, not_true_eq_false, if_false]
      have hl := (hs.2.2 (ho1.take md.size)).2 hr
      exact ih _ _ (by simp only [md_output_take _ _ _ hl])
    · simp [hr]

theorem derivation_hash_length (md : ttls_md_info_t Ctx) (hs : md_sound md) (v hlen : Nat)
    (D : Buf) (it : Int) (c : Ctx) (sb pb ho : Buf) (h : ho.length = TTLS_MD_MAX_SIZE) :
    (derivation_hash md v hlen D it c sb pb ho).2.2.length = TTLS_MD_MAX_SIZE := by
  have hl := (hs.2.1 (md.update (md.update (md.update (md.starts c).2 (D.take v)).2
    (sb.take v)).2 (pb.take v)).2).1
  have e := md_output_length ho (md.finish (md.update (md.update (md.update (md.starts c).2
    (D.take v)).2 (sb.take v)).2 (pb.take v)).2).2.2 (by rw [h]; exact hl)
  simp only [derivation_hash]
  split_ifs
  · exact h
  · exact h
  · exact h
  · exact h
  · simp only; rw [e]; exact h
  · exact rehash_length md hs _ _ _ (by rw [e]; exact h)

theorem derivation_hash_rel (md : ttls_md_info_t Ctx) (hs : md_sound md) (v : Nat)
    (D : Buf) (it : Int) (c : Ctx) (sb1 pb1 ho1 sb2 pb2 ho2 : Buf)
    (h1 : sb1.take v = sb2.take v) (h2 : pb1.take v = pb2.take v) :
    (derivation_hash md v md.size D it c sb1 pb1 ho1).1
      = (derivation_hash md v md.size D it c sb2 pb2 ho2).1 ∧
    (derivation_hash md v md.size D it c sb1 pb1 ho1).2.1
      = (derivation_hash md v md.size D it c sb2 pb2 ho2).2.1 ∧
    ((derivation_hash md v md.size D it c sb1 pb1 ho1).1 = 0 →
      (derivation_hash md v md.size D it c sb1 pb1 ho1).2.2.take md.size
        = (derivation_hash md v md.size D it c sb2 pb2 ho2).2.2.take md.size) := by
  simp only [derivation_hash, ← h1, ← h2]
  split_ifs with a1 a2 a3 a4 a5
  · simp [a1]
  · simp [a2]
  · simp [a3]
  · simp [a4]
  · refine ⟨rfl, rfl, fun h => absurd h a5⟩
  · have hl := (hs.2.1 _).2 (not_not.mp a5)
    have e1 := md_output_take ho1 _ _ hl
    have e2 := md_output_take ho2 _ _ hl
    have := rehash_rel md hs (rehash_count it) _ _ (e1.trans e2.symm)
    exact ⟨this.1, rfl, this.2⟩

theorem blocks_closed (ffuel v hlen : Nat) (ho hb sb pb : Buf) (b : Buf × Buf × Buf)
    (h1 : hlen ≤ ho.length) (h2 : v ≤ hb.length)
    (h : derivation_blocks ffuel v hlen ho hb sb pb = some b) :
    b.1 = incr_block v (repeat_fill ho hlen v ++ hb.drop v) ∧
    b.2.1 = add_block b.1 v sb 0 ∧ b.2.2 = add_block b.1 v pb 0 := by
  simp only [derivation_blocks, pkcs12_fill_buffer] at h
  split at h
  · simp at h
  · next out ho' =>
    have := fill_loop_closed ho hlen h1 ffuel hb 0 v out (by omega) ho'
    simp at this
    simp at h
    subst this
    rw [← h]
    simp

theorem blocks_length (ffuel v hlen : Nat) (ho hb sb pb : Buf) (b : Buf × Buf × Buf)
    (h1 : hlen ≤ ho.length) (h2 : v ≤ hb.length)
    (h : derivation_blocks ffuel v hlen ho hb sb pb = some b) :
    b.1.length = hb.length ∧ b.2.1.length = sb.length ∧ b.2.2.length = pb.length := by
  obtain ⟨e1, e2, e3⟩ := blocks_closed ffuel v hlen ho hb sb pb b h1 h2 h
  refine ⟨?_, ?_, ?_⟩
  · rw [e1, incr_block_length]; simp [repeat_fill]; omega
  · rw [e2, add_block_length]
  · rw [e3, add_block_length]

theorem blocks_take (ffuel v hlen : Nat) (ho hb sb pb : Buf) (b : Buf × Buf × Buf)
    (h1 : hlen ≤ ho.length) (h2 : v ≤ hb.length)
    (h : derivation_blocks ffuel v hlen ho hb sb pb = some b) :
    b.1.take v = incr_block v (repeat_fill ho hlen v) ∧
    b.2.1.take v = add_block (incr_block v (repeat_fill ho hlen v)) v (sb.take v) 0 ∧
    b.2.2.take v = add_block (incr_block v (repeat_fill ho hlen v)) v (pb.take v) 0 := by
  obtain ⟨e1, e2, e3⟩ := blocks_closed ffuel v hlen ho hb sb pb b h1 h2 h
  have t1 : b.1.take v = incr_block v (repeat_fill ho hlen v) := by
    rw [e1, incr_block_take v _ v (le_refl _)]
    congr 1
    exact List.take_left' (repeat_fill_length _ _ _)
  refine ⟨t1, ?_, ?_⟩
  · rw [e2, add_block_take _ v _ _ v (le_refl _), t1]
  · rw [e3, add_block_take _ v _ _ v (le_refl _), t1]

theorem blocks_congr (ffuel v hlen : Nat) (ho1 hb1 sb1 pb1 ho2 hb2 sb2 pb2 : Buf)
    (b2 : Buf × Buf × Buf)
    (h : derivation_blocks ffuel v hlen ho2 hb2 sb2 pb2 = some b2) :
    ∃ b1, derivation_blocks ffuel v hlen ho1 hb1 sb1 pb1 = some b1 := by
  simp only [derivation_blocks, pkcs12_fill_buffer] at h ⊢
  split at h
  · simp at h
  · next out ho' =>
    obtain ⟨o1, e⟩ := fill_loop_congr ho1 ho2 hlen ffuel hb1 hb2 0 0 v out ho'
    rw [e]; simp

theorem blocks_terminates (ffuel v hlen : Nat) (ho hb sb pb : Buf)
    (h0 : 1 ≤ hlen) (hf : v ≤ ffuel) :
    ∃ b, derivation_blocks ffuel v hlen ho hb sb pb = some b := by
  obtain ⟨o, e⟩ := fill_loop_terminates ho hlen h0 ffuel hb 0 v hf
  simp only [derivation_blocks, pkcs12_fill_buffer, e]
  simp

theorem memcpy_take_le (dst : Buf) (off : Nat) (src : Buf) (n k : Nat) (hk : k ≤ off)
    (h : off ≤ dst.length) : (memcpy dst off src n).take k = dst.take k := by
  unfold memcpy
  rw [List.append_assoc, List.take_append_eq_append_take, List.take_take]
  have e : (List.take off dst).length = off := by simp; omega
  rw [e, Nat.min_eq_left hk]
  have : k - off = 0 := by omega
  simp [this]

/-- What one pass of the loop does, case by case. -/
theorem round_cases (md : ttls_md_info_t Ctx) (ffuel v : Nat) (D : Buf) (it : Int)
    (st : DerivState Ctx) (l : Nat) (o : Round Ctx)
    (h : derivation_round md ffuel v md.size D it st l = some o) :
    let dh := derivation_hash md v md.size D it st.md_ctx st.salt_block st.pwd_block
      st.hash_output
    (dh.1 ≠ 0 ∧ o = .done dh.1 { st with md_ctx := dh.2.1, hash_output := dh.2.2 }) ∨
    (dh.1 = 0 ∧ l ≤ md.size ∧
      o = .done 0 { st with data := memcpy st.data st.p dh.2.2 l, p := st.p + l,
                            md_ctx := dh.2.1, hash_output := dh.2.2 }) ∨
    (dh.1 = 0 ∧ md.size < l ∧ ∃ b,
      derivation_blocks ffuel v md.size dh.2.2 st.hash_block st.salt_block st.pwd_block
        = some b ∧
      o = .more { data := memcpy st.data st.p dh.2.2 md.size, p := st.p + md.size,
                  salt_block := b.2.1, pwd_block := b.2.2, hash_block := b.1,
                  hash_output := dh.2.2, md_ctx := dh.2.1 } (l - md.size)) := by
  intro dh
  simp only [derivation_round] at h
  by_cases h1 : dh.1 = 0
  · rw [if_neg (by simpa using h1)] at h
    by_cases h2 : l ≤ md.size
    · right; left
      have e : ¬ l > md.size := by omega
      simp only [e, if_false, Nat.sub_self, if_true] at h
      exact ⟨h1, h2, by simpa using h.symm⟩
    · right; right
      have e : l > md.size := by omega
      have e2 : ¬ (l - md.size = 0) := by omega
      simp only [e, if_true, e2, if_false] at h
      split at h
      · simp at h
      · next b hb => exact ⟨h1, e, b, hb, by simpa using h.symm⟩
  · left
    rw [if_pos h1] at h
    exact ⟨h1, by simpa using h.symm⟩

theorem loop_frame (md : ttls_md_info_t Ctx) (hs : md_sound md) (ffuel v : Nat) (hv : v ≤ 128)
    (D : Buf) (it : Int) (fuel : Nat) :
    ∀ (st : DerivState Ctx) (l : Nat) (r : Int) (t : DerivState Ctx), st_ok st →
      st.p + l ≤ st.data.length →
      derivation_loop md ffuel v md.size D it fuel st l = some (r, t) →
      st_ok t ∧ t.data.length = st.data.length ∧ t.data.take st.p = st.data.take st.p ∧
        t.data.drop (st.p + l) = st.data.drop (st.p + l) := by
  induction fuel with
  | zero =>
    intro st l r t ok _ h
    simp only [derivation_loop] at h
    split at h
    · simp at h; rw [← h.2]; exact ⟨ok, rfl, rfl, rfl⟩
    · simp at h
  | succ n ih =>
    intro st l r t ok hb h
    rw [derivation_loop] at h
    by_cases hz : l = 0
    · simp [hz] at h; rw [← h.2]; exact ⟨ok, rfl, rfl, rfl⟩
    · simp only [hz, if_false] at h
      have hlen := derivation_hash_length md hs v md.size D it st.md_ctx st.salt_block
        st.pwd_block st.hash_output ok.2.2.2
      have hsz : md.size ≤ TTLS_MD_MAX_SIZE := hs.1
      split at h
      · simp at h
      · next ret st' hr =>
        simp at h
        obtain ⟨e1, e2⟩ := h
        subst e2
        rcases round_cases md ffuel v D it st l _ hr with ⟨_, c⟩ | ⟨_, hl, c⟩ | ⟨_, _, b, _, c⟩
        · simp at c
          rw [c.2]
          exact ⟨⟨ok.1, ok.2.1, ok.2.2.1, hlen⟩, rfl, rfl, rfl⟩
        · simp at c
          rw [c.2]
          refine ⟨⟨ok.1, ok.2.1, ok.2.2.1, hlen⟩, ?_, ?_, ?_⟩
          · exact memcpy_length _ _ _ _ hb (by rw [hlen]; omega)
          · exact memcpy_take_le _ _ _ _ _ (le_refl _) (by omega)
          · have := memcpy_drop st.data st.p
              (derivation_hash md v md.size D it st.md_ctx st.salt_block st.pwd_block
                st.hash_output).2.2 l 0 (by omega) (by rw [hlen]; omega)
            simpa using this
        · simp at c
      · next st' l' hr =>
        rcases round_cases md ffuel v D it st l _ hr with ⟨_, c⟩ | ⟨_, hl, c⟩ | ⟨_, hl, b, hb', c⟩
        · simp at c
        · simp at c
        · simp at c
          obtain ⟨c1, c2⟩ := c
          subst c1 c2
          have bl := blocks_length ffuel v md.size _ _ _ _ b (by rw [hlen]; exact hsz)
            (by rw [ok.2.2.1]; exact hv) hb'
          have ml := memcpy_length st.data st.p
            (derivation_hash md v md.size D it st.md_ctx st.salt_block st.pwd_block
              st.hash_output).2.2 md.size (by omega) (by rw [hlen]; omega)
          obtain ⟨k1, k2, k3, k4⟩ := ih _ _ r t
            ⟨by rw [bl.2.1]; exact ok.1, by rw [bl.2.2]; exact ok.2.1,
              by rw [bl.1]; exact ok.2.2.1, hlen⟩
            (by simp only; rw [ml]; omega) h
          simp only at k2 k3 k4
          refine ⟨k1, by rw [k2, ml], ?_, ?_⟩
          · have := congrArg (List.take st.p) k3
            rw [List.take_take, List.take_take, Nat.min_eq_left (by omega)] at this
            rw [this]
            exact memcpy_take_le _ _ _ _ _ (le_refl _) (by omega)
          · have e : st.p + md.size + (l - md.size) = st.p + l := by omega
            rw [e] at k4
            rw [k4]
            have := memcpy_drop st.data st.p
              (derivation_hash md v md.size D it st.md_ctx st.salt_block st.pwd_block
                st.hash_output).2.2 md.size (l - md.size) (by omega) (by rw [hlen]; omega)
            rw [e] at this
            exact this

theorem round_fail (md : ttls_md_info_t Ctx) (ffuel v : Nat) (D : Buf) (it : Int)
    (st : DerivState Ctx) (l : Nat)
    (h : (derivation_hash md v md.size D it st.md_ctx st.salt_block st.pwd_block
      st.hash_output).1 ≠ 0) :
    derivation_round md ffuel v md.size D it st l =
      some (.done (derivation_hash md v md.size D it st.md_ctx st.salt_block st.pwd_block
          st.hash_output).1
        { st with
          md_ctx := (derivation_hash md v md.size D it st.md_ctx st.salt_block st.pwd_block
            st.hash_output).2.1,
          hash_output := (derivation_hash md v md.size D it st.md_ctx st.salt_block
            st.pwd_block st.hash_output).2.2 }) := by
  unfold derivation_round
  simp only
  rw [if_pos h]

theorem round_last (md : ttls_md_info_t Ctx) (ffuel v : Nat) (D : Buf) (it : Int)
    (st : DerivState Ctx) (l : Nat)
    (h : (derivation_hash md v md.size D it st.md_ctx st.salt_block st.pwd_block
      st.hash_output).1 = 0) (hl : l ≤ md.size) :
    derivation_round md ffuel v md.size D it st l =
      some (.done 0
        { st with
          data := memcpy st.data st.p (derivation_hash md v md.size D it st.md_ctx
            st.salt_block st.pwd_block st.hash_output).2.2 l,
          p := st.p + l,
          md_ctx := (derivation_hash md v md.size D it st.md_ctx st.salt_block st.pwd_block
            st.hash_output).2.1,
          hash_output := (derivation_hash md v md.size D it st.md_ctx st.salt_block
            st.pwd_block st.hash_output).2.2 }) := by
  have e : ¬ l > md.size := by omega
  simp [derivation_round, h, e]

theorem round_more (md : ttls_md_info_t Ctx) (ffuel v : Nat) (D : Buf) (it : Int)
    (st : DerivState Ctx) (l : Nat) (b : Buf × Buf × Buf)
    (h : (derivation_hash md v md.size D it st.md_ctx st.salt_block st.pwd_block
      st.hash_output).1 = 0) (hl : md.size < l)
    (hb : derivation_blocks ffuel v md.size (derivation_hash md v md.size D it st.md_ctx
      st.salt_block st.pwd_block st.hash_output).2.2 st.hash_block st.salt_block
      st.pwd_block = some b) :
    derivation_round md ffuel v md.size D it st l =
      some (.more
        { data := memcpy st.data st.p (derivation_hash md v md.size D it st.md_ctx
            st.salt_block st.pwd_block st.hash_output).2.2 md.size,
          p := st.p + md.size, salt_block := b.2.1, pwd_block := b.2.2, hash_block := b.1,
          hash_output := (derivation_hash md v md.size D it st.md_ctx st.salt_block
            st.pwd_block st.hash_output).2.2,
          md_ctx := (derivation_hash md v md.size D it st.md_ctx st.salt_block st.pwd_block
            st.hash_output).2.1 } (l - md.size)) := by
  have e2 : ¬ (l - md.size = 0) := by omega
  simp [derivation_round, h, hl, e2, hb]

theorem loop_rel (md : ttls_md_info_t Ctx) (hs : md_sound md) (ffuel v : Nat) (hv : v ≤ 128)
    (D : Buf) (it : Int) (fuel : Nat) :
    ∀ (s1 s2 : DerivState Ctx) (l1 l2 : Nat) (r2 : Int) (t2 : DerivState Ctx),
      st_ok s1 → st_ok s2 → st_rel v s1 s2 → l1 ≤ l2 →
      s1.p + l1 ≤ s1.data.length → s2.p + l2 ≤ s2.data.length →
      derivation_loop md ffuel v md.size D it fuel s2 l2 = some (r2, t2) →
      ∃ r1 t1, derivation_loop md ffuel v md.size D it fuel s1 l1 = some (r1, t1) ∧
        (r1 = 0 → t1.data.take (s1.p + l1) = t2.data.take (s1.p + l1)) ∧
        (l1 = l2 → r1 = r2) := by
  induction fuel with
  | zero =>
    intro s1 s2 l1 l2 r2 t2 _ _ rel hl _ _ h
    simp only [derivation_loop] at h
    split at h
    · next hz =>
      simp at h
      have : l1 = 0 := by omega
      subst this
      refine ⟨0, s1, by simp [derivation_loop], ?_, fun _ => h.1⟩
      intro _; rw [← h.2]; simpa using rel.2.2.2.2
    · simp at h
  | succ n ih =>
    intro s1 s2 l1 l2 r2 t2 ok1 ok2 rel hl hb1 hb2 h
    have fr := loop_frame md hs ffuel v hv D it (n + 1) s2 l2 r2 t2 ok2 hb2 h
    obtain ⟨d1, p, sb1, pb1, hb1', ho1, c⟩ := s1
    obtain ⟨d2, p2, sb2, pb2, hb2', ho2, c2⟩ := s2
    simp only [st_rel] at rel
    obtain ⟨rfl, rfl, rs, rp, rd⟩ := rel
    simp only [st_ok] at ok1 ok2
    obtain ⟨ok1s, ok1p, ok1h, ok1o⟩ := ok1
    obtain ⟨ok2s, ok2p, ok2h, ok2o⟩ := ok2
    simp only at hb1 hb2 fr ⊢
    by_cases hz1 : l1 = 0
    · subst hz1
      refine ⟨0, ⟨d1, p, sb1, pb1, hb1', ho1, c⟩, by simp [derivation_loop], ?_, ?_⟩
      · intro _
        simp only [Nat.add_zero]
        rw [fr.2.2.1]; exact rd
      · intro e
        subst e
        simp [derivation_loop] at h
        exact h.1
    · have hz2 : ¬ l2 = 0 := by omega
      rw [derivation_loop] at h ⊢
      simp only [hz1, hz2, if_false] at h ⊢
      have hr := derivation_hash_rel md hs v D it c sb1 pb1 ho1 sb2 pb2 ho2 rs rp
      have hlen1 := derivation_hash_length md hs v md.size D it c sb1 pb1 ho1 ok1o
      have hlen2 := derivation_hash_length md hs v md.size D it c sb2 pb2 ho2 ok2o
      have hsz : md.size ≤ TTLS_MD_MAX_SIZE := hs.1
      cases hr2 : derivation_round md ffuel v md.size D it
          ⟨d2, p, sb2, pb2, hb2', ho2, c⟩ l2 with
      | none => rw [hr2] at h; simp at h
      | some o2 =>
        rw [hr2] at h
        rcases round_cases md ffuel v D it _ l2 o2 hr2 with
          ⟨c1, cc⟩ | ⟨c1, c2, cc⟩ | ⟨c1, c2, b2, hb, cc⟩
        · -- the digest fails in both runs
          subst cc
          simp only [Option.some.injEq, Prod.mk.injEq] at h
          simp only at c1
          have f1 : (derivation_hash md v md.size D it c sb1 pb1 ho1).1 ≠ 0 := by
            rw [hr.1]; exact c1
          rw [round_fail md ffuel v D it _ l1 f1]
          refine ⟨_, _, rfl, fun e => absurd e f1, fun _ => ?_⟩
          rw [hr.1]; exact h.1
        · -- the second run ends here, so does the first
          subst cc
          simp only [Option.some.injEq, Prod.mk.injEq] at h
          simp only at c1 c2
          have f1 : (derivation_hash md v md.size D it c sb1 pb1 ho1).1 = 0 := by
            rw [hr.1]; exact c1
          rw [round_last md ffuel v D it _ l1 f1 (by omega)]
          refine ⟨_, _, rfl, fun _ => ?_, fun _ => h.1⟩
          rw [← h.2]
          simp only
          rw [memcpy_take _ _ _ _ (by omega) (by rw [hlen1]; omega),
            memcpy_take_mid _ _ _ _ _ (by omega) (by rw [hlen2]; omega) hl, rd]
          congr 1
          have := congrArg (List.take l1) (hr.2.2 f1)
          rw [List.take_take, List.take_take, Nat.min_eq_left (by omega)] at this
          exact this
        · subst cc
          simp only at h c1 c2 hb
          have f1 : (derivation_hash md v md.size D it c sb1 pb1 ho1).1 = 0 := by
            rw [hr.1]; exact c1
          have ml2 := memcpy_length d2 p (derivation_hash md v md.size D it c sb2 pb2 ho2).2.2
            md.size (by omega) (by rw [hlen2]; omega)
          have bl2 := blocks_length ffuel v md.size _ _ _ _ b2 (by rw [hlen2]; exact hsz)
            (by rw [ok2h]; exact hv) hb
          have ok2' : st_ok
              ({ data := memcpy d2 p (derivation_hash md v md.size D it c sb2 pb2 ho2).2.2
                    md.size,
                 p := p + md.size, salt_block := b2.2.1, pwd_block := b2.2.2,
                 hash_block := b2.1,
                 hash_output := (derivation_hash md v md.size D it c sb2 pb2 ho2).2.2,
                 md_ctx := (derivation_hash md v md.size D it c sb2 pb2 ho2).2.1 } :
                DerivState Ctx) :=
            ⟨by rw [bl2.2.1]; exact ok2s, by rw [bl2.2.2]; exact ok2p,
              by rw [bl2.1]; exact ok2h, hlen2⟩
          by_cases hc : l1 ≤ md.size
          · -- the first run ends here, the second goes on
            rw [round_last md ffuel v D it _ l1 f1 hc]
            refine ⟨_, _, rfl, fun _ => ?_, fun e => by omega⟩
            have fr2 := loop_frame md hs ffuel v hv D it n _ _ r2 t2 ok2'
              (by simp only; rw [ml2]; omega) h
            have k := congrArg (List.take (p + l1)) fr2.2.2.1
            simp only at k
            rw [List.take_take, List.take_take, Nat.min_eq_left (by omega)] at k
            rw [k]
            simp only
            rw [memcpy_take _ _ _ _ (by omega) (by rw [hlen1]; omega),
              memcpy_take_mid _ _ _ _ _ (by omega) (by rw [hlen2]; omega) hc, rd]
            congr 1
            have := congrArg (List.take l1) (hr.2.2 f1)
            rw [List.take_take, List.take_take, Nat.min_eq_left (by omega)] at this
            exact this
          · -- both runs go on
            obtain ⟨b1, hb1''⟩ := blocks_congr ffuel v md.size
              (derivation_hash md v md.size D it c sb1 pb1 ho1).2.2 hb1' sb1 pb1 _ _ _ _ b2 hb
            rw [round_more md ffuel v D it _ l1 b1 f1 (by omega) hb1'']
            simp only
            have ml1 := memcpy_length d1 p (derivation_hash md v md.size D it c sb1 pb1 ho1).2.2
              md.size (by omega) (by rw [hlen1]; omega)
            have bl1 := blocks_length ffuel v md.size _ _ _ _ b1 (by rw [hlen1]; exact hsz)
              (by rw [ok1h]; exact hv) hb1''
            have bt1 := blocks_take ffuel v md.size _ _ _ _ b1 (by rw [hlen1]; exact hsz)
              (by rw [ok1h]; exact hv) hb1''
            have bt2 := blocks_take ffuel v md.size _ _ _ _ b2 (by rw [hlen2]; exact hsz)
              (by rw [ok2h]; exact hv) hb
            have rf : repeat_fill (derivation_hash md v md.size D it c sb1 pb1 ho1).2.2
                md.size v
                = repeat_fill (derivation_hash md v md.size D it c sb2 pb2 ho2).2.2
                    md.size v := by
              by_cases hz : md.size = 0
              · have hv0 : v = 0 := by
                  by_contra hne
                  have hb0 := hb
                  simp only [derivation_blocks, pkcs12_fill_buffer] at hb0
                  rw [hz, fill_loop_zero _ _ _ _ _ (by omega)] at hb0
                  simp at hb0
                rw [hv0]; simp [repeat_fill]
              · rw [← repeat_fill_take _ _ _ (by omega), hr.2.2 f1,
                  repeat_fill_take _ _ _ (by omega)]
            obtain ⟨r1, t1, e1, e2, e3⟩ := ih
              ({ data := memcpy d1 p (derivation_hash md v md.size D it c sb1 pb1 ho1).2.2
                    md.size,
                 p := p + md.size, salt_block := b1.2.1, pwd_block := b1.2.2,
                 hash_block := b1.1,
                 hash_output := (derivation_hash md v md.size D it c sb1 pb1 ho1).2.2,
                 md_ctx := (derivation_hash md v md.size D it c sb1 pb1 ho1).2.1 } :
                DerivState Ctx)
              _ (l1 - md.size) (l2 - md.size) r2 t2
              ⟨by rw [bl1.2.1]; exact ok1s, by rw [bl1.2.2]; exact ok1p,
                by rw [bl1.1]; exact ok1h, hlen1⟩
              ok2'
              (by
                refine ⟨rfl, hr.2.1, ?_, ?_, ?_⟩
                · simp only; rw [bt1.2.1, bt2.2.1, rf, rs]
                · simp only; rw [bt1.2.2, bt2.2.2, rf, rp]
                · simp only
                  rw [memcpy_take _ _ _ _ (by omega) (by rw [hlen1]; omega),
                    memcpy_take _ _ _ _ (by omega) (by rw [hlen2]; omega), rd]
                  congr 1
                  exact hr.2.2 f1)
              (by omega) (by simp only; rw [ml1]; omega) (by simp only; rw [ml2]; omega) h
            refine ⟨r1, t1, e1, ?_, fun e => e3 (by omega)⟩
            intro z
            have := e2 z
            simp only at this
            have ee : p + md.size + (l1 - md.size) = p + l1 := by omega
            rw [ee] at this
            exact this

theorem block_size_le (hlen : Nat) : block_size hlen ≤ 128 := by
  unfold block_size; split <;> omega

theorem block_size_pos (hlen : Nat) : 0 < block_size hlen := by
  unfold block_size; split <;> omega

theorem stack_array_length (junk : Nat → Nat) (n : Nat) : (stack_array junk n).length = n := by
  simp [stack_array]

theorem zeroize_eq (n : Nat) : ∀ (b : Buf), b.length = n → ttls_zeroize b n = List.replicate n 0 := by
  induction n with
  | zero => intro b h; simp [ttls_zeroize]; exact List.length_eq_zero.mp h
  | succ k ih =>
    intro b h
    cases b with
    | nil => simp at h
    | cons x xs =>
      simp only [ttls_zeroize, List.replicate_succ]
      rw [ih xs (by simpa using h)]

theorem rehash_success (md : ttls_md_info_t Ctx) (h : md_succeeds md) (hlen n : Nat) :
    ∀ ho, (rehash md hlen n ho).1 = 0 := by
  induction n with
  | zero => intro ho; simp [rehash]
  | succ k ih => intro ho; simp only [rehash, h.2.2.2.2 _, ne_eq, not_true_eq_false, if_false]; exact ih _

theorem derivation_hash_success (md : ttls_md_info_t Ctx) (h : md_succeeds md) (v hlen : Nat)
    (D : Buf) (it : Int) (c : Ctx) (sb pb ho : Buf) :
    (derivation_hash md v hlen D it c sb pb ho).1 = 0 := by
  simp only [derivation_hash, h.2.1 _, h.2.2.1 _ _, h.2.2.2.1 _, ne_eq, not_true_eq_false,
    if_false]
  exact rehash_success md h _ _ _

theorem loop_terminates (md : ttls_md_info_t Ctx) (ffuel v : Nat) (h0 : 1 ≤ md.size)
    (hf : v ≤ ffuel) (D : Buf) (it : Int) (fuel : Nat) :
    ∀ (st : DerivState Ctx) (l : Nat), l ≤ fuel →
      ∃ r t, derivation_loop md ffuel v md.size D it fuel st l = some (r, t) ∧
        (md_succeeds md → r = 0) := by
  induction fuel with
  | zero =>
    intro st l h
    have : l = 0 := by omega
    subst this
    exact ⟨0, st, by simp [derivation_loop], fun _ => rfl⟩
  | succ n ih =>
    intro st l h
    rw [derivation_loop]
    by_cases hz : l = 0
    · exact ⟨0, st, by simp [hz], fun _ => rfl⟩
    · simp only [hz, if_false]
      by_cases h1 : (derivation_hash md v md.size D it st.md_ctx st.salt_block st.pwd_block
          st.hash_output).1 = 0
      · by_cases h2 : l ≤ md.size
        · rw [round_last md ffuel v D it st l h1 h2]
          exact ⟨_, _, rfl, fun _ => rfl⟩
        · obtain ⟨b, hb⟩ := blocks_terminates ffuel v md.size
            (derivation_hash md v md.size D it st.md_ctx st.salt_block st.pwd_block
              st.hash_output).2.2 st.hash_block st.salt_block st.pwd_block h0 hf
          rw [round_more md ffuel v D it st l b h1 (by omega) hb]
          exact ih _ _ (by omega)
      · rw [round_fail md ffuel v D it st l h1]
        exact ⟨_, _, rfl, fun hs => absurd (derivation_hash_success md hs _ _ _ _ _ _ _ _) h1⟩

theorem derivation_inv (reg : Nat → Option (ttls_md_info_t Ctx)) (fuel : Nat)
    (junk : Nat → Nat → Nat) (data : Buf) (datalen : Nat) (pwd : Buf) (pwdlen : Nat)
    (salt : Buf) (saltlen : Nat) (md_type : Nat) (id it : Int) (md : ttls_md_info_t Ctx)
    (r : DerivResult)
    (h1 : datalen ≤ 128) (h2 : pwdlen ≤ 64) (h3 : saltlen ≤ 64)
    (hreg : reg md_type = some md) (hsetup : md.setup.1 = 0)
    (h : ttls_pkcs12_derivation reg fuel junk data datalen pwd pwdlen salt saltlen md_type
      id it = some r) :
    ∃ sb pb st,
      pkcs12_fill_buffer fuel (stack_array (junk 1) 128) (block_size md.size) salt saltlen
        = some sb ∧
      pkcs12_fill_buffer fuel (stack_array (junk 2) 128) (block_size md.size) pwd pwdlen
        = some pb ∧
      derivation_loop md fuel (block_size md.size) md.size
        (memset (stack_array (junk 0) 128) (id % 256).toNat (block_size md.size)) it fuel
        (init_state junk data sb pb md.setup.2) datalen = some (r.ret, st) ∧
      r = ⟨r.ret, st.data, ttls_zeroize st.salt_block 128, ttls_zeroize st.pwd_block 128,
        ttls_zeroize st.hash_block 128, ttls_zeroize st.hash_output TTLS_MD_MAX_SIZE⟩ := by
  have hc : ¬ (datalen > 128 ∨ pwdlen > 64 ∨ saltlen > 64) := by omega
  simp only [ttls_pkcs12_derivation, hc, if_false, hreg, hsetup, ne_eq, not_true_eq_false] at h
  split at h
  · simp at h
  · next sb hsb =>
    split at h
    · simp at h
    · next pb hpb =>
      split at h
      · simp at h
      · next ret st hl =>
        simp only [Option.some.injEq] at h
        subst h
        exact ⟨sb, pb, st, hsb, hpb, hl, rfl⟩

theorem derivation_intro (reg : Nat → Option (ttls_md_info_t Ctx)) (fuel : Nat)
    (junk : Nat → Nat → Nat) (data : Buf) (datalen : Nat) (pwd : Buf) (pwdlen : Nat)
    (salt : Buf) (saltlen : Nat) (md_type : Nat) (id it : Int) (md : ttls_md_info_t Ctx)
    (sb pb : Buf) (ret : Int) (st : DerivState Ctx)
    (h1 : datalen ≤ 128) (h2 : pwdlen ≤ 64) (h3 : saltlen ≤ 64)
    (hreg : reg md_type = some md) (hsetup : md.setup.1 = 0)
    (hsb : pkcs12_fill_buffer fuel (stack_array (junk 1) 128) (block_size md.size) salt
      saltlen = some sb)
    (hpb : pkcs12_fill_buffer fuel (stack_array (junk 2) 128) (block_size md.size) pwd
      pwdlen = some pb)
    (hl : derivation_loop md fuel (block_size md.size) md.size
        (memset (stack_array (junk 0) 128) (id % 256).toNat (block_size md.size)) it fuel
        (init_state junk data sb pb md.setup.2) datalen = some (ret, st)) :
    ttls_pkcs12_derivation reg fuel junk data datalen pwd pwdlen salt saltlen md_type id it
      = some ⟨ret, st.data, ttls_zeroize st.salt_block 128, ttls_zeroize st.pwd_block 128,
        ttls_zeroize st.hash_block 128, ttls_zeroize st.hash_output TTLS_MD_MAX_SIZE⟩ := by
  have hc : ¬ (datalen > 128 ∨ pwdlen > 64 ∨ saltlen > 64) := by omega
  simp only [ttls_pkcs12_derivation, hc, if_false, hreg, hsetup, ne_eq, not_true_eq_false]
  simp only [init_state] at hl
  rw [hsb]; simp only; rw [hpb]; simp only; rw [hl]

theorem fill_stack (fuel : Nat) (junk : Nat → Nat) (v : Nat) (filler : Buf) (fill_len : Nat)
    (out : Buf) (hv : v ≤ 128) (hf : fill_len ≤ filler.length)
    (h : pkcs12_fill_buffer fuel (stack_array junk 128) v filler fill_len = some out) :
    out.length = 128 ∧ out.take v = repeat_fill filler fill_len v := by
  have := fill_loop_closed filler fill_len hf fuel (stack_array junk 128) 0 v out
    (by rw [stack_array_length]; omega) h
  simp only [List.take_zero, List.nil_append, Nat.zero_add] at this
  subst this
  constructor
  · simp [repeat_fill_length, stack_array_length]; omega
  · exact List.take_left' (repeat_fill_length _ _ _)

theorem init_state_ok (junk : Nat → Nat → Nat) (data sb pb : Buf) (c : Ctx)
    (h1 : sb.length = 128) (h2 : pb.length = 128) : st_ok (init_state junk data sb pb c) :=
  ⟨h1, h2, stack_array_length _ _, stack_array_length _ _⟩

theorem derivation_setup_fail (reg : Nat → Option (ttls_md_info_t Ctx)) (fuel : Nat)
    (junk : Nat → Nat → Nat) (data : Buf) (datalen : Nat) (pwd : Buf) (pwdlen : Nat)
    (salt : Buf) (saltlen : Nat) (md_type : Nat) (id it : Int) (md : ttls_md_info_t Ctx)
    (h1 : datalen ≤ 128) (h2 : pwdlen ≤ 64) (h3 : saltlen ≤ 64)
    (hreg : reg md_type = some md) (hsetup : md.setup.1 ≠ 0) :
    ttls_pkcs12_derivation reg fuel junk data datalen pwd pwdlen salt saltlen md_type id it
      = some ⟨md.setup.1, data, stack_array (junk 1) 128, stack_array (junk 2) 128,
          stack_array (junk 3) 128, stack_array (junk 4) TTLS_MD_MAX_SIZE⟩ := by
  have hc : ¬ (datalen > 128 ∨ pwdlen > 64 ∨ saltlen > 64) := by omega
  simp only [ttls_pkcs12_derivation, hc, if_false, hreg]
  rw [if_pos hsetup]

theorem derivation_hangs (reg : Nat → Option (ttls_md_info_t Ctx)) (fuel : Nat)
    (junk : Nat → Nat → Nat) (data : Buf) (datalen : Nat) (pwd : Buf) (pwdlen : Nat)
    (salt : Buf) (saltlen : Nat) (md_type : Nat) (id it : Int) (md : ttls_md_info_t Ctx)
    (h1 : datalen ≤ 128) (h2 : pwdlen ≤ 64) (h3 : saltlen ≤ 64)
    (hreg : reg md_type = some md) (hsetup : md.setup.1 = 0)
    (hz : saltlen = 0 ∨ pwdlen = 0) :
    ttls_pkcs12_derivation reg fuel junk data datalen pwd pwdlen salt saltlen md_type id it
      = none := by
  have hc : ¬ (datalen > 128 ∨ pwdlen > 64 ∨ saltlen > 64) := by omega
  simp only [ttls_pkcs12_derivation, hc, if_false, hreg, hsetup, ne_eq, not_true_eq_false]
  rcases hz with hz | hz
  · subst hz
    simp only [pkcs12_fill_buffer]
    rw [fill_loop_zero _ _ _ _ _ (block_size_pos _)]
  · subst hz
    simp only [pkcs12_fill_buffer]
    rw [fill_loop_zero pwd _ _ _ _ (block_size_pos _)]
    split <;> rfl

theorem derivation_returns (reg : Nat → Option (ttls_md_info_t Ctx)) (fuel : Nat)
    (junk : Nat → Nat → Nat) (data : Buf) (datalen : Nat) (pwd : Buf) (pwdlen : Nat)
    (salt : Buf) (saltlen : Nat) (md_type : Nat) (id it : Int) (md : ttls_md_info_t Ctx)
    (h1 : datalen ≤ 128) (h2 : pwdlen ≤ 64) (h3 : saltlen ≤ 64)
    (hreg : reg md_type = some md)
    (hs1 : 1 ≤ saltlen) (hp1 : 1 ≤ pwdlen) (h0 : 1 ≤ md.size) (hfuel : 128 ≤ fuel) :
    ∃ r, ttls_pkcs12_derivation reg fuel junk data datalen pwd pwdlen salt saltlen md_type
      id it = some r ∧ (md_succeeds md → r.ret = 0) := by
  by_cases hsetup : md.setup.1 = 0
  · have hv := block_size_le md.size
    obtain ⟨sb, hsb⟩ := fill_loop_terminates salt saltlen hs1 fuel (stack_array (junk 1) 128) 0
      (block_size md.size) (by omega)
    obtain ⟨pb, hpb⟩ := fill_loop_terminates pwd pwdlen hp1 fuel (stack_array (junk 2) 128) 0
      (block_size md.size) (by omega)
    obtain ⟨r, t, hl, hr⟩ := loop_terminates md fuel (block_size md.size) h0 (by omega)
      (memset (stack_array (junk 0) 128) (id % 256).toNat (block_size md.size)) it fuel
      (init_state junk data sb pb md.setup.2) datalen (by omega)
    exact ⟨_, derivation_intro reg fuel junk data datalen pwd pwdlen salt saltlen md_type id it
      md sb pb r t h1 h2 h3 hreg hsetup hsb hpb hl, hr⟩
  · have hc : ¬ (datalen > 128 ∨ pwdlen > 64 ∨ saltlen > 64) := by omega
    exact ⟨_, derivation_setup_fail reg fuel junk data datalen pwd pwdlen salt saltlen md_type
      id it md h1 h2 h3 hreg hsetup, fun hm => absurd hm.1 hsetup⟩

theorem hash_div_congr (md : ttls_md_info_t Ctx) (v hlen : Nat) (D1 D2 : Buf)
    (h : D1.take v = D2.take v) (it : Int) (c : Ctx) (sb pb ho : Buf) :
    derivation_hash md v hlen D1 it c sb pb ho = derivation_hash md v hlen D2 it c sb pb ho := by
  simp only [derivation_hash, h]

theorem round_div_congr (md : ttls_md_info_t Ctx) (ffuel v hlen : Nat) (D1 D2 : Buf)
    (h : D1.take v = D2.take v) (it : Int) (st : DerivState Ctx) (l : Nat) :
    derivation_round md ffuel v hlen D1 it st l = derivation_round md ffuel v hlen D2 it st l := by
  simp only [derivation_round, hash_div_congr md v hlen D1 D2 h]

theorem loop_div_congr (md : ttls_md_info_t Ctx) (ffuel v : Nat) (D1 D2 : Buf)
    (h : D1.take v = D2.take v) (it : Int) (fuel : Nat) :
    ∀ (st : DerivState Ctx) (l : Nat),
      derivation_loop md ffuel v md.size D1 it fuel st l
        = derivation_loop md ffuel v md.size D2 it fuel st l := by
  induction fuel with
  | zero => intro st l; simp [derivation_loop]
  | succ n ih =>
    intro st l
    simp only [derivation_loop, round_div_congr md ffuel v md.size D1 D2 h]
    split
    · rfl
    · split
      · rfl
      · rfl
      · exact ih _ _

/-- Two calls with the same secret, salt, hash, id and iteration count, on different
stacks and output buffers, asking for `l1 ≤ l2` bytes: when the longer call returns,
so does the shorter one, and a successful shorter call has written the first `l1` bytes
of the longer one. -/
theorem derivation_rel (reg : Nat → Option (ttls_md_info_t Ctx)) (fuel : Nat)
    (junk1 junk2 : Nat → Nat → Nat) (data1 data2 : Buf) (l1 l2 : Nat) (pwd : Buf)
    (pwdlen : Nat) (salt : Buf) (saltlen : Nat) (md_type : Nat) (id it : Int)
    (hs : ∀ md, reg md_type = some md → md_sound md)
    (hl : l1 ≤ l2) (h128 : l2 ≤ 128 ∨ l1 = l2) (hd1 : l1 ≤ data1.length) (hd2 : l2 ≤ data2.length)
    (hsalt : saltlen ≤ salt.length) (hpwd : pwdlen ≤ pwd.length) (r2 : DerivResult)
    (h : ttls_pkcs12_derivation reg fuel junk2 data2 l2 pwd pwdlen salt saltlen md_type
      id it = some r2) :
    ∃ r1, ttls_pkcs12_derivation reg fuel junk1 data1 l1 pwd pwdlen salt saltlen md_type
        id it = some r1 ∧
      (r1.ret = 0 → r1.data.take l1 = r2.data.take l1) ∧ (l1 = l2 → r1.ret = r2.ret) := by
  by_cases hc2 : l2 > 128 ∨ pwdlen > 64 ∨ saltlen > 64
  · -- both calls fail the length check
    simp only [ttls_pkcs12_derivation, hc2, if_true, Option.some.injEq] at h
    have hc1 : l1 > 128 ∨ pwdlen > 64 ∨ saltlen > 64 := by omega
    refine ⟨⟨TTLS_ERR_PKCS12_BAD_INPUT_DATA, data1, _, _, _, _⟩,
      by simp only [ttls_pkcs12_derivation, hc1, if_true]; rfl, ?_, ?_⟩
    · intro e; simp [TTLS_ERR_PKCS12_BAD_INPUT_DATA] at e
    · intro _; rw [← h]
  · have hc1 : ¬ (l1 > 128 ∨ pwdlen > 64 ∨ saltlen > 64) := by omega
    cases hreg : reg md_type with
    | none =>
      simp only [ttls_pkcs12_derivation, hc2, if_false, hreg, Option.some.injEq] at h
      refine ⟨⟨TTLS_ERR_PKCS12_FEATURE_UNAVAILABLE, data1, _, _, _, _⟩,
        by simp only [ttls_pkcs12_derivation, hc1, if_false, hreg]; rfl, ?_, ?_⟩
      · intro e; simp [TTLS_ERR_PKCS12_FEATURE_UNAVAILABLE] at e
      · intro _; rw [← h]
    | some md =>
      by_cases hsetup : md.setup.1 = 0
      · obtain ⟨sb2, pb2, st2, hsb2, hpb2, hl2, e2⟩ := derivation_inv reg fuel junk2 data2 l2
          pwd pwdlen salt saltlen md_type id it md r2 (by omega) (by omega) (by omega) hreg
          hsetup h
        have hv := block_size_le md.size
        obtain ⟨sb1, hsb1⟩ := fill_loop_congr salt salt saltlen fuel (stack_array (junk1 1) 128)
          _ 0 0 _ sb2 hsb2
        obtain ⟨pb1, hpb1⟩ := fill_loop_congr pwd pwd pwdlen fuel (stack_array (junk1 2) 128)
          _ 0 0 _ pb2 hpb2
        have fs1 := fill_stack fuel (junk1 1) _ salt saltlen sb1 hv hsalt hsb1
        have fs2 := fill_stack fuel (junk2 1) _ salt saltlen sb2 hv hsalt hsb2
        have fp1 := fill_stack fuel (junk1 2) _ pwd pwdlen pb1 hv hpwd hpb1
        have fp2 := fill_stack fuel (junk2 2) _ pwd pwdlen pb2 hv hpwd hpb2
        have hD : (memset (stack_array (junk1 0) 128) (id % 256).toNat
            (block_size md.size)).take (block_size md.size)
            = (memset (stack_array (junk2 0) 128) (id % 256).toNat
                (block_size md.size)).take (block_size md.size) := by
          simp only [memset]
          rw [List.take_left' (List.length_replicate _ _),
            List.take_left' (List.length_replicate _ _)]
        have e2r : r2.data = st2.data := by rw [e2]
        obtain ⟨r1, t1, e1, e2, e3⟩ := loop_rel md (hs md hreg) fuel (block_size md.size) hv
          (memset (stack_array (junk2 0) 128) (id % 256).toNat (block_size md.size)) it fuel
          (init_state junk1 data1 sb1 pb1 md.setup.2) (init_state junk2 data2 sb2 pb2 md.setup.2)
          l1 l2 r2.ret st2 (init_state_ok _ _ _ _ _ fs1.1 fp1.1)
          (init_state_ok _ _ _ _ _ fs2.1 fp2.1)
          ⟨rfl, rfl, by simp only [init_state]; rw [fs1.2, fs2.2],
            by simp only [init_state]; rw [fp1.2, fp2.2], by simp [init_state]⟩
          hl (by simpa [init_state] using hd1) (by simpa [init_state] using hd2) hl2
        have e1' : derivation_loop md fuel (block_size md.size) md.size
            (memset (stack_array (junk1 0) 128) (id % 256).toNat (block_size md.size)) it fuel
            (init_state junk1 data1 sb1 pb1 md.setup.2) l1 = some (r1, t1) := by
          rw [← e1]
          exact loop_div_congr md fuel (block_size md.size) _ _ hD it fuel _ _
        refine ⟨_, derivation_intro reg fuel junk1 data1 l1 pwd pwdlen salt saltlen md_type id
          it md sb1 pb1 r1 t1 (by omega) (by omega) (by omega) hreg hsetup hsb1 hpb1 e1', ?_, ?_⟩
        · intro z
          have := e2 z
          simp only [init_state, Nat.zero_add] at this
          rw [e2r]
          exact this
        · intro z; exact e3 z
      · rw [derivation_setup_fail reg fuel junk2 data2 l2 pwd pwdlen salt saltlen md_type
          id it md (by omega) (by omega) (by omega) hreg hsetup] at h
        simp only [Option.some.injEq] at h
        refine ⟨_, derivation_setup_fail reg fuel junk1 data1 l1 pwd pwdlen salt saltlen md_type
          id it md (by omega) (by omega) (by omega) hreg hsetup, ?_, ?_⟩
        · intro e; exact absurd e hsetup
        · intro _; rw [← h]

/-- With a non-empty secret and a non-empty salt within the limits, a supported digest
whose operations succeed and enough fuel, `ttls_pkcs12_derivation` returns 0 and writes
`datalen` bytes: the output buffer keeps its length and its bytes from `datalen` on. -/
theorem derivation_success (reg : Nat → Option (ttls_md_info_t Ctx)) (fuel : Nat)
    (junk : Nat → Nat → Nat) (data : Buf) (datalen : Nat) (pwd : Buf) (pwdlen : Nat)
    (salt : Buf) (saltlen : Nat) (md_type : Nat) (id it : Int) (md : ttls_md_info_t Ctx)
    (h1 : datalen ≤ 128) (h2 : pwdlen ≤ 64) (h3 : saltlen ≤ 64)
    (hreg : reg md_type = some md)
    (hs1 : 1 ≤ saltlen) (hp1 : 1 ≤ pwdlen) (h0 : 1 ≤ md.size) (hfuel : 128 ≤ fuel)
    (hs : md_sound md) (hm : md_succeeds md) (hd : datalen ≤ data.length)
    (hsalt : saltlen ≤ salt.length) (hpwd : pwdlen ≤ pwd.length) :
    ∃ r, ttls_pkcs12_derivation reg fuel junk data datalen pwd pwdlen salt saltlen md_type
        id it = some r ∧
      r.ret = 0 ∧ r.data.length = data.length ∧ r.data.drop datalen = data.drop datalen := by
  obtain ⟨r, hr, hz⟩ := derivation_returns reg fuel junk data datalen pwd pwdlen salt saltlen
    md_type id it md h1 h2 h3 hreg hs1 hp1 h0 hfuel
  obtain ⟨sb, pb, st, hsb, hpb, hl, e⟩ := derivation_inv reg fuel junk data datalen
    pwd pwdlen salt saltlen md_type id it md r h1 h2 h3 hreg hm.1 hr
  have hv := block_size_le md.size
  have fs := fill_stack fuel (junk 1) _ salt saltlen sb hv hsalt hsb
  have fp := fill_stack fuel (junk 2) _ pwd pwdlen pb hv hpwd hpb
  have fr := loop_frame md hs fuel _ hv _ it fuel _ datalen r.ret st
    (init_state_ok junk data sb pb md.setup.2 fs.1 fp.1) (by simpa [init_state] using hd) hl
  have ed : r.data = st.data := by rw [e]
  refine ⟨r, hr, hz hm, ?_, ?_⟩
  · rw [ed, fr.2.1]; rfl
  · rw [ed]
    have := fr.2.2.2
    simpa [init_state] using this

theorem rehash_computes (md : ttls_md_info_t Ctx) (H : Buf → Buf) (hH : md_computes md H)
    (n : Nat) : ∀ (ho x : Buf), ho.take md.size = x → x.length = md.size →
      (rehash md md.size n ho).1 = 0 → (rehash md md.size n ho).2.take md.size = H^[n] x := by
  induction n with
  | zero => intro ho x h _ _; simpa [rehash] using h
  | succ k ih =>
    intro ho x h hx hr
    simp only [rehash, h] at hr ⊢
    by_cases hz : (md.md x).1 = 0
    · simp only [hz, ne_eq, not_true_eq_false, if_false] at hr ⊢
      have e := hH.2.1 x hz
      rw [Function.iterate_succ_apply]
      apply ih _ _ _ (hH.2.2 x) hr
      rw [e]
      exact md_output_take _ _ _ (hH.2.2 x)
    · simp [hz] at hr

theorem hash_computes (md : ttls_md_info_t Ctx) (H : Buf → Buf) (hH : md_computes md H)
    (v : Nat) (D : Buf) (it : Int) (c : Ctx) (sb pb ho : Buf)
    (h : (derivation_hash md v md.size D it c sb pb ho).1 = 0) :
    (derivation_hash md v md.size D it c sb pb ho).2.2.take md.size
      = H^[rehash_count it + 1] (D.take v ++ sb.take v ++ pb.take v) := by
  simp only [derivation_hash] at h ⊢
  split_ifs at h ⊢ with a1 a2 a3 a4 a5
  · exact absurd h a1
  · exact absurd h a2
  · exact absurd h a3
  · exact absurd h a4
  · exact absurd h a5
  · have e := hH.1 c (D.take v) (sb.take v) (pb.take v) (not_not.mp a1) (not_not.mp a2)
      (not_not.mp a3) (not_not.mp a4) (not_not.mp a5)
    rw [Function.iterate_succ_apply]
    apply rehash_computes md H hH _ _ _ _ (hH.2.2 _) h
    rw [e]
    exact md_output_take _ _ _ (hH.2.2 _)

theorem rehash_count_succ (it : Int) :
    rehash_count it + 1 = max (it % 2 ^ SIZE_T_BITS).toNat 1 := by
  unfold rehash_count; omega

/-- A successful call asking for at most one digest writes the start of the digest
chain of the first round. -/
theorem derivation_first_block (reg : Nat → Option (ttls_md_info_t Ctx)) (fuel : Nat)
    (junk : Nat → Nat → Nat) (data : Buf) (datalen : Nat) (pwd : Buf) (pwdlen : Nat)
    (salt : Buf) (saltlen : Nat) (md_type : Nat) (id it : Int) (md : ttls_md_info_t Ctx)
    (H : Buf → Buf) (r : DerivResult)
    (hreg : reg md_type = some md) (hH : md_computes md H)
    (hsalt : saltlen ≤ salt.length) (hpwd : pwdlen ≤ pwd.length)
    (h1 : 1 ≤ datalen) (h2 : datalen ≤ md.size)
    (h : ttls_pkcs12_derivation reg fuel junk data datalen pwd pwdlen salt saltlen md_type
      id it = some r) (hret : r.ret = 0) :
    r.data.take datalen =
      (H^[max (it % 2 ^ SIZE_T_BITS).toNat 1]
        (List.replicate (block_size md.size) (id % 256).toNat
          ++ repeat_fill salt saltlen (block_size md.size)
          ++ repeat_fill pwd pwdlen (block_size md.size))).take datalen := by
  by_cases hc : datalen > 128 ∨ pwdlen > 64 ∨ saltlen > 64
  · simp only [ttls_pkcs12_derivation, hc, if_true, Option.some.injEq] at h
    rw [← h] at hret
    simp [TTLS_ERR_PKCS12_BAD_INPUT_DATA] at hret
  · by_cases hsetup : md.setup.1 = 0
    · obtain ⟨sb, pb, st, hsb, hpb, hl, e⟩ := derivation_inv reg fuel junk data datalen
        pwd pwdlen salt saltlen md_type id it md r (by omega) (by omega) (by omega) hreg
        hsetup h
      have hv := block_size_le md.size
      have fs := fill_stack fuel (junk 1) _ salt saltlen sb hv hsalt hsb
      have fp := fill_stack fuel (junk 2) _ pwd pwdlen pb hv hpwd hpb
      have ed : r.data = st.data := by rw [e]
      rw [hret] at hl
      cases fuel with
      | zero =>
        simp only [derivation_loop] at hl
        have : ¬ datalen = 0 := by omega
        simp [this] at hl
      | succ n =>
        rw [derivation_loop] at hl
        have hz : ¬ datalen = 0 := by omega
        simp only [hz, if_false] at hl
        by_cases hd : (derivation_hash md (block_size md.size) md.size
            (memset (stack_array (junk 0) 128) (id % 256).toNat (block_size md.size)) it
            (init_state junk data sb pb md.setup.2).md_ctx
            (init_state junk data sb pb md.setup.2).salt_block
            (init_state junk data sb pb md.setup.2).pwd_block
            (init_state junk data sb pb md.setup.2).hash_output).1 = 0
        · rw [round_last md (n + 1) _ _ it _ datalen hd h2] at hl
          simp only [Option.some.injEq, Prod.mk.injEq, true_and] at hl
          have hc' := hash_computes md H hH _ _ it _ _ _ _ hd
          rw [ed, ← hl]
          simp only [init_state] at hc' ⊢
          have hlen : md.size ≤ (derivation_hash md (block_size md.size) md.size
              (memset (stack_array (junk 0) 128) (id % 256).toNat (block_size md.size)) it
              md.setup.2 sb pb (stack_array (junk 4) TTLS_MD_MAX_SIZE)).2.2.length := by
            have := congrArg List.length hc'
            rw [List.length_take, Function.iterate_succ_apply', hH.2.2] at this
            omega
          have hm := memcpy_take data 0 (derivation_hash md (block_size md.size) md.size
              (memset (stack_array (junk 0) 128) (id % 256).toNat (block_size md.size)) it
              md.setup.2 sb pb (stack_array (junk 4) TTLS_MD_MAX_SIZE)).2.2 datalen
              (Nat.zero_le _) (by omega)
          simp only [Nat.zero_add, List.take_zero, List.nil_append] at hm
          rw [hm]
          have ht := congrArg (List.take datalen) hc'
          rw [List.take_take, Nat.min_eq_left h2] at ht
          rw [ht, rehash_count_succ, fs.2, fp.2]
          simp only [memset]
          rw [List.take_left' (List.length_replicate _ _)]
        · rw [round_fail md (n + 1) _ _ it _ datalen hd] at hl
          simp only [Option.some.injEq, Prod.mk.injEq] at hl
          exact absurd hl.1 hd
    · rw [derivation_setup_fail reg fuel junk data datalen pwd pwdlen salt saltlen md_type
        id it md (by omega) (by omega) (by omega) hreg hsetup] at h
      simp only [Option.some.injEq] at h
      rw [← h] at hret
      exact absurd hret hsetup

theorem toy_md_sound : md_sound toy_md := by
  refine ⟨by decide, fun c => ⟨by simp [toy_md, toy_digest, TTLS_MD_MAX_SIZE], fun _ => rfl⟩,
    fun x => ⟨by simp [toy_md, toy_digest, TTLS_MD_MAX_SIZE], fun _ => rfl⟩⟩

theorem toy_md_succeeds : md_succeeds toy_md :=
  ⟨rfl, fun _ => rfl, fun _ _ => rfl, fun _ => rfl, fun _ => rfl⟩

theorem toy_md_computes : md_computes toy_md toy_digest := by
  refine ⟨fun c a b d _ _ _ _ _ => ?_, fun _ _ => rfl, fun _ => rfl⟩
  simp [toy_md]

theorem toy_digest_iterate (n b : Nat) : toy_digest^[n] [b % 256] = [(b + n) % 256] := by
  induction n generalizing b with
  | zero => simp
  | succ k ih =>
    rw [Function.iterate_succ_apply]
    have : toy_digest [b % 256] = [(b + 1) % 256] := by simp [toy_digest]
    rw [this, ih]
    congr 2; omega

theorem derivation_exit_zero (reg : Nat → Option (ttls_md_info_t Ctx)) (fuel : Nat)
    (junk : Nat → Nat → Nat) (data : Buf) (datalen : Nat) (pwd : Buf) (pwdlen : Nat)
    (salt : Buf) (saltlen : Nat) (md_type : Nat) (id it : Int) (md : ttls_md_info_t Ctx)
    (r : DerivResult)
    (h1 : datalen ≤ 128) (h2 : pwdlen ≤ 64) (h3 : saltlen ≤ 64)
    (hreg : reg md_type = some md) (hsetup : md.setup.1 = 0) (hs : md_sound md)
    (hd : datalen ≤ data.length) (hsalt : saltlen ≤ salt.length) (hpwd : pwdlen ≤ pwd.length)
    (h : ttls_pkcs12_derivation reg fuel junk data datalen pwd pwdlen salt saltlen md_type
      id it = some r) :
    r.salt_block = List.replicate 128 0 ∧ r.pwd_block = List.replicate 128 0 ∧
    r.hash_block = List.replicate 128 0 ∧
    r.hash_output = List.replicate TTLS_MD_MAX_SIZE 0 := by
  obtain ⟨sb, pb, st, hsb, hpb, hl, e⟩ := derivation_inv reg fuel junk data datalen
    pwd pwdlen salt saltlen md_type id it md r h1 h2 h3 hreg hsetup h
  have hv := block_size_le md.size
  have fs := fill_stack fuel (junk 1) _ salt saltlen sb hv hsalt hsb
  have fp := fill_stack fuel (junk 2) _ pwd pwdlen pb hv hpwd hpb
  have fr := loop_frame md hs fuel _ hv _ it fuel _ datalen r.ret st
    (init_state_ok junk data sb pb md.setup.2 fs.1 fp.1) (by simpa [init_state] using hd) hl
  obtain ⟨o1, o2, o3, o4⟩ := fr.1
  rw [e]
  exact ⟨zeroize_eq _ _ o1, zeroize_eq _ _ o2, zeroize_eq _ _ o3, zeroize_eq _ _ o4⟩

theorem be_val_concat (l : Buf) (x : Nat) : be_val (l ++ [x]) = be_val l * 256 + x := by
  simp [be_val, List.foldl_append]

theorem take_succ_getD (l : Buf) (i : Nat) (h : i < l.length) :
    l.take (i + 1) = l.take i ++ [l.getD i 0] := by
  rw [List.take_succ, List.getD_eq_getElem?_getD, List.getElem?_eq_getElem h]
  simp

theorem be_val_take_succ (l : Buf) (i : Nat) (h : i < l.length) :
    be_val (l.take (i + 1)) = be_val (l.take i) * 256 + l.getD i 0 := by
  rw [take_succ_getD l i h, be_val_concat]

theorem bytes_ok_getD (l : Buf) (h : bytes_ok l) (i : Nat) : l.getD i 0 < 256 := by
  rw [List.getD_eq_getElem?_getD]
  by_cases hi : i < l.length
  · rw [List.getElem?_eq_getElem hi]
    exact h _ (List.getElem_mem hi)
  · rw [List.getElem?_eq_none (by omega)]
    simp

theorem bytes_ok_set (l : Buf) (h : bytes_ok l) (i x : Nat) (hx : x < 256) :
    bytes_ok (l.set i x) := by
  intro y hy
  rcases List.mem_or_eq_of_mem_set hy with h1 | h1
  · exact h y h1
  · rw [h1]; exact hx

theorem mul_add_mod_mul (a r m : Nat) (hr : r < 256) (hm : 0 < m) :
    (a * 256 + r) % (m * 256) = (a % m) * 256 + r := by
  have h1 : a * 256 + r = (a % m) * 256 + r + (m * 256) * (a / m) := by
    have := Nat.div_add_mod a m
    nlinarith [this]
  have h2 : (a % m) * 256 + r < m * 256 := by
    have := Nat.mod_lt a hm
    nlinarith [this]
  rw [h1, Nat.add_mul_mod_self_left, Nat.mod_eq_of_lt h2]

theorem getD_of_drop_eq (a b : Buf) (i : Nat) (h : a.drop i = b.drop i) :
    a.getD i 0 = b.getD i 0 := by
  have := congrArg (fun l => l.getD 0 0) h
  simpa [List.getD_eq_getElem?_getD, List.getElem?_drop] using this

theorem take_set_self (l : Buf) (n x : Nat) : (l.set n x).take n = l.take n := by
  rw [List.set_take]
  exact List.set_eq_of_length_le (by simp)

theorem add_block_value (hb : Buf) (hhb : bytes_ok hb) (i : Nat) :
    ∀ (blk : Buf) (c : Nat), i ≤ blk.length → i ≤ hb.length → bytes_ok blk → c ≤ 1 →
      (add_block hb i blk c).drop i = blk.drop i ∧
      be_val ((add_block hb i blk c).take i)
        = (be_val (blk.take i) + be_val (hb.take i) + c) % 256 ^ i := by
  induction i with
  | zero => intro blk c _ _ _ _; simp [add_block, be_val, Nat.mod_one]
  | succ n ih =>
    intro blk c h1 h2 hblk hc
    have b1 := bytes_ok_getD blk hblk n
    have b2 := bytes_ok_getD hb hhb n
    have ej : (blk.getD n 0 + hb.getD n 0 + c) % 2 ^ 32 = blk.getD n 0 + hb.getD n 0 + c :=
      Nat.mod_eq_of_lt (by omega)
    simp only [add_block, ej]
    have ec : (blk.getD n 0 + hb.getD n 0 + c) / 256 % 256
        = (blk.getD n 0 + hb.getD n 0 + c) / 256 := Nat.mod_eq_of_lt (by omega)
    rw [ec]
    generalize hj : blk.getD n 0 + hb.getD n 0 + c = j at *
    have hc' : j / 256 ≤ 1 := by omega
    obtain ⟨d, v⟩ := ih (blk.set n (j % 256)) (j / 256) (by rw [List.length_set]; omega)
      (by omega) (bytes_ok_set _ hblk _ _ (Nat.mod_lt _ (by omega))) hc'
    have hgd := getD_of_drop_eq _ _ n d
    have hset : (blk.set n (j % 256)).getD n 0 = j % 256 := by
      rw [List.getD_eq_getElem?_getD, List.getElem?_set_self (by omega)]; simp
    constructor
    · have := congrArg (List.drop 1) d
      rw [List.drop_drop, List.drop_drop] at this
      rw [this, List.drop_set_of_lt _ _ (by omega)]
    · have hl : n < (add_block hb n (blk.set n (j % 256)) (j / 256)).length := by
        rw [add_block_length, List.length_set]; omega
      have hp : 0 < 256 ^ n := Nat.pow_pos (by omega)
      have hm : j % 256 < 256 := Nat.mod_lt _ (by omega)
      rw [be_val_take_succ _ n hl, v, hgd, hset, take_set_self,
        be_val_take_succ blk n (by omega), be_val_take_succ hb n (by omega), pow_succ]
      have key : be_val (List.take n blk) * 256 + blk.getD n 0
          + (be_val (List.take n hb) * 256 + hb.getD n 0) + c
          = (be_val (List.take n blk) + be_val (List.take n hb) + j / 256) * 256 + j % 256 := by
        omega
      rw [key, mul_add_mod_mul _ _ _ hm hp]

theorem be_val_lt (l : Buf) (h : bytes_ok l) : be_val l < 256 ^ l.length := by
  induction l using List.reverseRecOn with
  | nil => simp [be_val]
  | append_singleton l x ih =>
    have hx : x < 256 := h x (by simp)
    have hl := ih (fun y hy => h y (by simp [hy]))
    rw [be_val_concat, List.length_append, List.length_singleton, pow_succ]
    nlinarith

theorem bytes_ok_take (l : Buf) (h : bytes_ok l) (n : Nat) : bytes_ok (l.take n) :=
  fun x hx => h x (List.mem_of_mem_take hx)

theorem incr_block_value (i : Nat) :
    ∀ (hb : Buf), i ≤ hb.length → bytes_ok hb →
      (incr_block i hb).drop i = hb.drop i ∧ bytes_ok (incr_block i hb) ∧
      be_val ((incr_block i hb).take i) = (be_val (hb.take i) + 1) % 256 ^ i := by
  induction i with
  | zero => intro hb _ h; simp [incr_block, be_val, Nat.mod_one, h]
  | succ n ih =>
    intro hb h1 hok
    have b1 := bytes_ok_getD hb hok n
    have hlt := be_val_lt (hb.take n) (bytes_ok_take hb hok n)
    rw [List.length_take, Nat.min_eq_left (by omega)] at hlt
    simp only [incr_block]
    generalize hx : hb.getD n 0 = x at *
    by_cases hz : (x + 1) % 256 = 0
    · have hx255 : x = 255 := by omega
      simp only [hz, ne_eq, not_true_eq_false, if_false]
      obtain ⟨d, ok, v⟩ := ih (hb.set n 0) (by rw [List.length_set]; omega)
        (bytes_ok_set _ hok _ _ (by omega))
      have hgd := getD_of_drop_eq _ _ n d
      have hset : (hb.set n 0).getD n 0 = 0 := by
        rw [List.getD_eq_getElem?_getD, List.getElem?_set_self (by omega)]; simp
      refine ⟨?_, ok, ?_⟩
      · have := congrArg (List.drop 1) d
        rw [List.drop_drop, List.drop_drop] at this
        rw [this, List.drop_set_of_lt _ _ (by omega)]
      · have hl : n < (incr_block n (hb.set n 0)).length := by
          rw [incr_block_length, List.length_set]; omega
        rw [be_val_take_succ _ n hl, v, hgd, hset, take_set_self,
          be_val_take_succ hb n (by omega), hx, hx255, pow_succ]
        rw [show be_val (List.take n hb) * 256 + 255 + 1
            = (be_val (List.take n hb) + 1) * 256 + 0 by ring]
        rw [mul_add_mod_mul _ _ _ (by omega) (Nat.pow_pos (by omega))]
    · simp only [hz, ne_eq, not_false_eq_true, if_true]
      have hx254 : x ≤ 254 := by omega
      have hm : (x + 1) % 256 = x + 1 := Nat.mod_eq_of_lt (by omega)
      rw [hm]
      refine ⟨List.drop_set_of_lt _ _ (by omega), bytes_ok_set _ hok _ _ (by omega), ?_⟩
      have hl : n < (hb.set n (x + 1)).length := by rw [List.length_set]; omega
      have hset : (hb.set n (x + 1)).getD n 0 = x + 1 := by
        rw [List.getD_eq_getElem?_getD, List.getElem?_set_self (by omega)]; simp
      rw [be_val_take_succ _ n hl, hset, take_set_self, be_val_take_succ hb n (by omega), hx,
        pow_succ]
      rw [Nat.mod_eq_of_lt (by nlinarith)]
      ring

theorem bytes_ok_append (a b : Buf) (ha : bytes_ok a) (hb : bytes_ok b) : bytes_ok (a ++ b) := by
  intro x hx
  rcases List.mem_append.mp hx with h | h
  · exact ha x h
  · exact hb x h

theorem bytes_ok_drop (l : Buf) (h : bytes_ok l) (n : Nat) : bytes_ok (l.drop n) :=
  fun x hx => h x (List.mem_of_mem_drop hx)

theorem md_output_bytes (buf out : Buf) (h1 : bytes_ok buf) (h2 : bytes_ok out) :
    bytes_ok (md_output buf out) :=
  bytes_ok_append _ _ h2 (bytes_ok_drop _ h1 _)

theorem rehash_bytes (md : ttls_md_info_t Ctx) (hb : md_bytes md) (hlen n : Nat) :
    ∀ ho, bytes_ok ho → bytes_ok (rehash md hlen n ho).2 := by
  induction n with
  | zero => intro ho h; simpa [rehash] using h
  | succ k ih =>
    intro ho h
    simp only [rehash]
    split
    · exact md_output_bytes _ _ h (hb.2 _)
    · exact ih _ (md_output_bytes _ _ h (hb.2 _))

theorem derivation_hash_bytes (md : ttls_md_info_t Ctx) (hb : md_bytes md) (v hlen : Nat)
    (D : Buf) (it : Int) (c : Ctx) (sb pb ho : Buf) (h : bytes_ok ho) :
    bytes_ok (derivation_hash md v hlen D it c sb pb ho).2.2 := by
  simp only [derivation_hash]
  split_ifs
  · exact h
  · exact h
  · exact h
  · exact h
  · exact md_output_bytes _ _ h (hb.1 _)
  · exact rehash_bytes md hb _ _ _ (md_output_bytes _ _ h (hb.1 _))

theorem repeat_fill_bytes (filler : Buf) (h : bytes_ok filler) (fill_len n : Nat) :
    bytes_ok (repeat_fill filler fill_len n) := by
  intro x hx
  simp only [repeat_fill, List.mem_map] at hx
  obtain ⟨i, _, e⟩ := hx
  rw [← e]
  exact bytes_ok_getD filler h _

theorem pow_256 (v : Nat) : 256 ^ v = 2 ^ (8 * v) := by
  rw [pow_mul]; norm_num

/-- The arithmetic of lines 328 to 352 on the first `v` bytes of the three blocks. -/
theorem blocks_value (ffuel v hlen : Nat) (ho hb sb pb : Buf) (b : Buf × Buf × Buf)
    (h1 : hlen ≤ ho.length) (h2 : v ≤ hb.length) (h3 : v ≤ sb.length) (h4 : v ≤ pb.length)
    (bo : bytes_ok ho) (bs : bytes_ok sb) (bp : bytes_ok pb)
    (h : derivation_blocks ffuel v hlen ho hb sb pb = some b) :
    ∃ B, pkcs12_fill_buffer ffuel hb v ho hlen = some B ∧
      B.take v = repeat_fill ho hlen v ∧
      be_val (b.1.take v) = (be_val (B.take v) + 1) % 2 ^ (8 * v) ∧
      be_val (b.2.1.take v)
        = (be_val (sb.take v) + (be_val (B.take v) + 1) % 2 ^ (8 * v)) % 2 ^ (8 * v) ∧
      be_val (b.2.2.take v)
        = (be_val (pb.take v) + (be_val (B.take v) + 1) % 2 ^ (8 * v)) % 2 ^ (8 * v) := by
  obtain ⟨t1, t2, t3⟩ := blocks_take ffuel v hlen ho hb sb pb b h1 h2 h
  have hB : ∃ B, pkcs12_fill_buffer ffuel hb v ho hlen = some B := by
    simp only [derivation_blocks] at h
    split at h
    · simp at h
    · next B hB => exact ⟨B, hB⟩
  obtain ⟨B, hB⟩ := hB
  have cB := fill_loop_closed ho hlen h1 ffuel hb 0 v B (by omega) hB
  simp only [List.take_zero, List.nil_append, Nat.zero_add] at cB
  have tB : B.take v = repeat_fill ho hlen v := by
    rw [cB]; exact List.take_left' (repeat_fill_length _ _ _)
  have lR := repeat_fill_length ho hlen v
  have bR := repeat_fill_bytes ho bo hlen v
  obtain ⟨_, bI, vI⟩ := incr_block_value v (repeat_fill ho hlen v) (by omega) bR
  have lI : (incr_block v (repeat_fill ho hlen v)).length = v := by
    rw [incr_block_length]; exact lR
  rw [List.take_of_length_le (by omega), List.take_of_length_le (by omega)] at vI
  have vS := (add_block_value _ bI v (sb.take v) 0 (by simp; omega) (by omega)
    (bytes_ok_take _ bs _) (by omega)).2
  have vP := (add_block_value _ bI v (pb.take v) 0 (by simp; omega) (by omega)
    (bytes_ok_take _ bp _) (by omega)).2
  have lS : (add_block (incr_block v (repeat_fill ho hlen v)) v (sb.take v) 0).length = v := by
    rw [add_block_length]; simp; omega
  have lP : (add_block (incr_block v (repeat_fill ho hlen v)) v (pb.take v) 0).length = v := by
    rw [add_block_length]; simp; omega
  have eI : (incr_block v (repeat_fill ho hlen v)).take v
      = incr_block v (repeat_fill ho hlen v) := List.take_of_length_le (by omega)
  have eS : (add_block (incr_block v (repeat_fill ho hlen v)) v (sb.take v) 0).take v
      = add_block (incr_block v (repeat_fill ho hlen v)) v (sb.take v) 0 :=
    List.take_of_length_le (by omega)
  have eP : (add_block (incr_block v (repeat_fill ho hlen v)) v (pb.take v) 0).take v
      = add_block (incr_block v (repeat_fill ho hlen v)) v (pb.take v) 0 :=
    List.take_of_length_le (by omega)
  rw [eS, List.take_take, Nat.min_self, eI, vI, Nat.add_zero] at vS
  rw [eP, List.take_take, Nat.min_self, eI, vI, Nat.add_zero] at vP
  refine ⟨B, hB, tB, ?_, ?_, ?_⟩
  · rw [t1, tB, vI, pow_256]
  · rw [t2, tB, vS, pow_256]
  · rw [t3, tB, vP, pow_256]

theorem toy_md_bytes : md_bytes toy_md := by
  constructor
  · intro c x hx
    simp only [toy_md, toy_digest, List.mem_singleton] at hx
    omega
  · intro c x hx
    simp only [toy_md, toy_digest, List.mem_singleton] at hx
    omega

theorem unipwd_fill_succ (u pwd : Buf) (n : Nat) :
    unipwd_fill u pwd (n + 1) = (unipwd_fill u pwd n).set (n * 2 + 1) (pwd.getD n 0) := by
  simp [unipwd_fill, List.range_succ, List.foldl_append]

theorem unipwd_fill_length (u pwd : Buf) (n : Nat) :
    (unipwd_fill u pwd n).length = u.length := by
  induction n with
  | zero => simp [unipwd_fill]
  | succ k ih => rw [unipwd_fill_succ, List.length_set, ih]

theorem unipwd_fill_get (u pwd : Buf) (n k : Nat) :
    (unipwd_fill u pwd n)[k]? =
      if k % 2 = 1 ∧ k / 2 < n ∧ k < u.length then some (pwd.getD (k / 2) 0) else u[k]? := by
  induction n with
  | zero => simp [unipwd_fill]
  | succ m ih =>
    rw [unipwd_fill_succ, List.getElem?_set, unipwd_fill_length]
    by_cases h1 : m * 2 + 1 = k
    · subst h1
      have e : (m * 2 + 1) / 2 = m := by omega
      rw [if_pos rfl]
      by_cases h2 : m * 2 + 1 < u.length
      · have c1 : (m * 2 + 1) % 2 = 1 ∧ (m * 2 + 1) / 2 < m + 1 ∧ m * 2 + 1 < u.length :=
          ⟨by omega, by omega, h2⟩
        rw [if_pos h2, if_pos c1, e]
      · have c1 : ¬ ((m * 2 + 1) % 2 = 1 ∧ (m * 2 + 1) / 2 < m + 1 ∧ m * 2 + 1 < u.length) :=
          fun h => h2 h.2.2
        rw [if_neg h2, if_neg c1]
        exact (List.getElem?_eq_none (Nat.le_of_not_lt h2)).symm
    · rw [if_neg h1, ih]
      by_cases h3 : k % 2 = 1 ∧ k / 2 < m ∧ k < u.length
      · have c1 : k % 2 = 1 ∧ k / 2 < m + 1 ∧ k < u.length := ⟨h3.1, by omega, h3.2.2⟩
        rw [if_pos h3, if_pos c1]
      · have c1 : ¬ (k % 2 = 1 ∧ k / 2 < m + 1 ∧ k < u.length) := by
          intro h; apply h3; refine ⟨h.1, ?_, h.2.2⟩; omega
        rw [if_neg h3, if_neg c1]

theorem memset_all (junk : Nat → Nat) (n c : Nat) :
    memset (stack_array junk n) c n = List.replicate n c := by
  simp [memset, stack_array]

/-- The password as `pkcs12_pbe_derive_key_iv` hands it on: byte `2 i` is 0 and byte
`2 i + 1` is `pwd[i]`, and two zero bytes follow. -/
theorem unipwd_shape (pwd : Buf) (pwdlen : Nat) (h : pwdlen ≤ PKCS12_MAX_PWDLEN)
    (hp : pwdlen ≤ pwd.length) :
    ((pbe_unipwd pwd pwdlen).take (pwdlen * 2 + 2)).length = 2 * pwdlen + 2 ∧
    (∀ i, i < pwdlen →
      ((pbe_unipwd pwd pwdlen).take (pwdlen * 2 + 2))[2 * i]? = some 0 ∧
      ((pbe_unipwd pwd pwdlen).take (pwdlen * 2 + 2))[2 * i + 1]? = pwd[i]?) ∧
    ((pbe_unipwd pwd pwdlen).take (pwdlen * 2 + 2))[2 * pwdlen]? = some 0 ∧
    ((pbe_unipwd pwd pwdlen).take (pwdlen * 2 + 2))[2 * pwdlen + 1]? = some 0 := by
  have hM : PKCS12_MAX_PWDLEN = 128 := rfl
  rw [hM] at h
  have hl : (pbe_unipwd pwd pwdlen).length = 258 := by
    simp [pbe_unipwd, unipwd_fill_length, hM]
  have g : ∀ k, (pbe_unipwd pwd pwdlen)[k]? =
      if k % 2 = 1 ∧ k / 2 < pwdlen ∧ k < 258 then some (pwd.getD (k / 2) 0)
      else (List.replicate 258 0)[k]? := by
    intro k
    have := unipwd_fill_get (List.replicate (PKCS12_MAX_PWDLEN * 2 + 2) 0) pwd pwdlen k
    simpa [pbe_unipwd, hM] using this
  refine ⟨by rw [List.length_take, hl]; omega, fun i hi => ⟨?_, ?_⟩, ?_, ?_⟩
  · rw [List.getElem?_take, if_pos (by omega), g,
      if_neg (by intro h; omega)]
    rw [List.getElem?_replicate, if_pos (by omega)]
  · rw [List.getElem?_take, if_pos (by omega), g, if_pos ⟨by omega, by omega, by omega⟩]
    have e : (2 * i + 1) / 2 = i := by omega
    rw [e, List.getD_eq_getElem?_getD, List.getElem?_eq_getElem (by omega)]
    simp
  · rw [List.getElem?_take, if_pos (by omega), g, if_neg (by intro h; omega),
      List.getElem?_replicate, if_pos (by omega)]
  · rw [List.getElem?_take, if_pos (by omega), g, if_neg (by intro h; omega),
      List.getElem?_replicate, if_pos (by omega)]

theorem derive_key_iv_key_only (asn1 : ttls_asn1_ops)
    (reg : Nat → Option (ttls_md_info_t Ctx)) (fuel : Nat) (junk : Nat → Nat → Nat → Nat)
    (params : ttls_asn1_buf) (md_type : Nat) (pwd : Buf) (pwdlen : Nat) (key : Buf)
    (keylen ivlen : Nat) (h : pwdlen ≤ PKCS12_MAX_PWDLEN)
    (hparse : (pkcs12_parse_pbe_params asn1 params 0 0 0).ret = 0) :
    pkcs12_pbe_derive_key_iv asn1 reg fuel junk params md_type pwd pwdlen key keylen none ivlen
      = (ttls_pkcs12_derivation reg fuel (junk 1) key keylen (pbe_unipwd pwd pwdlen)
          (pwdlen * 2 + 2) (params.mem.drop (pkcs12_parse_pbe_params asn1 params 0 0 0).salt_p)
          (pkcs12_parse_pbe_params asn1 params 0 0 0).salt_len md_type TTLS_PKCS12_DERIVE_KEY
          (pkcs12_parse_pbe_params asn1 params 0 0 0).iterations).map
        (fun k => ⟨k.ret, k.data, none, pbe_unipwd pwd pwdlen⟩) := by
  have hc : ¬ pwdlen > PKCS12_MAX_PWDLEN := by omega
  simp only [pkcs12_pbe_derive_key_iv, hc, if_false, hparse, ne_eq, not_true_eq_false,
    memset_all, pbe_unipwd]
  split
  · next e => rw [e]; rfl
  · next k e =>
    rw [e]
    by_cases hk : k.ret = 0
    · simp [hk]
    · simp [hk]

theorem derive_key_iv_with_iv (asn1 : ttls_asn1_ops)
    (reg : Nat → Option (ttls_md_info_t Ctx)) (fuel : Nat) (junk : Nat → Nat → Nat → Nat)
    (params : ttls_asn1_buf) (md_type : Nat) (pwd : Buf) (pwdlen : Nat) (key : Buf)
    (keylen : Nat) (ivbuf : Buf) (ivlen : Nat) (k : DerivResult)
    (h : pwdlen ≤ PKCS12_MAX_PWDLEN)
    (hparse : (pkcs12_parse_pbe_params asn1 params 0 0 0).ret = 0) (hiv : ivlen ≠ 0)
    (hk : ttls_pkcs12_derivation reg fuel (junk 1) key keylen (pbe_unipwd pwd pwdlen)
          (pwdlen * 2 + 2) (params.mem.drop (pkcs12_parse_pbe_params asn1 params 0 0 0).salt_p)
          (pkcs12_parse_pbe_params asn1 params 0 0 0).salt_len md_type TTLS_PKCS12_DERIVE_KEY
          (pkcs12_parse_pbe_params asn1 params 0 0 0).iterations = some k)
    (hk0 : k.ret = 0) :
    pkcs12_pbe_derive_key_iv asn1 reg fuel junk params md_type pwd pwdlen key keylen
        (some ivbuf) ivlen
      = (ttls_pkcs12_derivation reg fuel (junk 2) ivbuf ivlen (pbe_unipwd pwd pwdlen)
          (pwdlen * 2 + 2) (params.mem.drop (pkcs12_parse_pbe_params asn1 params 0 0 0).salt_p)
          (pkcs12_parse_pbe_params asn1 params 0 0 0).salt_len md_type TTLS_PKCS12_DERIVE_IV
          (pkcs12_parse_pbe_params asn1 params 0 0 0).iterations).map
        (fun v => ⟨v.ret, k.data, some v.data, pbe_unipwd pwd pwdlen⟩) := by
  have hc : ¬ pwdlen > PKCS12_MAX_PWDLEN := by omega
  simp only [pbe_unipwd] at hk
  simp only [pkcs12_pbe_derive_key_iv, hc, if_false, hparse, ne_eq, not_true_eq_false,
    memset_all, pbe_unipwd, hk, hk0, hiv]
  split
  · next e => rw [e]; rfl
  · next v e =>
    rw [e]
    by_cases hv : v.ret = 0
    · simp [hv]
    · simp [hv]

theorem derive_key_iv_long_pwd (asn1 : ttls_asn1_ops)
    (reg : Nat → Option (ttls_md_info_t Ctx)) (fuel : Nat) (junk : Nat → Nat → Nat → Nat)
    (params : ttls_asn1_buf) (md_type : Nat) (pwd : Buf) (pwdlen : Nat) (key : Buf)
    (keylen : Nat) (iv : Option Buf) (ivlen : Nat) (h : pwdlen > PKCS12_MAX_PWDLEN) :
    pkcs12_pbe_derive_key_iv asn1 reg fuel junk params md_type pwd pwdlen key keylen iv ivlen
      = some ⟨TTLS_ERR_PKCS12_BAD_INPUT_DATA, key, iv,
          stack_array (junk 0 0) (PKCS12_MAX_PWDLEN * 2 + 2)⟩ := by
  simp only [pkcs12_pbe_derive_key_iv, h, if_true]

/-! ## The claims -/

/-- Claim C1: a call of `ttls_pkcs12_derivation` with `datalen > 128`, `pwdlen > 64` or
`saltlen > 64` returns `TTLS_ERR_PKCS12_BAD_INPUT_DATA`, whatever the digest registry, the
hash type, the id, the iteration count and the fuel, and leaves the output buffer as it
was. -/
theorem C1_derivation_rejects_long_input (reg : Nat → Option (ttls_md_info_t Ctx))
    (fuel : Nat) (junk : Nat → Nat → Nat) (data : Buf) (datalen : Nat) (pwd : Buf)
    (pwdlen : Nat) (salt : Buf) (saltlen : Nat) (md_type : Nat) (id iterations : Int)
    (h : datalen > 128 ∨ pwdlen > 64 ∨ saltlen > 64) :
    ∃ r, ttls_pkcs12_derivation reg fuel junk data datalen pwd pwdlen salt saltlen md_type
        id iterations = some r ∧
      r.ret = TTLS_ERR_PKCS12_BAD_INPUT_DATA ∧ r.data = data := by
  refine ⟨⟨TTLS_ERR_PKCS12_BAD_INPUT_DATA, data, stack_array (junk 1) 128,
    stack_array (junk 2) 128, stack_array (junk 3) 128,
    stack_array (junk 4) TTLS_MD_MAX_SIZE⟩, ?_, rfl, rfl⟩
  simp only [ttls_pkcs12_derivation, h, if_true]

/-- Claim C1 at a concrete input: 129 bytes asked of an unregistered hash type. -/
theorem C1_witness :
    (129 > 128 ∨ 0 > 64 ∨ 0 > 64) ∧
    ∃ r, ttls_pkcs12_derivation toy_registry 0 (fun _ _ => 0) [5, 5] 129 [] 0 [] 0 9 1 1
        = some r ∧
      r.ret = TTLS_ERR_PKCS12_BAD_INPUT_DATA ∧ r.data = [5, 5] :=
  ⟨by decide, C1_derivation_rejects_long_input toy_registry 0 (fun _ _ => 0) [5, 5] 129 [] 0
    [] 0 9 1 1 (by decide)⟩

/-- Claim C2, the code at the failing input: with a secret of 3 bytes, an empty salt
(`saltlen = 0`, within the limit of 64), a supported digest whose operations succeed,
id 1 and one iteration, `ttls_pkcs12_derivation` returns nothing, however much fuel it
gets: `pkcs12_fill_buffer` loops on the empty salt. -/
theorem C2_empty_salt_never_returns (fuel : Nat) (junk : Nat → Nat → Nat) (data : Buf) :
    ttls_pkcs12_derivation toy_registry fuel junk data 16 [1, 2, 3] 3 [] 0 4 1 1 = none :=
  derivation_hangs toy_registry fuel junk data 16 [1, 2, 3] 3 [] 0 4 1 1 toy_md
    (by decide) (by decide) (by decide) rfl rfl (Or.inl rfl)

/-- Claim C3, amended: a successful call of `ttls_pkcs12_derivation` with
`1 ≤ datalen ≤ hlen` writes the first `datalen` bytes of `H` applied
`max (iterations mod 2^64) 1` times, first to `D || S || P`, where `v` is 64 if
`hlen ≤ 32` and 128 otherwise, `D` is `v` copies of the low byte of `id`, and `S`, `P`
are the salt and the secret repeated and truncated to `v` bytes. -/
theorem C3_first_block (reg : Nat → Option (ttls_md_info_t Ctx)) (fuel : Nat)
    (junk : Nat → Nat → Nat) (data : Buf) (datalen : Nat) (pwd : Buf) (pwdlen : Nat)
    (salt : Buf) (saltlen : Nat) (md_type : Nat) (id iterations : Int)
    (md : ttls_md_info_t Ctx) (H : Buf → Buf) (r : DerivResult)
    (hreg : reg md_type = some md) (hH : md_computes md H)
    (hsalt : saltlen ≤ salt.length) (hpwd : pwdlen ≤ pwd.length)
    (h1 : 1 ≤ datalen) (h2 : datalen ≤ md.size)
    (h : ttls_pkcs12_derivation reg fuel junk data datalen pwd pwdlen salt saltlen md_type
      id iterations = some r) (hret : r.ret = 0) :
    r.data.take datalen =
      (H^[max (iterations % 2 ^ SIZE_T_BITS).toNat 1]
        (List.replicate (block_size md.size) (id % 256).toNat
          ++ repeat_fill salt saltlen (block_size md.size)
          ++ repeat_fill pwd pwdlen (block_size md.size))).take datalen :=
  derivation_first_block reg fuel junk data datalen pwd pwdlen salt saltlen md_type id
    iterations md H r hreg hH hsalt hpwd h1 h2 h hret

/-- Claim C3, amended, at a concrete input: one byte, two iterations. -/
theorem C3_witness :
    List.take 1 [98, 9] =
      (toy_digest^[max ((2 : Int) % 2 ^ SIZE_T_BITS).toNat 1]
        (List.replicate (block_size toy_md.size) ((1 : Int) % 256).toNat
          ++ repeat_fill [3] 1 (block_size toy_md.size)
          ++ repeat_fill [1, 2] 2 (block_size toy_md.size))).take 1 :=
  C3_first_block toy_registry 128 (fun _ _ => 7) [9, 9] 1 [1, 2] 2 [3] 1 4 1 2 toy_md
    toy_digest
    ⟨0, [98, 9], List.replicate 128 0, List.replicate 128 0, List.replicate 128 0,
      List.replicate 64 0⟩
    rfl toy_md_computes (by decide) (by decide) (by decide) (by decide) (by decide) rfl

/-- Claim C3 as stated fails for a negative iteration count: with `iterations = -1` the
call succeeds and writes the byte 191, the digest applied `2^64 - 1` times, where the
claim gives 193, the digest applied `max (-1) 1 = 1` time. -/
theorem C3_counterexample :
    ∃ r, ttls_pkcs12_derivation toy_registry 128 (fun _ _ => 0) [0] 1 [1] 1 [1] 1 4 1 (-1)
        = some r ∧ r.ret = 0 ∧ r.data.take 1 = [191] ∧
      (toy_digest^[(max (-1 : Int) 1).toNat]
        (List.replicate (block_size toy_md.size) ((1 : Int) % 256).toNat
          ++ repeat_fill [1] 1 (block_size toy_md.size)
          ++ repeat_fill [1] 1 (block_size toy_md.size))).take 1 = [193] := by
  obtain ⟨r, hr, hret⟩ := derivation_returns toy_registry 128 (fun _ _ => 0) [0] 1 [1] 1 [1] 1
    4 1 (-1) toy_md (by decide) (by decide) (by decide) rfl (by decide) (by decide)
    (by decide) (by decide)
  have h0 := hret toy_md_succeeds
  have hb := derivation_first_block toy_registry 128 (fun _ _ => 0) [0] 1 [1] 1 [1] 1 4 1 (-1)
    toy_md toy_digest r rfl toy_md_computes (by decide) (by decide) (by decide) (by decide)
    hr h0
  have hX : toy_digest (List.replicate (block_size toy_md.size) ((1 : Int) % 256).toNat
          ++ repeat_fill [1] 1 (block_size toy_md.size)
          ++ repeat_fill [1] 1 (block_size toy_md.size)) = [193 % 256] := by decide
  have hn : max ((-1 : Int) % 2 ^ SIZE_T_BITS).toNat 1 = (2 ^ 64 - 2) + 1 := by decide
  refine ⟨r, hr, h0, ?_, ?_⟩
  · rw [hb, hn, Function.iterate_succ_apply, hX, toy_digest_iterate]
    decide
  · have : (max (-1 : Int) 1).toNat = 1 := by decide
    rw [this, Function.iterate_one, hX]
    decide

/-- Claim C4: for a fixed non-empty secret, non-empty salt, id, iteration count and
hash, and `l1 ≤ l2 ≤ 128`, the call with `datalen = l1` and the call with `datalen = l2`
both return, and the `l1` bytes the first one produced are the first `l1` bytes of the
second one, whatever the stacks and the output buffers held before; when the digest
operations succeed both calls return 0. -/
theorem C4_shorter_call_agrees (reg : Nat → Option (ttls_md_info_t Ctx))
    (md : ttls_md_info_t Ctx) (fuel : Nat) (junk1 junk2 : Nat → Nat → Nat)
    (data1 data2 : Buf) (l1 l2 : Nat) (pwd : Buf) (pwdlen : Nat) (salt : Buf) (saltlen : Nat)
    (md_type : Nat) (id iterations : Int)
    (hreg : reg md_type = some md) (hs : md_sound md) (h0 : 1 ≤ md.size) (hfuel : 128 ≤ fuel)
    (hl : l1 ≤ l2) (hl2 : l2 ≤ 128) (hd1 : l1 ≤ data1.length) (hd2 : l2 ≤ data2.length)
    (hp1 : 1 ≤ pwdlen) (hp2 : pwdlen ≤ 64) (hp3 : pwdlen ≤ pwd.length)
    (hs1 : 1 ≤ saltlen) (hs2 : saltlen ≤ 64) (hs3 : saltlen ≤ salt.length) :
    ∃ r1 r2,
      ttls_pkcs12_derivation reg fuel junk1 data1 l1 pwd pwdlen salt saltlen md_type id
        iterations = some r1 ∧
      ttls_pkcs12_derivation reg fuel junk2 data2 l2 pwd pwdlen salt saltlen md_type id
        iterations = some r2 ∧
      (r1.ret = 0 → r1.data.take l1 = r2.data.take l1) ∧
      (md_succeeds md → r1.ret = 0 ∧ r2.ret = 0) := by
  obtain ⟨r2, h2, z2⟩ := derivation_returns reg fuel junk2 data2 l2 pwd pwdlen salt saltlen
    md_type id iterations md hl2 hp2 hs2 hreg hs1 hp1 h0 hfuel
  obtain ⟨r1', h1', z1⟩ := derivation_returns reg fuel junk1 data1 l1 pwd pwdlen salt saltlen
    md_type id iterations md (by omega) hp2 hs2 hreg hs1 hp1 h0 hfuel
  obtain ⟨r1, h1, e, _⟩ := derivation_rel reg fuel junk1 junk2 data1 data2 l1 l2 pwd pwdlen
    salt saltlen md_type id iterations
    (fun m hm => by rw [hreg] at hm; cases hm; exact hs)
    hl (Or.inl hl2) hd1 hd2 hs3 hp3 r2 h2
  have : r1' = r1 := by rw [h1] at h1'; exact (Option.some.inj h1').symm
  subst this
  exact ⟨r1', r2, h1, h2, e, fun hm => ⟨z1 hm, z2 hm⟩⟩

/-- Claim C4 at a concrete input: one byte against three bytes. -/
theorem C4_witness :
    ∃ r1 r2,
      ttls_pkcs12_derivation toy_registry 128 (fun _ _ => 7) [9] 1 [1, 2] 2 [3] 1 4 1 2
        = some r1 ∧
      ttls_pkcs12_derivation toy_registry 128 (fun _ _ => 5) [8, 8, 8] 3 [1, 2] 2 [3] 1 4 1 2
        = some r2 ∧
      (r1.ret = 0 → r1.data.take 1 = r2.data.take 1) ∧
      (md_succeeds toy_md → r1.ret = 0 ∧ r2.ret = 0) :=
  C4_shorter_call_agrees toy_registry toy_md 128 (fun _ _ => 7) (fun _ _ => 5) [9] [8, 8, 8] 1 3
    [1, 2] 2 [3] 1 4 1 2 rfl toy_md_sound (by decide) (by decide) (by decide) (by decide)
    (by decide) (by decide) (by decide) (by decide) (by decide) (by decide) (by decide)
    (by decide)

/-- Claim C5: in a round of `ttls_pkcs12_derivation` after which more output is needed,
with `B` the block `pkcs12_fill_buffer` builds in `hash_block`, the first `v` bytes of
`hash_block`, `salt_block` and `pwd_block` after the round are, as big-endian integers,
`(B + 1) mod 2^(8v)`, `(old salt + (B + 1) mod 2^(8v)) mod 2^(8v)` and
`(old secret + (B + 1) mod 2^(8v)) mod 2^(8v)`. -/
theorem C5_round_adds_B_plus_one (md : ttls_md_info_t Ctx) (ffuel v : Nat) (D : Buf)
    (iterations : Int) (st st' : DerivState Ctx) (datalen datalen' : Nat)
    (hs : md_sound md) (hb : md_bytes md) (hv : v ≤ 128) (hok : st_ok st)
    (bs : bytes_ok st.salt_block) (bp : bytes_ok st.pwd_block) (bo : bytes_ok st.hash_output)
    (h : derivation_round md ffuel v md.size D iterations st datalen
      = some (.more st' datalen')) :
    ∃ B, pkcs12_fill_buffer ffuel st.hash_block v st'.hash_output md.size = some B ∧
      be_val (st'.hash_block.take v) = (be_val (B.take v) + 1) % 2 ^ (8 * v) ∧
      be_val (st'.salt_block.take v)
        = (be_val (st.salt_block.take v) + (be_val (B.take v) + 1) % 2 ^ (8 * v))
            % 2 ^ (8 * v) ∧
      be_val (st'.pwd_block.take v)
        = (be_val (st.pwd_block.take v) + (be_val (B.take v) + 1) % 2 ^ (8 * v))
            % 2 ^ (8 * v) := by
  rcases round_cases md ffuel v D iterations st datalen _ h with
    ⟨_, c⟩ | ⟨_, _, c⟩ | ⟨_, _, b, hb', c⟩
  · simp at c
  · simp at c
  · simp only [Round.more.injEq] at c
    obtain ⟨c1, _⟩ := c
    subst c1
    have hlen := derivation_hash_length md hs v md.size D iterations st.md_ctx st.salt_block
      st.pwd_block st.hash_output hok.2.2.2
    have hsz : md.size ≤ TTLS_MD_MAX_SIZE := hs.1
    obtain ⟨B, e1, _, e3, e4, e5⟩ := blocks_value ffuel v md.size _ _ _ _ b
      (by rw [hlen]; exact hsz) (by rw [hok.2.2.1]; exact hv) (by rw [hok.1]; exact hv)
      (by rw [hok.2.1]; exact hv)
      (derivation_hash_bytes md hb v md.size D iterations st.md_ctx st.salt_block
        st.pwd_block st.hash_output bo) bs bp hb'
    exact ⟨B, e1, e3, e4, e5⟩

/-- Claim C5 at a concrete round: 64 byte blocks, digest byte 65. -/
theorem C5_witness :
    ∃ B, pkcs12_fill_buffer 128 toy_state.hash_block 64 (toy_next 65).hash_output toy_md.size
        = some B ∧
      be_val ((toy_next 65).hash_block.take 64) = (be_val (B.take 64) + 1) % 2 ^ (8 * 64) ∧
      be_val ((toy_next 65).salt_block.take 64)
        = (be_val (toy_state.salt_block.take 64) + (be_val (B.take 64) + 1) % 2 ^ (8 * 64))
            % 2 ^ (8 * 64) ∧
      be_val ((toy_next 65).pwd_block.take 64)
        = (be_val (toy_state.pwd_block.take 64) + (be_val (B.take 64) + 1) % 2 ^ (8 * 64))
            % 2 ^ (8 * 64) :=
  C5_round_adds_B_plus_one toy_md 128 64 (List.replicate 128 1) 1 toy_state (toy_next 65) 2 1
    toy_md_sound toy_md_bytes (by decide) ⟨rfl, rfl, rfl, rfl⟩
    (by unfold bytes_ok; decide) (by unfold bytes_ok; decide) (by unfold bytes_ok; decide)
    (by decide)

/-- Claim C6, amended: in a round of `ttls_pkcs12_derivation` after which more output is
needed, for every iteration count, the block `B` that is incremented and added to the
salt and secret blocks is built by replicating to `v` bytes the final digest of the
round, the digest of `diversifier || salt-block || secret-block` after the
`iterations - 1` further digests, the same digest whose bytes were copied to the
output. -/
theorem C6_B_from_final_digest (md : ttls_md_info_t Ctx) (H : Buf → Buf) (ffuel v : Nat)
    (D : Buf) (iterations : Int) (st st' : DerivState Ctx) (datalen datalen' : Nat)
    (hH : md_computes md H) (hhb : v ≤ st.hash_block.length)
    (h : derivation_round md ffuel v md.size D iterations st datalen
      = some (.more st' datalen')) :
    st'.hash_output.take md.size
      = H^[max (iterations % 2 ^ SIZE_T_BITS).toNat 1]
          (D.take v ++ st.salt_block.take v ++ st.pwd_block.take v) ∧
    st'.data = memcpy st.data st.p st'.hash_output md.size ∧
    ∃ B, pkcs12_fill_buffer ffuel st.hash_block v st'.hash_output md.size = some B ∧
      B.take v = repeat_fill
        (H^[max (iterations % 2 ^ SIZE_T_BITS).toNat 1]
          (D.take v ++ st.salt_block.take v ++ st.pwd_block.take v)) md.size v ∧
      st'.hash_block = incr_block v B ∧
      st'.salt_block = add_block st'.hash_block v st.salt_block 0 ∧
      st'.pwd_block = add_block st'.hash_block v st.pwd_block 0 := by
  rcases round_cases md ffuel v D iterations st datalen _ h with
    ⟨_, c⟩ | ⟨_, _, c⟩ | ⟨c0, _, b, hb', c⟩
  · simp at c
  · simp at c
  · simp only [Round.more.injEq] at c
    obtain ⟨c1, _⟩ := c
    subst c1
    simp only
    have hc := hash_computes md H hH v D iterations st.md_ctx st.salt_block st.pwd_block
      st.hash_output c0
    rw [rehash_count_succ] at hc
    have hlen : md.size ≤ (derivation_hash md v md.size D iterations st.md_ctx st.salt_block
        st.pwd_block st.hash_output).2.2.length := by
      have := congrArg List.length hc
      rw [List.length_take] at this
      have e : max (iterations % 2 ^ SIZE_T_BITS).toNat 1
          = (max (iterations % 2 ^ SIZE_T_BITS).toNat 1 - 1) + 1 := by omega
      rw [e, Function.iterate_succ_apply', hH.2.2] at this
      omega
    obtain ⟨e1, e2, e3⟩ := blocks_closed ffuel v md.size _ _ _ _ b hlen hhb hb'
    have hB : ∃ B, pkcs12_fill_buffer ffuel st.hash_block v (derivation_hash md v md.size D
        iterations st.md_ctx st.salt_block st.pwd_block st.hash_output).2.2 md.size
        = some B := by
      simp only [derivation_blocks] at hb'
      split at hb'
      · simp at hb'
      · next B hB => exact ⟨B, hB⟩
    obtain ⟨B, hB⟩ := hB
    have cB := fill_loop_closed _ md.size hlen ffuel st.hash_block 0 v B (by omega) hB
    simp only [List.take_zero, List.nil_append, Nat.zero_add] at cB
    refine ⟨hc, trivial, B, hB, ?_, ?_, e2, e3⟩
    · rw [cB, List.take_left' (repeat_fill_length _ _ _)]
      by_cases hz : md.size = 0
      · have hv0 : v = 0 := by
          by_contra hne
          simp only [pkcs12_fill_buffer] at hB
          rw [hz, fill_loop_zero _ _ _ _ _ (by omega)] at hB
          simp at hB
        rw [hv0]; simp [repeat_fill]
      · rw [← repeat_fill_take _ _ _ (by omega), hc]
    · rw [e1, cB]

/-- Claim C6, amended, at a concrete round with two iterations. -/
theorem C6_witness :
    (toy_next 66).hash_output.take toy_md.size
      = toy_digest^[max ((2 : Int) % 2 ^ SIZE_T_BITS).toNat 1]
          ((List.replicate 128 1).take 64 ++ toy_state.salt_block.take 64
            ++ toy_state.pwd_block.take 64) ∧
    (toy_next 66).data = memcpy toy_state.data toy_state.p (toy_next 66).hash_output
      toy_md.size ∧
    ∃ B, pkcs12_fill_buffer 128 toy_state.hash_block 64 (toy_next 66).hash_output toy_md.size
        = some B ∧
      B.take 64 = repeat_fill
        (toy_digest^[max ((2 : Int) % 2 ^ SIZE_T_BITS).toNat 1]
          ((List.replicate 128 1).take 64 ++ toy_state.salt_block.take 64
            ++ toy_state.pwd_block.take 64)) toy_md.size 64 ∧
      (toy_next 66).hash_block = incr_block 64 B ∧
      (toy_next 66).salt_block = add_block (toy_next 66).hash_block 64 toy_state.salt_block 0 ∧
      (toy_next 66).pwd_block = add_block (toy_next 66).hash_block 64 toy_state.pwd_block 0 :=
  C6_B_from_final_digest toy_md toy_digest 128 64 (List.replicate 128 1) 2 toy_state
    (toy_next 66) 2 1 toy_md_computes (by decide) (by decide)

/-- Claim C6 as stated fails with two iterations: the round from `toy_state` fills
`hash_block` with copies of the byte 66, the digest after the second pass, while the
digest of `diversifier || salt-block || secret-block` before the re-hash is the byte
65. -/
theorem C6_counterexample :
    derivation_round toy_md 128 64 toy_md.size (List.replicate 128 1) 2 toy_state 2
      = some (.more (toy_next 66) 1) ∧
    pkcs12_fill_buffer 128 toy_state.hash_block 64 (toy_next 66).hash_output toy_md.size
      = some (List.replicate 64 66 ++ List.replicate 64 0) ∧
    (toy_next 66).hash_block = incr_block 64 (List.replicate 64 66 ++ List.replicate 64 0) ∧
    toy_digest ((List.replicate 128 1).take 64 ++ toy_state.salt_block.take 64
      ++ toy_state.pwd_block.take 64) = [65] ∧
    (List.replicate 64 66 ++ List.replicate 64 0).take 64
      ≠ repeat_fill (toy_digest ((List.replicate 128 1).take 64
          ++ toy_state.salt_block.take 64 ++ toy_state.pwd_block.take 64)) toy_md.size 64 := by
  refine ⟨by decide, by decide, by decide, by decide, by decide⟩

/-- Claim C7: two calls of `ttls_pkcs12_derivation` with the same secret, salt, hash
type, id, iteration count and output length return the same code (or both do not
return), and on success they write the same `datalen` bytes, whatever the output
buffers and the stacks held before the calls. -/
theorem C7_derivation_deterministic (reg : Nat → Option (ttls_md_info_t Ctx)) (fuel : Nat)
    (junk1 junk2 : Nat → Nat → Nat) (data1 data2 : Buf) (datalen : Nat) (pwd : Buf)
    (pwdlen : Nat) (salt : Buf) (saltlen : Nat) (md_type : Nat) (id iterations : Int)
    (hs : ∀ md, reg md_type = some md → md_sound md)
    (hd1 : datalen ≤ data1.length) (hd2 : datalen ≤ data2.length)
    (hsalt : saltlen ≤ salt.length) (hpwd : pwdlen ≤ pwd.length) :
    (ttls_pkcs12_derivation reg fuel junk1 data1 datalen pwd pwdlen salt saltlen md_type id
        iterations).map (fun r => r.ret)
      = (ttls_pkcs12_derivation reg fuel junk2 data2 datalen pwd pwdlen salt saltlen md_type
        id iterations).map (fun r => r.ret) ∧
    ∀ r1 r2,
      ttls_pkcs12_derivation reg fuel junk1 data1 datalen pwd pwdlen salt saltlen md_type id
        iterations = some r1 →
      ttls_pkcs12_derivation reg fuel junk2 data2 datalen pwd pwdlen salt saltlen md_type id
        iterations = some r2 →
      r1.ret = 0 → r1.data.take datalen = r2.data.take datalen := by
  constructor
  · cases h2 : ttls_pkcs12_derivation reg fuel junk2 data2 datalen pwd pwdlen salt saltlen
        md_type id iterations with
    | none =>
      cases h1 : ttls_pkcs12_derivation reg fuel junk1 data1 datalen pwd pwdlen salt saltlen
          md_type id iterations with
      | none => rfl
      | some r1 =>
        obtain ⟨r2, e, _⟩ := derivation_rel reg fuel junk2 junk1 data2 data1 datalen datalen
          pwd pwdlen salt saltlen md_type id iterations hs (le_refl _) (Or.inr rfl) hd2 hd1
          hsalt hpwd r1 h1
        rw [h2] at e; exact absurd e (by simp)
    | some r2 =>
      obtain ⟨r1, e, _, e3⟩ := derivation_rel reg fuel junk1 junk2 data1 data2 datalen datalen
        pwd pwdlen salt saltlen md_type id iterations hs (le_refl _) (Or.inr rfl) hd1 hd2
        hsalt hpwd r2 h2
      rw [e]
      simp [e3 rfl]
  · intro r1 r2 h1 h2 hz
    obtain ⟨r1', e, e2, _⟩ := derivation_rel reg fuel junk1 junk2 data1 data2 datalen datalen
      pwd pwdlen salt saltlen md_type id iterations hs (le_refl _) (Or.inr rfl) hd1 hd2
      hsalt hpwd r2 h2
    have : r1' = r1 := by rw [h1] at e; exact (Option.some.inj e).symm
    subst this
    exact e2 hz

/-- Claim C7 at a concrete input: two stacks and two output buffers that differ. -/
theorem C7_witness :
    (ttls_pkcs12_derivation toy_registry 128 (fun _ _ => 7) [9, 9, 9] 3 [1, 2] 2 [3] 1 4 1
        2).map (fun r => r.ret)
      = (ttls_pkcs12_derivation toy_registry 128 (fun _ i => i) [1, 2, 3, 4] 3 [1, 2] 2 [3] 1 4
        1 2).map (fun r => r.ret) ∧
    ∀ r1 r2,
      ttls_pkcs12_derivation toy_registry 128 (fun _ _ => 7) [9, 9, 9] 3 [1, 2] 2 [3] 1 4 1 2
        = some r1 →
      ttls_pkcs12_derivation toy_registry 128 (fun _ i => i) [1, 2, 3, 4] 3 [1, 2] 2 [3] 1 4 1 2
        = some r2 →
      r1.ret = 0 → r1.data.take 3 = r2.data.take 3 :=
  C7_derivation_deterministic toy_registry 128 (fun _ _ => 7) (fun _ i => i) [9, 9, 9]
    [1, 2, 3, 4] 3 [1, 2] 2 [3] 1 4 1 2
    (fun md h => by
      have e : some toy_md = some md := h
      cases e
      exact toy_md_sound)
    (by decide) (by decide) (by decide) (by decide)

/-- Claim C8: for a password of `n ≤ 128` bytes and parameters that parse, the secret
`pkcs12_pbe_derive_key_iv` hands to `ttls_pkcs12_derivation` has `2 n + 2` bytes, byte
`2 i` is 0 and byte `2 i + 1` is `pwd[i]` for every `i < n`, and the last two bytes are
0; the key call gets it with the diversifier `TTLS_PKCS12_DERIVE_KEY` and the IV call,
when there is one, gets the same secret. -/
theorem C8_secret_is_wide_password (asn1 : ttls_asn1_ops)
    (reg : Nat → Option (ttls_md_info_t Ctx)) (fuel : Nat) (junk : Nat → Nat → Nat → Nat)
    (params : ttls_asn1_buf) (md_type : Nat) (pwd : Buf) (pwdlen : Nat) (key : Buf)
    (keylen ivlen : Nat) (h : pwdlen ≤ PKCS12_MAX_PWDLEN) (hp : pwdlen ≤ pwd.length)
    (hparse : (pkcs12_parse_pbe_params asn1 params 0 0 0).ret = 0) :
    (((pbe_unipwd pwd pwdlen).take (pwdlen * 2 + 2)).length = 2 * pwdlen + 2 ∧
      (∀ i, i < pwdlen →
        ((pbe_unipwd pwd pwdlen).take (pwdlen * 2 + 2))[2 * i]? = some 0 ∧
        ((pbe_unipwd pwd pwdlen).take (pwdlen * 2 + 2))[2 * i + 1]? = pwd[i]?) ∧
      ((pbe_unipwd pwd pwdlen).take (pwdlen * 2 + 2))[2 * pwdlen]? = some 0 ∧
      ((pbe_unipwd pwd pwdlen).take (pwdlen * 2 + 2))[2 * pwdlen + 1]? = some 0) ∧
    pkcs12_pbe_derive_key_iv asn1 reg fuel junk params md_type pwd pwdlen key keylen none ivlen
      = (ttls_pkcs12_derivation reg fuel (junk 1) key keylen (pbe_unipwd pwd pwdlen)
          (pwdlen * 2 + 2) (params.mem.drop (pkcs12_parse_pbe_params asn1 params 0 0 0).salt_p)
          (pkcs12_parse_pbe_params asn1 params 0 0 0).salt_len md_type TTLS_PKCS12_DERIVE_KEY
          (pkcs12_parse_pbe_params asn1 params 0 0 0).iterations).map
        (fun k => ⟨k.ret, k.data, none, pbe_unipwd pwd pwdlen⟩) ∧
    ∀ ivbuf k, ivlen ≠ 0 →
      ttls_pkcs12_derivation reg fuel (junk 1) key keylen (pbe_unipwd pwd pwdlen)
          (pwdlen * 2 + 2) (params.mem.drop (pkcs12_parse_pbe_params asn1 params 0 0 0).salt_p)
          (pkcs12_parse_pbe_params asn1 params 0 0 0).salt_len md_type TTLS_PKCS12_DERIVE_KEY
          (pkcs12_parse_pbe_params asn1 params 0 0 0).iterations = some k →
      k.ret = 0 →
      pkcs12_pbe_derive_key_iv asn1 reg fuel junk params md_type pwd pwdlen key keylen
          (some ivbuf) ivlen
        = (ttls_pkcs12_derivation reg fuel (junk 2) ivbuf ivlen (pbe_unipwd pwd pwdlen)
            (pwdlen * 2 + 2)
            (params.mem.drop (pkcs12_parse_pbe_params asn1 params 0 0 0).salt_p)
            (pkcs12_parse_pbe_params asn1 params 0 0 0).salt_len md_type TTLS_PKCS12_DERIVE_IV
            (pkcs12_parse_pbe_params asn1 params 0 0 0).iterations).map
          (fun v => ⟨v.ret, k.data, some v.data, pbe_unipwd pwd pwdlen⟩) :=
  ⟨unipwd_shape pwd pwdlen h hp,
    derive_key_iv_key_only asn1 reg fuel junk params md_type pwd pwdlen key keylen ivlen h
      hparse,
    fun ivbuf k hiv hk hk0 => derive_key_iv_with_iv asn1 reg fuel junk params md_type pwd
      pwdlen key keylen ivbuf ivlen k h hparse hiv hk hk0⟩

/-- Claim C8 at a concrete input: the password `AB`. -/
theorem C8_witness :
    (((pbe_unipwd [65, 66] 2).take (2 * 2 + 2)).length = 2 * 2 + 2 ∧
      (∀ i, i < 2 →
        ((pbe_unipwd [65, 66] 2).take (2 * 2 + 2))[2 * i]? = some 0 ∧
        ((pbe_unipwd [65, 66] 2).take (2 * 2 + 2))[2 * i + 1]? = [65, 66][i]?) ∧
      ((pbe_unipwd [65, 66] 2).take (2 * 2 + 2))[2 * 2]? = some 0 ∧
      ((pbe_unipwd [65, 66] 2).take (2 * 2 + 2))[2 * 2 + 1]? = some 0) ∧
    (pbe_unipwd [65, 66] 2).take (2 * 2 + 2) = [0, 65, 0, 66, 0, 0] :=
  ⟨(C8_secret_is_wide_password toy_asn1 toy_registry 128 (fun _ _ _ => 7) toy_params 4
    [65, 66] 2 [0, 0, 0] 3 0 (by decide) (by decide) (by decide)).1, by decide⟩

/-- Claim C9, amended: for a password longer than 128 bytes `pkcs12_pbe_derive_key_iv`
returns `TTLS_ERR_PKCS12_BAD_INPUT_DATA` whatever the parameters and the ASN.1 parsers
are, and leaves `key` and `iv` as they were; so `ttls_pkcs12_pbe_sha1_rc4_128`, when
`TTLS_ARC4_C` is defined, and `ttls_pkcs12_pbe`, with a known cipher, return that error
and leave the output buffer as it was. -/
theorem C9_long_password_rejected {CCtx : Type} (asn1 : ttls_asn1_ops)
    (reg : Nat → Option (ttls_md_info_t Ctx))
    (creg : Nat → Option (ttls_cipher_info_t CCtx)) (arc4 : ttls_arc4_ops)
    (fuel : Nat) (junk : Nat → Nat → Nat → Nat) (params : ttls_asn1_buf) (mode : Int)
    (cipher_type md_type : Nat) (pwd : Buf) (pwdlen : Nat) (key : Buf) (keylen : Nat)
    (iv : Option Buf) (ivlen : Nat) (data : Buf) (len : Nat) (output : Buf)
    (cipher_info : ttls_cipher_info_t CCtx)
    (h : pwdlen > PKCS12_MAX_PWDLEN) (hc : creg cipher_type = some cipher_info) :
    pkcs12_pbe_derive_key_iv asn1 reg fuel junk params md_type pwd pwdlen key keylen iv ivlen
      = some ⟨TTLS_ERR_PKCS12_BAD_INPUT_DATA, key, iv,
          stack_array (junk 0 0) (PKCS12_MAX_PWDLEN * 2 + 2)⟩ ∧
    (∃ r, ttls_pkcs12_pbe_sha1_rc4_128 true asn1 reg arc4 fuel junk params mode pwd pwdlen
        data len output = some r ∧
      r.ret = TTLS_ERR_PKCS12_BAD_INPUT_DATA ∧ r.output = output) ∧
    (∃ r, ttls_pkcs12_pbe asn1 reg creg fuel junk params mode cipher_type md_type pwd pwdlen
        data len output = some r ∧
      r.ret = TTLS_ERR_PKCS12_BAD_INPUT_DATA ∧ r.output = output) := by
  have hne : TTLS_ERR_PKCS12_BAD_INPUT_DATA ≠ 0 := by decide
  refine ⟨derive_key_iv_long_pwd asn1 reg fuel junk params md_type pwd pwdlen key keylen iv
    ivlen h, ?_, ?_⟩
  · refine ⟨⟨TTLS_ERR_PKCS12_BAD_INPUT_DATA, output, stack_array (junk 0 1) 16, []⟩, ?_,
      rfl, rfl⟩
    simp only [ttls_pkcs12_pbe_sha1_rc4_128, derive_key_iv_long_pwd asn1 reg fuel junk params
      TTLS_MD_SHA1 pwd pwdlen _ 16 none 0 h, Bool.true_eq_false, if_false, ne_eq, hne,
      not_false_eq_true, if_true]
  · refine ⟨⟨TTLS_ERR_PKCS12_BAD_INPUT_DATA, output, stack_array (junk 0 1) 32,
      stack_array (junk 0 2) 16⟩, ?_, rfl, rfl⟩
    simp only [ttls_pkcs12_pbe, hc, derive_key_iv_long_pwd asn1 reg fuel junk params
      md_type pwd pwdlen _ _ _ _ h, ne_eq, hne, not_false_eq_true, if_true, Option.getD_some]

/-- Claim C9, amended, at a concrete input: a password of 129 bytes. -/
theorem C9_witness :
    pkcs12_pbe_derive_key_iv toy_asn1 toy_registry 128 (fun _ _ _ => 7) toy_params 4
        (List.replicate 129 65) 129 [1, 2] 2 none 0
      = some ⟨TTLS_ERR_PKCS12_BAD_INPUT_DATA, [1, 2], none,
          stack_array (fun _ => 7) (PKCS12_MAX_PWDLEN * 2 + 2)⟩ ∧
    (∃ r, ttls_pkcs12_pbe_sha1_rc4_128 true toy_asn1 toy_registry toy_arc4 128
        (fun _ _ _ => 7) toy_params 1 (List.replicate 129 65) 129 [1, 2, 3] 3 [0, 0, 0]
        = some r ∧
      r.ret = TTLS_ERR_PKCS12_BAD_INPUT_DATA ∧ r.output = [0, 0, 0]) ∧
    (∃ r, ttls_pkcs12_pbe toy_asn1 toy_registry toy_cipher_registry 128 (fun _ _ _ => 7)
        toy_params 1 2 4 (List.replicate 129 65) 129 [1, 2, 3] 3 [0, 0, 0] = some r ∧
      r.ret = TTLS_ERR_PKCS12_BAD_INPUT_DATA ∧ r.output = [0, 0, 0]) :=
  C9_long_password_rejected toy_asn1 toy_registry toy_cipher_registry toy_arc4 128
    (fun _ _ _ => 7) toy_params 1 2 4 (List.replicate 129 65) 129 [1, 2] 2 none 0 [1, 2, 3] 3
    [0, 0, 0] toy_cipher (by decide) rfl

/-- Claim C9 as stated fails when `TTLS_ARC4_C` is not defined: for a password of 129
bytes `ttls_pkcs12_pbe_sha1_rc4_128` returns `TTLS_ERR_PKCS12_FEATURE_UNAVAILABLE`, not
`TTLS_ERR_PKCS12_BAD_INPUT_DATA`. -/
theorem C9_counterexample :
    ttls_pkcs12_pbe_sha1_rc4_128 false toy_asn1 toy_registry toy_arc4 128 (fun _ _ _ => 7)
        toy_params 1 (List.replicate 129 65) 129 [1, 2, 3] 3 [0, 0, 0]
      = some ⟨TTLS_ERR_PKCS12_FEATURE_UNAVAILABLE, [0, 0, 0], [], []⟩ ∧
    TTLS_ERR_PKCS12_FEATURE_UNAVAILABLE ≠ TTLS_ERR_PKCS12_BAD_INPUT_DATA :=
  ⟨by decide, by decide⟩

/-- Claim C10, amended: on every return path of `ttls_pkcs12_derivation` that passes
through the label `exit`, that is after the length check, the lookup of the hash and
`ttls_md_setup` succeeded, whatever code is returned, the buffers `salt_block`,
`pwd_block`, `hash_block` and `hash_output` are all-zero when the function returns; the
three earlier returns, for a bad length, an unknown hash and a failed setup, leave the
four buffers as the stack held them on entry. -/
theorem C10_zeroized_after_exit_only (reg : Nat → Option (ttls_md_info_t Ctx)) (fuel : Nat)
    (junk : Nat → Nat → Nat) (data : Buf) (datalen : Nat) (pwd : Buf) (pwdlen : Nat)
    (salt : Buf) (saltlen : Nat) (md_type : Nat) (id iterations : Int) :
    (∀ (md : ttls_md_info_t Ctx) (r : DerivResult),
      datalen ≤ 128 → pwdlen ≤ 64 → saltlen ≤ 64 → reg md_type = some md → md.setup.1 = 0 →
      md_sound md → datalen ≤ data.length → saltlen ≤ salt.length → pwdlen ≤ pwd.length →
      ttls_pkcs12_derivation reg fuel junk data datalen pwd pwdlen salt saltlen md_type
        id iterations = some r →
      r.salt_block = List.replicate 128 0 ∧ r.pwd_block = List.replicate 128 0 ∧
      r.hash_block = List.replicate 128 0 ∧
      r.hash_output = List.replicate TTLS_MD_MAX_SIZE 0) ∧
    (datalen > 128 ∨ pwdlen > 64 ∨ saltlen > 64 →
      ttls_pkcs12_derivation reg fuel junk data datalen pwd pwdlen salt saltlen md_type
          id iterations
        = some ⟨TTLS_ERR_PKCS12_BAD_INPUT_DATA, data, stack_array (junk 1) 128,
            stack_array (junk 2) 128, stack_array (junk 3) 128,
            stack_array (junk 4) TTLS_MD_MAX_SIZE⟩) ∧
    (datalen ≤ 128 → pwdlen ≤ 64 → saltlen ≤ 64 → reg md_type = none →
      ttls_pkcs12_derivation reg fuel junk data datalen pwd pwdlen salt saltlen md_type
          id iterations
        = some ⟨TTLS_ERR_PKCS12_FEATURE_UNAVAILABLE, data, stack_array (junk 1) 128,
            stack_array (junk 2) 128, stack_array (junk 3) 128,
            stack_array (junk 4) TTLS_MD_MAX_SIZE⟩) ∧
    (∀ (md : ttls_md_info_t Ctx),
      datalen ≤ 128 → pwdlen ≤ 64 → saltlen ≤ 64 → reg md_type = some md → md.setup.1 ≠ 0 →
      ttls_pkcs12_derivation reg fuel junk data datalen pwd pwdlen salt saltlen md_type
          id iterations
        = some ⟨md.setup.1, data, stack_array (junk 1) 128, stack_array (junk 2) 128,
            stack_array (junk 3) 128, stack_array (junk 4) TTLS_MD_MAX_SIZE⟩) := by
  refine ⟨?_, ?_, ?_, ?_⟩
  · intro md r h1 h2 h3 hreg hsetup hs hd hsalt hpwd h
    exact derivation_exit_zero reg fuel junk data datalen pwd pwdlen salt saltlen md_type id
      iterations md r h1 h2 h3 hreg hsetup hs hd hsalt hpwd h
  · intro h
    simp only [ttls_pkcs12_derivation, h, if_true]
  · intro h1 h2 h3 hreg
    have hc : ¬ (datalen > 128 ∨ pwdlen > 64 ∨ saltlen > 64) := by omega
    simp only [ttls_pkcs12_derivation, hc, if_false, hreg]
  · intro md h1 h2 h3 hreg hsetup
    exact derivation_setup_fail reg fuel junk data datalen pwd pwdlen salt saltlen md_type id
      iterations md h1 h2 h3 hreg hsetup

/-- Claim C10, amended, at concrete inputs with a stack full of the byte 7: a call that
succeeds, and a call with the unregistered hash type 9. -/
theorem C10_witness :
    ttls_pkcs12_derivation toy_registry 128 (fun _ _ => 7) [9, 9, 9] 3 [1, 2] 2 [3] 1 4 1 1
      = some toy_result ∧
    (toy_result.salt_block = List.replicate 128 0 ∧
      toy_result.pwd_block = List.replicate 128 0 ∧
      toy_result.hash_block = List.replicate 128 0 ∧
      toy_result.hash_output = List.replicate TTLS_MD_MAX_SIZE 0) ∧
    ttls_pkcs12_derivation toy_registry 128 (fun _ _ => 7) [9, 9, 9] 3 [1, 2] 2 [3] 1 9 1 1
      = some ⟨TTLS_ERR_PKCS12_FEATURE_UNAVAILABLE, [9, 9, 9], stack_array (fun _ => 7) 128,
          stack_array (fun _ => 7) 128, stack_array (fun _ => 7) 128,
          stack_array (fun _ => 7) TTLS_MD_MAX_SIZE⟩ :=
  ⟨by decide,
    (C10_zeroized_after_exit_only toy_registry 128 (fun _ _ => 7) [9, 9, 9] 3 [1, 2] 2 [3] 1 4
      1 1).1 toy_md toy_result (by decide) (by decide) (by decide) rfl rfl toy_md_sound
      (by decide) (by decide) (by decide) (by decide),
    (C10_zeroized_after_exit_only toy_registry 128 (fun _ _ => 7) [9, 9, 9] 3 [1, 2] 2 [3] 1 9
      1 1).2.2.1 (by decide) (by decide) (by decide) rfl⟩

/-- Claim C10 as stated fails on the early return of the length check: the four
buffers have not been touched and still hold what the stack held, here the byte 7. -/
theorem C10_counterexample :
    ∃ r, ttls_pkcs12_derivation toy_registry 128 (fun _ _ => 7) [9] 129 [1] 1 [1] 1 4 1 1
        = some r ∧ r.ret = TTLS_ERR_PKCS12_BAD_INPUT_DATA ∧
      r.salt_block = List.replicate 128 7 ∧ r.salt_block ≠ List.replicate 128 0 :=
  ⟨⟨TTLS_ERR_PKCS12_BAD_INPUT_DATA, [9], List.replicate 128 7, List.replicate 128 7,
      List.replicate 128 7, List.replicate 64 7⟩, by decide, rfl, rfl, by decide⟩

/-! ## Lemmas for the second group of claims -/

set_option maxHeartbeats 2000000

theorem derivation_no_hash (reg : Nat → Option (ttls_md_info_t Ctx)) (fuel : Nat)
    (junk : Nat → Nat → Nat) (data : Buf) (datalen : Nat) (pwd : Buf) (pwdlen : Nat)
    (salt : Buf) (saltlen : Nat) (md_type : Nat) (id it : Int)
    (h1 : datalen ≤ 128) (h2 : pwdlen ≤ 64) (h3 : saltlen ≤ 64)
    (hreg : reg md_type = none) :
    ttls_pkcs12_derivation reg fuel junk data datalen pwd pwdlen salt saltlen md_type id it
      = some ⟨TTLS_ERR_PKCS12_FEATURE_UNAVAILABLE, data, stack_array (junk 1) 128,
          stack_array (junk 2) 128, stack_array (junk 3) 128,
          stack_array (junk 4) TTLS_MD_MAX_SIZE⟩ := by
  have hc : ¬ (datalen > 128 ∨ pwdlen > 64 ∨ saltlen > 64) := by omega
  simp only [ttls_pkcs12_derivation, hc, if_false, hreg]

theorem toy_asn1_codes_ok : asn1_codes_ok toy_asn1 := by
  constructor
  · intro mem p e t
    simp only [toy_asn1]
    split_ifs <;> simp
  · intro mem p e
    simp only [toy_asn1]
    split_ifs <;> simp

theorem nat_or_eq_zero (x y : Nat) : x ||| y = 0 ↔ x = 0 ∧ y = 0 := by
  constructor
  · intro h
    have ht : ∀ i, (x ||| y).testBit i = false := by intro i; rw [h]; simp
    constructor
    · apply Nat.eq_of_testBit_eq
      intro i
      have := ht i
      rw [Nat.testBit_or] at this
      simp only [Bool.or_eq_false_iff] at this
      simp [this.1]
    · apply Nat.eq_of_testBit_eq
      intro i
      have := ht i
      rw [Nat.testBit_or] at this
      simp only [Bool.or_eq_false_iff] at this
      simp [this.2]
  · rintro ⟨rfl, rfl⟩; rfl

theorem or_of_xors_succ (a b : Buf) (n : Nat) :
    or_of_xors a b (n + 1) = or_of_xors a b n ||| (a.getD n 0 ^^^ b.getD n 0) := by
  simp [or_of_xors, List.range_succ, List.foldl_append]

theorem or_of_xors_lt (a b : Buf) (ha : bytes_ok a) (hb : bytes_ok b) (n : Nat) :
    or_of_xors a b n < 2 ^ 8 := by
  induction n with
  | zero => simp [or_of_xors]
  | succ k ih =>
    rw [or_of_xors_succ]
    exact Nat.or_lt_two_pow ih
      (Nat.xor_lt_two_pow (bytes_ok_getD a ha k) (bytes_ok_getD b hb k))

theorem safer_memcmp_eq (a b : Buf) (ha : bytes_ok a) (hb : bytes_ok b) (n : Nat) :
    ttls_ssl_safer_memcmp a b n = (or_of_xors a b n : Nat) := by
  have key : ∀ k, (List.range k).foldl
      (fun diff i => (diff ||| (a.getD i 0 ^^^ b.getD i 0)) % 256) 0 = or_of_xors a b k := by
    intro k
    induction k with
    | zero => simp [or_of_xors]
    | succ m ih =>
      rw [or_of_xors_succ, List.range_succ, List.foldl_append, ih]
      simp only [List.foldl_cons, List.foldl_nil]
      have := or_of_xors_lt a b ha hb (m + 1)
      rw [or_of_xors_succ] at this
      exact Nat.mod_eq_of_lt this
  simp only [ttls_ssl_safer_memcmp, key]

theorem or_of_xors_eq_zero (a b : Buf) (n : Nat) :
    or_of_xors a b n = 0 ↔ ∀ i, i < n → a.getD i 0 = b.getD i 0 := by
  induction n with
  | zero => simp [or_of_xors]
  | succ k ih =>
    rw [or_of_xors_succ, nat_or_eq_zero, ih, Nat.xor_eq_zero]
    constructor
    · rintro ⟨h1, h2⟩ i hi
      by_cases e : i = k
      · rw [e]; exact h2
      · exact h1 i (by omega)
    · intro h
      exact ⟨fun i hi => h i (by omega), h k (by omega)⟩

theorem take_eq_iff_getD (a b : Buf) (n : Nat) (ha : n ≤ a.length) (hb : n ≤ b.length) :
    a.take n = b.take n ↔ ∀ i, i < n → a.getD i 0 = b.getD i 0 := by
  constructor
  · intro h i hi
    rw [← getD_take_lt a i n hi, ← getD_take_lt b i n hi, h]
  · intro h
    apply List.ext_getElem
    · simp; omega
    · intro i h1 h2
      simp only [List.length_take] at h1
      have := h i (by omega)
      have ea : a.getD i 0 = a[i] := by
        rw [List.getD_eq_getElem?_getD, List.getElem?_eq_getElem (by omega)]; rfl
      have eb : b.getD i 0 = b[i] := by
        rw [List.getD_eq_getElem?_getD, List.getElem?_eq_getElem (by omega)]; rfl
      rw [ea, eb] at this
      simpa using this

theorem or_of_xors_comm (a b : Buf) (n : Nat) : or_of_xors a b n = or_of_xors b a n := by
  induction n with
  | zero => rfl
  | succ k ih => rw [or_of_xors_succ, or_of_xors_succ, ih, Nat.xor_comm]

theorem derive_key_iv_parse_fail (asn1 : ttls_asn1_ops)
    (reg : Nat → Option (ttls_md_info_t Ctx)) (fuel : Nat) (junk : Nat → Nat → Nat → Nat)
    (params : ttls_asn1_buf) (md_type : Nat) (pwd : Buf) (pwdlen : Nat) (key : Buf)
    (keylen : Nat) (iv : Option Buf) (ivlen : Nat) (h : pwdlen ≤ PKCS12_MAX_PWDLEN)
    (hparse : (pkcs12_parse_pbe_params asn1 params 0 0 0).ret ≠ 0) :
    pkcs12_pbe_derive_key_iv asn1 reg fuel junk params md_type pwd pwdlen key keylen iv ivlen
      = some ⟨(pkcs12_parse_pbe_params asn1 params 0 0 0).ret, key, iv,
          List.replicate (PKCS12_MAX_PWDLEN * 2 + 2) 0⟩ := by
  have hc : ¬ pwdlen > PKCS12_MAX_PWDLEN := by omega
  simp only [pkcs12_pbe_derive_key_iv, hc, if_false, memset_all]
  rw [if_pos hparse]

theorem derive_key_iv_secret_too_long (asn1 : ttls_asn1_ops)
    (reg : Nat → Option (ttls_md_info_t Ctx)) (fuel : Nat) (junk : Nat → Nat → Nat → Nat)
    (params : ttls_asn1_buf) (md_type : Nat) (pwd : Buf) (pwdlen : Nat) (key : Buf)
    (keylen : Nat) (iv : Option Buf) (ivlen : Nat) (h1 : 32 ≤ pwdlen)
    (h2 : pwdlen ≤ PKCS12_MAX_PWDLEN)
    (hparse : (pkcs12_parse_pbe_params asn1 params 0 0 0).ret = 0) :
    pkcs12_pbe_derive_key_iv asn1 reg fuel junk params md_type pwd pwdlen key keylen iv ivlen
      = some ⟨TTLS_ERR_PKCS12_BAD_INPUT_DATA, key, iv, pbe_unipwd pwd pwdlen⟩ := by
  have hc : ¬ pwdlen > PKCS12_MAX_PWDLEN := by omega
  have hl : keylen > 128 ∨ pwdlen * 2 + 2 > 64 ∨
      (pkcs12_parse_pbe_params asn1 params 0 0 0).salt_len > 64 := by omega
  have hne : TTLS_ERR_PKCS12_BAD_INPUT_DATA ≠ 0 := by decide
  simp only [pkcs12_pbe_derive_key_iv, hc, if_false, hparse, ne_eq, not_true_eq_false,
    memset_all, pbe_unipwd, ttls_pkcs12_derivation, hl, if_true, hne, not_false_eq_true]

theorem memcpy_zero (data : Buf) (p : Nat) (filler : Buf) : memcpy data p filler 0 = data := by
  simp [memcpy]

theorem fill_loop_zero_step (filler : Buf) (fuel : Nat) (data : Buf) (p data_len : Nat)
    (h : 0 < data_len) :
    fill_loop filler 0 (fuel + 1) data p data_len = fill_loop filler 0 fuel data p data_len := by
  rw [fill_loop]
  have : ¬ data_len = 0 := by omega
  simp [this, h, memcpy_zero]

theorem derive_key_iv_hangs (asn1 : ttls_asn1_ops)
    (reg : Nat → Option (ttls_md_info_t Ctx)) (fuel : Nat) (junk : Nat → Nat → Nat → Nat)
    (params : ttls_asn1_buf) (md_type : Nat) (pwd : Buf) (pwdlen : Nat) (key : Buf)
    (keylen : Nat) (iv : Option Buf) (ivlen : Nat) (md : ttls_md_info_t Ctx)
    (h1 : pwdlen ≤ 31) (h2 : keylen ≤ 128)
    (hparse : (pkcs12_parse_pbe_params asn1 params 0 0 0).ret = 0)
    (hsalt : (pkcs12_parse_pbe_params asn1 params 0 0 0).salt_len = 0)
    (hreg : reg md_type = some md) (hsetup : md.setup.1 = 0) :
    pkcs12_pbe_derive_key_iv asn1 reg fuel junk params md_type pwd pwdlen key keylen iv ivlen
      = none := by
  have hM : PKCS12_MAX_PWDLEN = 128 := rfl
  have hc : ¬ pwdlen > PKCS12_MAX_PWDLEN := by omega
  have hh := derivation_hangs reg fuel (junk 1) key keylen
    (unipwd_fill (List.replicate (PKCS12_MAX_PWDLEN * 2 + 2) 0) pwd pwdlen) (pwdlen * 2 + 2)
    (params.mem.drop (pkcs12_parse_pbe_params asn1 params 0 0 0).salt_p) 0 md_type
    TTLS_PKCS12_DERIVE_KEY (pkcs12_parse_pbe_params asn1 params 0 0 0).iterations md h2
    (by omega) (by omega) hreg hsetup (Or.inl rfl)
  simp only [pkcs12_pbe_derive_key_iv, hc, if_false, hparse, ne_eq, not_true_eq_false,
    memset_all, hsalt, hh]

/-! ## The claims C11 to C20 -/

/-- Claim C11, the code at two failing inputs. A successful call of
`pkcs12_pbe_derive_key_iv` for the password `AB` returns 0 and leaves the transcoded
password `00 41 00 42 00 00` in its local array `unipwd`; a call of `ttls_pkcs12_pbe` in
which the key derivation succeeds and the IV derivation fails returns that error through
the early `return ret` and leaves the derived key in its local array `key`. -/
theorem C11_secrets_left_in_memory :
    (pkcs12_pbe_derive_key_iv toy_asn1 toy_registry 128 (fun _ _ _ => 7) toy_params 4
        [65, 66] 2 [0, 0, 0] 3 none 0).map (fun d => (d.ret, d.unipwd.take 6))
      = some (0, [0, 65, 0, 66, 0, 0]) ∧
    (ttls_pkcs12_pbe toy_asn1 toy_registry_iv toy_cipher_registry 128 (fun _ _ _ => 7)
        toy_params 1 2 5 [65, 66] 2 [1, 2, 3] 3 [0, 0, 0]).map
        (fun r => (r.ret, r.output, r.key.take 4))
      = some (-1, [0, 0, 0], [66, 68, 70, 94]) := by
  constructor <;> decide

/-- Claim C12: when the length limits are met and no hash is registered for `md_type`,
`ttls_pkcs12_derivation` returns `TTLS_ERR_PKCS12_FEATURE_UNAVAILABLE` and leaves the
output as it was; when no cipher is registered for `cipher_type`, `ttls_pkcs12_pbe`
returns it whatever the parameters, the parsers and the password are, with the output as
it was; and so does `ttls_pkcs12_pbe_sha1_rc4_128` when `TTLS_ARC4_C` is not defined. -/
theorem C12_unavailable_algorithm {CCtx : Type} (asn1 : ttls_asn1_ops)
    (reg : Nat → Option (ttls_md_info_t Ctx))
    (creg : Nat → Option (ttls_cipher_info_t CCtx)) (arc4 : ttls_arc4_ops)
    (fuel : Nat) (junk : Nat → Nat → Nat) (junk3 : Nat → Nat → Nat → Nat)
    (data : Buf) (datalen : Nat) (pwd : Buf) (pwdlen : Nat) (salt : Buf) (saltlen : Nat)
    (md_type cipher_type : Nat) (id iterations : Int)
    (params : ttls_asn1_buf) (mode : Int) (pwd' : Buf) (pwdlen' : Nat) (input : Buf)
    (len : Nat) (output : Buf) :
    (datalen ≤ 128 → pwdlen ≤ 64 → saltlen ≤ 64 → reg md_type = none →
      ∃ r, ttls_pkcs12_derivation reg fuel junk data datalen pwd pwdlen salt saltlen md_type
          id iterations = some r ∧
        r.ret = TTLS_ERR_PKCS12_FEATURE_UNAVAILABLE ∧ r.data = data) ∧
    (creg cipher_type = none →
      ttls_pkcs12_pbe asn1 reg creg fuel junk3 params mode cipher_type md_type pwd' pwdlen'
          input len output
        = some ⟨TTLS_ERR_PKCS12_FEATURE_UNAVAILABLE, output, stack_array (junk3 0 1) 32,
            stack_array (junk3 0 2) 16⟩) ∧
    ttls_pkcs12_pbe_sha1_rc4_128 false asn1 reg arc4 fuel junk3 params mode pwd' pwdlen'
        input len output
      = some ⟨TTLS_ERR_PKCS12_FEATURE_UNAVAILABLE, output, [], []⟩ := by
  refine ⟨fun h1 h2 h3 hreg => ⟨_, derivation_no_hash reg fuel junk data datalen pwd pwdlen
    salt saltlen md_type id iterations h1 h2 h3 hreg, rfl, rfl⟩, fun hc => ?_, ?_⟩
  · simp only [ttls_pkcs12_pbe, hc]
  · simp only [ttls_pkcs12_pbe_sha1_rc4_128, if_true]

/-- Claim C12 at a concrete input: hash type 9 and cipher type 3 are not registered. -/
theorem C12_witness :
    (3 ≤ 128 → 2 ≤ 64 → 1 ≤ 64 → toy_registry 9 = none →
      ∃ r, ttls_pkcs12_derivation toy_registry 0 (fun _ _ => 7) [9, 9, 9] 3 [1, 2] 2 [3] 1 9 1 1
          = some r ∧
        r.ret = TTLS_ERR_PKCS12_FEATURE_UNAVAILABLE ∧ r.data = [9, 9, 9]) ∧
    (toy_cipher_registry 3 = none →
      ttls_pkcs12_pbe toy_asn1 toy_registry toy_cipher_registry 0 (fun _ _ _ => 7) toy_params
          1 3 9 [65] 1 [1, 2, 3] 3 [0, 0, 0]
        = some ⟨TTLS_ERR_PKCS12_FEATURE_UNAVAILABLE, [0, 0, 0],
            stack_array (fun _ => 7) 32, stack_array (fun _ => 7) 16⟩) ∧
    ttls_pkcs12_pbe_sha1_rc4_128 false toy_asn1 toy_registry toy_arc4 0 (fun _ _ _ => 7)
        toy_params 1 [65] 1 [1, 2, 3] 3 [0, 0, 0]
      = some ⟨TTLS_ERR_PKCS12_FEATURE_UNAVAILABLE, [0, 0, 0], [], []⟩ :=
  C12_unavailable_algorithm toy_asn1 toy_registry toy_cipher_registry toy_arc4 0
    (fun _ _ => 7) (fun _ _ _ => 7) [9, 9, 9] 3 [1, 2] 2 [3] 1 9 3 1 1 toy_params 1 [65] 1
    [1, 2, 3] 3 [0, 0, 0]

/-- Claim C13: with ASN.1 parsers whose codes are 0 or negative, `pkcs12_parse_pbe_params`
returns 0 exactly when the tag is that of a constructed SEQUENCE, the octet string
parser succeeds, the integer parser succeeds right after the octet string content and
ends at `end`; on success `salt` is the octet string content and `iterations` the integer;
a wrong outer tag gives `PBE_INVALID_FORMAT + ASN1_UNEXPECTED_TAG`, an error `e` of an
element parser gives `PBE_INVALID_FORMAT + e`, and bytes left over give
`PBE_INVALID_FORMAT + ASN1_LENGTH_MISMATCH`. -/
theorem C13_parse_pbe_params (asn1 : ttls_asn1_ops) (params : ttls_asn1_buf)
    (salt_p0 salt_len0 : Nat) (iterations0 : Int) (hc : asn1_codes_ok asn1) :
    ((pkcs12_parse_pbe_params asn1 params salt_p0 salt_len0 iterations0).ret = 0 ↔
      params.tag = TTLS_ASN1_CONSTRUCTED_SEQUENCE ∧ (pbe_salt_tag asn1 params).1 = 0 ∧
        (pbe_iter_int asn1 params).1 = 0 ∧
        (pbe_iter_int asn1 params).2.1 = params.p + params.len) ∧
    ((pkcs12_parse_pbe_params asn1 params salt_p0 salt_len0 iterations0).ret = 0 →
      (pkcs12_parse_pbe_params asn1 params salt_p0 salt_len0 iterations0).salt_p
        = (pbe_salt_tag asn1 params).2.1 ∧
      (pkcs12_parse_pbe_params asn1 params salt_p0 salt_len0 iterations0).salt_len
        = (pbe_salt_tag asn1 params).2.2 ∧
      (pkcs12_parse_pbe_params asn1 params salt_p0 salt_len0 iterations0).iterations
        = (pbe_iter_int asn1 params).2.2) ∧
    (params.tag ≠ TTLS_ASN1_CONSTRUCTED_SEQUENCE →
      (pkcs12_parse_pbe_params asn1 params salt_p0 salt_len0 iterations0).ret
        = TTLS_ERR_PKCS12_PBE_INVALID_FORMAT + TTLS_ERR_ASN1_UNEXPECTED_TAG) ∧
    (params.tag = TTLS_ASN1_CONSTRUCTED_SEQUENCE → (pbe_salt_tag asn1 params).1 ≠ 0 →
      (pkcs12_parse_pbe_params asn1 params salt_p0 salt_len0 iterations0).ret
        = TTLS_ERR_PKCS12_PBE_INVALID_FORMAT + (pbe_salt_tag asn1 params).1) ∧
    (params.tag = TTLS_ASN1_CONSTRUCTED_SEQUENCE → (pbe_salt_tag asn1 params).1 = 0 →
      (pbe_iter_int asn1 params).1 ≠ 0 →
      (pkcs12_parse_pbe_params asn1 params salt_p0 salt_len0 iterations0).ret
        = TTLS_ERR_PKCS12_PBE_INVALID_FORMAT + (pbe_iter_int asn1 params).1) ∧
    (params.tag = TTLS_ASN1_CONSTRUCTED_SEQUENCE → (pbe_salt_tag asn1 params).1 = 0 →
      (pbe_iter_int asn1 params).1 = 0 →
      (pbe_iter_int asn1 params).2.1 ≠ params.p + params.len →
      (pkcs12_parse_pbe_params asn1 params salt_p0 salt_len0 iterations0).ret
        = TTLS_ERR_PKCS12_PBE_INVALID_FORMAT + TTLS_ERR_ASN1_LENGTH_MISMATCH) := by
  have n1 := hc.1 params.mem params.p (params.p + params.len) TTLS_ASN1_OCTET_STRING
  have n2 := hc.2 params.mem ((pbe_salt_tag asn1 params).2.1 + (pbe_salt_tag asn1 params).2.2)
    (params.p + params.len)
  have k1 : TTLS_ERR_PKCS12_PBE_INVALID_FORMAT + TTLS_ERR_ASN1_UNEXPECTED_TAG ≠ 0 := by decide
  have k2 : TTLS_ERR_PKCS12_PBE_INVALID_FORMAT + TTLS_ERR_ASN1_LENGTH_MISMATCH ≠ 0 := by decide
  have k3 : TTLS_ERR_PKCS12_PBE_INVALID_FORMAT < 0 := by decide
  simp only [pbe_iter_int, pbe_salt_tag] at n1 n2 ⊢
  simp only [pkcs12_parse_pbe_params]
  by_cases h1 : params.tag = TTLS_ASN1_CONSTRUCTED_SEQUENCE
  · by_cases h2 : (asn1.get_tag params.mem params.p (params.p + params.len)
        TTLS_ASN1_OCTET_STRING).1 = 0
    · by_cases h3 : (asn1.get_int params.mem
          ((asn1.get_tag params.mem params.p (params.p + params.len)
            TTLS_ASN1_OCTET_STRING).2.1 +
           (asn1.get_tag params.mem params.p (params.p + params.len)
            TTLS_ASN1_OCTET_STRING).2.2) (params.p + params.len)).1 = 0
      · by_cases h4 : (asn1.get_int params.mem
            ((asn1.get_tag params.mem params.p (params.p + params.len)
              TTLS_ASN1_OCTET_STRING).2.1 +
             (asn1.get_tag params.mem params.p (params.p + params.len)
              TTLS_ASN1_OCTET_STRING).2.2) (params.p + params.len)).2.1
            = params.p + params.len
        · simp [h1, h2, h3, h4]
        · simp [h1, h2, h3, h4, k2]
      · have : TTLS_ERR_PKCS12_PBE_INVALID_FORMAT + (asn1.get_int params.mem
          ((asn1.get_tag params.mem params.p (params.p + params.len)
            TTLS_ASN1_OCTET_STRING).2.1 +
           (asn1.get_tag params.mem params.p (params.p + params.len)
            TTLS_ASN1_OCTET_STRING).2.2) (params.p + params.len)).1 ≠ 0 := by omega
        simp [h1, h2, h3, this]
    · have : TTLS_ERR_PKCS12_PBE_INVALID_FORMAT + (asn1.get_tag params.mem params.p
          (params.p + params.len) TTLS_ASN1_OCTET_STRING).1 ≠ 0 := by omega
      simp [h1, h2, this]
  · simp [h1, k1]

/-- Claim C13 at the parameters `SEQUENCE { OCTET STRING 01 02, INTEGER 1 }`. -/
theorem C13_witness :
    ((pkcs12_parse_pbe_params toy_asn1 toy_params 0 0 0).ret = 0 ↔
      toy_params.tag = TTLS_ASN1_CONSTRUCTED_SEQUENCE ∧ (pbe_salt_tag toy_asn1 toy_params).1 = 0 ∧
        (pbe_iter_int toy_asn1 toy_params).1 = 0 ∧
        (pbe_iter_int toy_asn1 toy_params).2.1 = toy_params.p + toy_params.len) ∧
    pkcs12_parse_pbe_params toy_asn1 toy_params 0 0 0 = ⟨0, 7, 2, 2, 1⟩ :=
  ⟨(C13_parse_pbe_params toy_asn1 toy_params 0 0 0 toy_asn1_codes_ok).1, by decide⟩

/-- Claim C14, amended: with `TTLS_SSL_PROTO_DTLS` defined `ttls_ssl_hdr_len` returns 13
for a session whose transport is datagram and 5 for every other session; without it the
function returns 5 for every session; 5 and 13 are the sums of the field widths
`1+1+1+2` and `1+1+1+2+6+2`, and no value exceeds `TTLS_SSL_HEADER_LEN`. -/
theorem C14_record_header_length (proto_dtls : Bool) (ssl : ttls_ssl_context) :
    (proto_dtls = true → ssl.conf.transport = TTLS_SSL_TRANSPORT_DATAGRAM →
      ttls_ssl_hdr_len proto_dtls ssl = 13) ∧
    (proto_dtls = true → ssl.conf.transport ≠ TTLS_SSL_TRANSPORT_DATAGRAM →
      ttls_ssl_hdr_len proto_dtls ssl = 5) ∧
    (proto_dtls = false → ttls_ssl_hdr_len proto_dtls ssl = 5) ∧
    (5 = 1 + 1 + 1 + 2 ∧ 13 = 1 + 1 + 1 + 2 + 6 + 2) ∧
    ttls_ssl_hdr_len proto_dtls ssl ≤ TTLS_SSL_HEADER_LEN := by
  refine ⟨fun h1 h2 => by simp [ttls_ssl_hdr_len, h1, h2],
    fun h1 h2 => by simp [ttls_ssl_hdr_len, h1, h2],
    fun h1 => by simp [ttls_ssl_hdr_len, h1], ⟨rfl, rfl⟩, ?_⟩
  unfold ttls_ssl_hdr_len TTLS_SSL_HEADER_LEN
  split_ifs <;> omega

/-- Claim C14, amended, at a datagram and a stream session. -/
theorem C14_witness :
    (true = true → (⟨⟨1⟩⟩ : ttls_ssl_context).conf.transport = TTLS_SSL_TRANSPORT_DATAGRAM →
      ttls_ssl_hdr_len true ⟨⟨1⟩⟩ = 13) ∧
    ttls_ssl_hdr_len true ⟨⟨1⟩⟩ = 13 ∧ ttls_ssl_hdr_len true ⟨⟨0⟩⟩ = 5 :=
  ⟨(C14_record_header_length true ⟨⟨1⟩⟩).1, by decide, by decide⟩

/-- Claim C14 as stated fails without `TTLS_SSL_PROTO_DTLS`: for a session whose
transport is datagram the function returns 5, not 13. -/
theorem C14_counterexample :
    (⟨⟨TTLS_SSL_TRANSPORT_DATAGRAM⟩⟩ : ttls_ssl_context).conf.transport
      = TTLS_SSL_TRANSPORT_DATAGRAM ∧
    ttls_ssl_hdr_len false ⟨⟨TTLS_SSL_TRANSPORT_DATAGRAM⟩⟩ = 5 ∧
    ttls_ssl_hdr_len false ⟨⟨TTLS_SSL_TRANSPORT_DATAGRAM⟩⟩ ≠ 13 := by
  decide

/-- Claim C15, amended: with `TTLS_SSL_PROTO_DTLS` defined `ttls_ssl_hs_hdr_len` returns
12 for a session whose transport is datagram and 4 for every other session; without it
the function returns 4 for every session; 4 and 12 are the sums of the field widths
`1+3` and `1+3+2+3+3`. -/
theorem C15_handshake_header_length (proto_dtls : Bool) (ssl : ttls_ssl_context) :
    (proto_dtls = true → ssl.conf.transport = TTLS_SSL_TRANSPORT_DATAGRAM →
      ttls_ssl_hs_hdr_len proto_dtls ssl = 12) ∧
    (proto_dtls = true → ssl.conf.transport ≠ TTLS_SSL_TRANSPORT_DATAGRAM →
      ttls_ssl_hs_hdr_len proto_dtls ssl = 4) ∧
    (proto_dtls = false → ttls_ssl_hs_hdr_len proto_dtls ssl = 4) ∧
    (4 = 1 + 3 ∧ 12 = 1 + 3 + 2 + 3 + 3) := by
  refine ⟨fun h1 h2 => by simp [ttls_ssl_hs_hdr_len, h1, h2],
    fun h1 h2 => by simp [ttls_ssl_hs_hdr_len, h1, h2],
    fun h1 => by simp [ttls_ssl_hs_hdr_len, h1], ⟨rfl, rfl⟩⟩

/-- Claim C15, amended, at a datagram and a stream session. -/
theorem C15_witness :
    (true = true → (⟨⟨1⟩⟩ : ttls_ssl_context).conf.transport = TTLS_SSL_TRANSPORT_DATAGRAM →
      ttls_ssl_hs_hdr_len true ⟨⟨1⟩⟩ = 12) ∧
    ttls_ssl_hs_hdr_len true ⟨⟨1⟩⟩ = 12 ∧ ttls_ssl_hs_hdr_len true ⟨⟨0⟩⟩ = 4 :=
  ⟨(C15_handshake_header_length true ⟨⟨1⟩⟩).1, by decide, by decide⟩

/-- Claim C15 as stated fails without `TTLS_SSL_PROTO_DTLS`: for a session whose
transport is datagram the function returns 4, not 12. -/
theorem C15_counterexample :
    (⟨⟨TTLS_SSL_TRANSPORT_DATAGRAM⟩⟩ : ttls_ssl_context).conf.transport
      = TTLS_SSL_TRANSPORT_DATAGRAM ∧
    ttls_ssl_hs_hdr_len false ⟨⟨TTLS_SSL_TRANSPORT_DATAGRAM⟩⟩ = 4 ∧
    ttls_ssl_hs_hdr_len false ⟨⟨TTLS_SSL_TRANSPORT_DATAGRAM⟩⟩ ≠ 12 := by
  decide

/-- Claim C16: the set keeps one hash per signature algorithm and the last one added
wins. From the empty set, adding (RSA, SHA-256) and then (RSA, SHA-384) makes the lookup
for RSA return SHA-384 and leaves the ECDSA entry `TTLS_MD_NONE`; for every set, adding
two hashes for one signature algorithm leaves the second one and does not touch the
other entry. -/
theorem C16_sig_hash_set_last_write_wins (set : ttls_ssl_sig_hash_set_t) (md1 md2 : Nat) :
    ttls_ssl_sig_hash_set_init set = ⟨TTLS_MD_NONE, TTLS_MD_NONE⟩ ∧
    ttls_ssl_sig_hash_set_find
      (ttls_ssl_sig_hash_set_add
        (ttls_ssl_sig_hash_set_add (ttls_ssl_sig_hash_set_init set) TTLS_PK_RSA TTLS_MD_SHA256)
        TTLS_PK_RSA TTLS_MD_SHA384) TTLS_PK_RSA = TTLS_MD_SHA384 ∧
    ttls_ssl_sig_hash_set_find
      (ttls_ssl_sig_hash_set_add
        (ttls_ssl_sig_hash_set_add (ttls_ssl_sig_hash_set_init set) TTLS_PK_RSA TTLS_MD_SHA256)
        TTLS_PK_RSA TTLS_MD_SHA384) TTLS_PK_ECDSA = TTLS_MD_NONE ∧
    ttls_ssl_sig_hash_set_find
      (ttls_ssl_sig_hash_set_add (ttls_ssl_sig_hash_set_add set TTLS_PK_RSA md1)
        TTLS_PK_RSA md2) TTLS_PK_RSA = md2 ∧
    (ttls_ssl_sig_hash_set_add (ttls_ssl_sig_hash_set_add set TTLS_PK_RSA md1)
        TTLS_PK_RSA md2).ecdsa = set.ecdsa ∧
    ttls_ssl_sig_hash_set_find
      (ttls_ssl_sig_hash_set_add (ttls_ssl_sig_hash_set_add set TTLS_PK_ECDSA md1)
        TTLS_PK_ECDSA md2) TTLS_PK_ECDSA = md2 ∧
    (ttls_ssl_sig_hash_set_add (ttls_ssl_sig_hash_set_add set TTLS_PK_ECDSA md1)
        TTLS_PK_ECDSA md2).rsa = set.rsa := by
  simp [ttls_ssl_sig_hash_set_init, ttls_ssl_sig_hash_set_const_hash,
    ttls_ssl_sig_hash_set_add, ttls_ssl_sig_hash_set_find, TTLS_PK_RSA, TTLS_PK_ECDSA,
    TTLS_MD_NONE]

/-- Claim C17: `ttls_ssl_safer_memcmp(a, b, n)` returns 0 exactly when the first `n`
bytes of `a` and `b` are equal, 0 for `n = 0`; its value is the bitwise OR of
`a[i] XOR b[i]` over `i < n`, between 1 and 255 when the buffers differ, and the same
when `a` and `b` are swapped. -/
theorem C17_safer_memcmp (a b : Buf) (n : Nat) (ha : bytes_ok a) (hb : bytes_ok b)
    (hla : n ≤ a.length) (hlb : n ≤ b.length) :
    (ttls_ssl_safer_memcmp a b n = 0 ↔ a.take n = b.take n) ∧
    ttls_ssl_safer_memcmp a b n = (or_of_xors a b n : Nat) ∧
    (a.take n ≠ b.take n →
      1 ≤ ttls_ssl_safer_memcmp a b n ∧ ttls_ssl_safer_memcmp a b n ≤ 255) ∧
    ttls_ssl_safer_memcmp a b n = ttls_ssl_safer_memcmp b a n ∧
    ttls_ssl_safer_memcmp a b 0 = 0 := by
  have e := safer_memcmp_eq a b ha hb n
  have e' := safer_memcmp_eq b a hb ha n
  have lt := or_of_xors_lt a b ha hb n
  have z : ttls_ssl_safer_memcmp a b n = 0 ↔ a.take n = b.take n := by
    rw [e, take_eq_iff_getD a b n hla hlb, ← or_of_xors_eq_zero]
    exact Int.natCast_eq_zero
  refine ⟨z, e, fun hne => ?_, by rw [e, e', or_of_xors_comm], rfl⟩
  have hnz : ttls_ssl_safer_memcmp a b n ≠ 0 := fun h => hne (z.mp h)
  rw [e] at hnz ⊢
  omega

/-- Claim C17 at two buffers that differ in their third byte. -/
theorem C17_witness :
    (ttls_ssl_safer_memcmp [1, 2, 3] [1, 2, 7] 3 = 0 ↔ [1, 2, 3].take 3 = [1, 2, 7].take 3) ∧
    ttls_ssl_safer_memcmp [1, 2, 3] [1, 2, 7] 3 = 4 ∧
    ttls_ssl_safer_memcmp [1, 2, 3] [1, 2, 7] 2 = 0 :=
  ⟨(C17_safer_memcmp [1, 2, 3] [1, 2, 7] 3 (by unfold bytes_ok; decide)
    (by unfold bytes_ok; decide) (by decide) (by decide)).1, by decide, by decide⟩

/-- Claim C18: for `fill_len ≥ 1`, `pkcs12_fill_buffer` returns (fuel `data_len` is
enough) and leaves `data[i] = filler[i mod fill_len]` for every `i < data_len`, the
length of the buffer and the bytes from `data_len` on being unchanged. -/
theorem C18_fill_buffer_repeats (fuel : Nat) (data : Buf) (data_len : Nat) (filler : Buf)
    (fill_len : Nat) (h0 : 1 ≤ fill_len) (hf : fill_len ≤ filler.length)
    (hd : data_len ≤ data.length) (hfuel : data_len ≤ fuel) :
    ∃ out, pkcs12_fill_buffer fuel data data_len filler fill_len = some out ∧
      out.length = data.length ∧
      (∀ i, i < data_len → out[i]? = filler[i % fill_len]?) ∧
      out.drop data_len = data.drop data_len := by
  obtain ⟨out, ho⟩ := fill_loop_terminates filler fill_len h0 fuel data 0 data_len hfuel
  have c := fill_loop_closed filler fill_len hf fuel data 0 data_len out (by omega) ho
  simp only [List.take_zero, List.nil_append, Nat.zero_add] at c
  have hl := repeat_fill_length filler fill_len data_len
  refine ⟨out, ho, ?_, ?_, ?_⟩
  · rw [c, List.length_append, hl, List.length_drop]; omega
  · intro i hi
    have hm : i % fill_len < filler.length := by
      have := Nat.mod_lt i (show fill_len > 0 by omega)
      omega
    rw [c, List.getElem?_append_left (by omega)]
    simp only [repeat_fill]
    rw [List.getElem?_map, List.getElem?_range hi]
    simp [List.getD_eq_getElem?_getD, List.getElem?_eq_getElem hm]
  · rw [c]
    exact List.drop_left' hl

/-- Claim C18 at a concrete input: seven bytes from a filler of three. -/
theorem C18_witness :
    ∃ out, pkcs12_fill_buffer 7 [9, 9, 9, 9, 9, 9, 9, 9] 7 [1, 2, 3, 4] 3 = some out ∧
      out.length = [9, 9, 9, 9, 9, 9, 9, 9].length ∧
      (∀ i, i < 7 → out[i]? = [1, 2, 3, 4][i % 3]?) ∧
      out.drop 7 = [9, 9, 9, 9, 9, 9, 9, 9].drop 7 :=
  C18_fill_buffer_repeats 7 [9, 9, 9, 9, 9, 9, 9, 9] 7 [1, 2, 3, 4] 3 (by decide) (by decide)
    (by decide) (by decide)

/-- Claim C19, amended: with `fill_len = 0` and `data_len > 0` a pass of the loop of
`pkcs12_fill_buffer` copies nothing and leaves `data_len` unchanged, so the function
does not return for any fuel. Hence, with a registered hash whose setup succeeds,
`ttls_pkcs12_derivation` does not return when `saltlen = 0` or `pwdlen = 0` and the three
lengths pass the length check, and `pkcs12_pbe_derive_key_iv` does not return when the
parsed salt is an empty OCTET STRING, the password has at most 31 bytes and
`keylen ≤ 128`. -/
theorem C19_empty_filler_never_returns (asn1 : ttls_asn1_ops)
    (reg : Nat → Option (ttls_md_info_t Ctx)) (md : ttls_md_info_t Ctx) (md_type : Nat)
    (hreg : reg md_type = some md) (hsetup : md.setup.1 = 0) :
    (∀ fuel data p data_len filler, 0 < data_len →
      memcpy data p filler 0 = data ∧
      fill_loop filler 0 (fuel + 1) data p data_len = fill_loop filler 0 fuel data p data_len ∧
      pkcs12_fill_buffer fuel data data_len filler 0 = none) ∧
    (∀ fuel junk data datalen pwd pwdlen salt saltlen id iterations,
      datalen ≤ 128 → pwdlen ≤ 64 → saltlen ≤ 64 → saltlen = 0 ∨ pwdlen = 0 →
      ttls_pkcs12_derivation reg fuel junk data datalen pwd pwdlen salt saltlen md_type id
        iterations = none) ∧
    (∀ fuel junk params pwd pwdlen key keylen iv ivlen,
      pwdlen ≤ 31 → keylen ≤ 128 →
      (pkcs12_parse_pbe_params asn1 params 0 0 0).ret = 0 →
      (pkcs12_parse_pbe_params asn1 params 0 0 0).salt_len = 0 →
      pkcs12_pbe_derive_key_iv asn1 reg fuel junk params md_type pwd pwdlen key keylen iv
        ivlen = none) :=
  ⟨fun fuel data p data_len filler h =>
      ⟨memcpy_zero data p filler, fill_loop_zero_step filler fuel data p data_len h,
        fill_loop_zero filler fuel data 0 data_len h⟩,
    fun fuel junk data datalen pwd pwdlen salt saltlen id iterations h1 h2 h3 hz =>
      derivation_hangs reg fuel junk data datalen pwd pwdlen salt saltlen md_type id
        iterations md h1 h2 h3 hreg hsetup hz,
    fun fuel junk params pwd pwdlen key keylen iv ivlen h1 h2 hp hs =>
      derive_key_iv_hangs asn1 reg fuel junk params md_type pwd pwdlen key keylen iv ivlen md
        h1 h2 hp hs hreg hsetup⟩

/-- Claim C19, amended, at concrete inputs with an empty filler, secret or salt. -/
theorem C19_witness :
    (∀ fuel, pkcs12_fill_buffer fuel [9, 9] 2 [] 0 = none) ∧
    (∀ fuel, ttls_pkcs12_derivation toy_registry fuel (fun _ _ => 7) [9, 9] 2 [] 0 [3] 1 4 1 1
      = none) ∧
    (∀ fuel, pkcs12_pbe_derive_key_iv toy_asn1 toy_registry fuel (fun _ _ _ => 7)
      toy_params_empty_salt 4 [65, 66] 2 [0, 0, 0] 3 none 0 = none) :=
  ⟨fun fuel => ((C19_empty_filler_never_returns toy_asn1 toy_registry toy_md 4 rfl rfl).1
      fuel [9, 9] 0 2 [] (by decide)).2.2,
    fun fuel => (C19_empty_filler_never_returns toy_asn1 toy_registry toy_md 4 rfl rfl).2.1
      fuel (fun _ _ => 7) [9, 9] 2 [] 0 [3] 1 1 1 (by decide) (by decide) (by decide)
      (Or.inr rfl),
    fun fuel => (C19_empty_filler_never_returns toy_asn1 toy_registry toy_md 4 rfl rfl).2.2
      fuel (fun _ _ _ => 7) toy_params_empty_salt [65, 66] 2 [0, 0, 0] 3 none 0 (by decide)
      (by decide) (by decide) (by decide)⟩

/-- Claim C19 as stated fails for a password of 32 bytes: the parsed salt is an empty
OCTET STRING and `pkcs12_pbe_derive_key_iv` returns `TTLS_ERR_PKCS12_BAD_INPUT_DATA`,
the transcoded secret of 66 bytes failing the length check before the salt is used. -/
theorem C19_counterexample :
    (pkcs12_parse_pbe_params toy_asn1 toy_params_empty_salt 0 0 0).ret = 0 ∧
    (pkcs12_parse_pbe_params toy_asn1 toy_params_empty_salt 0 0 0).salt_len = 0 ∧
    pkcs12_pbe_derive_key_iv toy_asn1 toy_registry 128 (fun _ _ _ => 7) toy_params_empty_salt
        4 (List.replicate 32 65) 32 [0, 0, 0] 3 none 0
      = some ⟨TTLS_ERR_PKCS12_BAD_INPUT_DATA, [0, 0, 0], none,
          pbe_unipwd (List.replicate 32 65) 32⟩ :=
  ⟨by decide, by decide, by decide⟩

/-- Claim C20: for `32 ≤ pwdlen ≤ 128` and parameters that parse,
`pkcs12_pbe_derive_key_iv` returns `TTLS_ERR_PKCS12_BAD_INPUT_DATA`, the transcoded secret
of `2 pwdlen + 2` bytes exceeding the limit of 64; and whenever the function returns 0
the password has at most 31 bytes. -/
theorem C20_long_password_never_succeeds (asn1 : ttls_asn1_ops)
    (reg : Nat → Option (ttls_md_info_t Ctx)) (fuel : Nat) (junk : Nat → Nat → Nat → Nat)
    (params : ttls_asn1_buf) (md_type : Nat) (pwd : Buf) (pwdlen : Nat) (key : Buf)
    (keylen : Nat) (iv : Option Buf) (ivlen : Nat) :
    (32 ≤ pwdlen → pwdlen ≤ PKCS12_MAX_PWDLEN →
      (pkcs12_parse_pbe_params asn1 params 0 0 0).ret = 0 →
      pkcs12_pbe_derive_key_iv asn1 reg fuel junk params md_type pwd pwdlen key keylen iv
          ivlen
        = some ⟨TTLS_ERR_PKCS12_BAD_INPUT_DATA, key, iv, pbe_unipwd pwd pwdlen⟩) ∧
    (∀ d, pkcs12_pbe_derive_key_iv asn1 reg fuel junk params md_type pwd pwdlen key keylen iv
        ivlen = some d → d.ret = 0 → pwdlen ≤ 31) := by
  have hne : TTLS_ERR_PKCS12_BAD_INPUT_DATA ≠ 0 := by decide
  refine ⟨fun h1 h2 hp => derive_key_iv_secret_too_long asn1 reg fuel junk params md_type pwd
    pwdlen key keylen iv ivlen h1 h2 hp, fun d hd hz => ?_⟩
  by_contra hlt
  by_cases h128 : pwdlen > PKCS12_MAX_PWDLEN
  · rw [derive_key_iv_long_pwd asn1 reg fuel junk params md_type pwd pwdlen key keylen iv
      ivlen h128] at hd
    simp only [Option.some.injEq] at hd
    rw [← hd] at hz
    exact hne hz
  · by_cases hp : (pkcs12_parse_pbe_params asn1 params 0 0 0).ret = 0
    · rw [derive_key_iv_secret_too_long asn1 reg fuel junk params md_type pwd pwdlen key
        keylen iv ivlen (by omega) (by omega) hp] at hd
      simp only [Option.some.injEq] at hd
      rw [← hd] at hz
      exact hne hz
    · rw [derive_key_iv_parse_fail asn1 reg fuel junk params md_type pwd pwdlen key keylen iv
        ivlen (by omega) hp] at hd
      simp only [Option.some.injEq] at hd
      rw [← hd] at hz
      exact hp hz

/-- Claim C20 at a concrete input: a password of 32 bytes. -/
theorem C20_witness :
    (32 ≤ 32 → 32 ≤ PKCS12_MAX_PWDLEN →
      (pkcs12_parse_pbe_params toy_asn1 toy_params 0 0 0).ret = 0 →
      pkcs12_pbe_derive_key_iv toy_asn1 toy_registry 128 (fun _ _ _ => 7) toy_params 4
          (List.replicate 32 65) 32 [1, 2] 2 none 0
        = some ⟨TTLS_ERR_PKCS12_BAD_INPUT_DATA, [1, 2], none,
            pbe_unipwd (List.replicate 32 65) 32⟩) ∧
    pkcs12_pbe_derive_key_iv toy_asn1 toy_registry 128 (fun _ _ _ => 7) toy_params 4
        (List.replicate 32 65) 32 [1, 2] 2 none 0
      = some ⟨TTLS_ERR_PKCS12_BAD_INPUT_DATA, [1, 2], none,
          pbe_unipwd (List.replicate 32 65) 32⟩ :=
  ⟨(C20_long_password_never_succeeds toy_asn1 toy_registry 128 (fun _ _ _ => 7) toy_params 4
      (List.replicate 32 65) 32 [1, 2] 2 none 0).1,
    (C20_long_password_never_succeeds toy_asn1 toy_registry 128 (fun _ _ _ => 7) toy_params 4
      (List.replicate 32 65) 32 [1, 2] 2 none 0).1 (by decide) (by decide) (by decide)⟩

/-! ## Lemmas for the third group of claims -/

theorem derive_key_iv_unfold (asn1 : ttls_asn1_ops)
    (reg : Nat → Option (ttls_md_info_t Ctx)) (fuel : Nat) (junk : Nat → Nat → Nat → Nat)
    (params : ttls_asn1_buf) (md_type : Nat) (pwd : Buf) (pwdlen : Nat) (key : Buf)
    (keylen : Nat) (iv : Option Buf) (ivlen : Nat) (h : pwdlen ≤ PKCS12_MAX_PWDLEN)
    (hparse : (pkcs12_parse_pbe_params asn1 params 0 0 0).ret = 0) :
    pkcs12_pbe_derive_key_iv asn1 reg fuel junk params md_type pwd pwdlen key keylen iv ivlen
      = match pbe_key_derivation asn1 reg fuel junk params md_type pwd pwdlen key keylen with
        | none => none
        | some k =>
          if k.ret ≠ 0 then some ⟨k.ret, k.data, iv, pbe_unipwd pwd pwdlen⟩
          else match iv with
            | none => some ⟨0, k.data, none, pbe_unipwd pwd pwdlen⟩
            | some ivbuf =>
              if ivlen = 0 then some ⟨0, k.data, some ivbuf, pbe_unipwd pwd pwdlen⟩
              else (pbe_iv_derivation asn1 reg fuel junk params md_type pwd pwdlen ivbuf
                  ivlen).map (fun v => ⟨v.ret, k.data, some v.data, pbe_unipwd pwd pwdlen⟩) := by
  have hc : ¬ pwdlen > PKCS12_MAX_PWDLEN := by omega
  simp only [pkcs12_pbe_derive_key_iv, hc, if_false, hparse, ne_eq, not_true_eq_false,
    memset_all, pbe_unipwd, pbe_key_derivation, pbe_iv_derivation]
  generalize ttls_pkcs12_derivation reg fuel (junk 1) _ _ _ _ _ _ _ _ _ = K
  cases K with
  | none => rfl
  | some k =>
    by_cases hk : k.ret = 0
    · simp only [hk, not_true_eq_false, if_false]
      cases iv with
      | none => rfl
      | some ivbuf =>
        by_cases hi : ivlen = 0
        · simp [hi]
        · simp only [hi, if_false]
          generalize ttls_pkcs12_derivation reg fuel (junk 2) _ _ _ _ _ _ _ _ _ = V
          cases V with
          | none => rfl
          | some v =>
            by_cases hv : v.ret = 0
            · simp [hv]
            · simp [hv]
    · simp [hk]

theorem derive_key_iv_key (asn1 : ttls_asn1_ops)
    (reg : Nat → Option (ttls_md_info_t Ctx)) (fuel : Nat) (junk : Nat → Nat → Nat → Nat)
    (params : ttls_asn1_buf) (md_type : Nat) (pwd : Buf) (pwdlen : Nat) (key : Buf)
    (keylen : Nat) (iv : Option Buf) (ivlen : Nat) (d : DeriveKeyIv)
    (hd : pkcs12_pbe_derive_key_iv asn1 reg fuel junk params md_type pwd pwdlen key keylen
      iv ivlen = some d) :
    d.key = (if pwdlen > PKCS12_MAX_PWDLEN ∨ (pkcs12_parse_pbe_params asn1 params 0 0 0).ret ≠ 0
      then key
      else ((pbe_key_derivation asn1 reg fuel junk params md_type pwd pwdlen key keylen).map
        (fun k => k.data)).getD key) := by
  by_cases hc : pwdlen > PKCS12_MAX_PWDLEN
  · simp only [pkcs12_pbe_derive_key_iv, hc, if_true, Option.some.injEq] at hd
    simp [hc, ← hd]
  · by_cases hp : (pkcs12_parse_pbe_params asn1 params 0 0 0).ret = 0
    · rw [derive_key_iv_unfold asn1 reg fuel junk params md_type pwd pwdlen key keylen iv ivlen
        (by omega) hp] at hd
      simp only [hc, hp, ne_eq, not_true_eq_false, or_self, if_false]
      cases hk : pbe_key_derivation asn1 reg fuel junk params md_type pwd pwdlen key keylen with
      | none => rw [hk] at hd; simp at hd
      | some k =>
        rw [hk] at hd
        simp only [Option.map_some', Option.getD_some]
        by_cases hk0 : k.ret = 0
        · simp only [hk0, ne_eq, not_true_eq_false, if_false] at hd
          cases iv with
          | none => simp only [Option.some.injEq] at hd; rw [← hd]
          | some ivbuf =>
            by_cases hi : ivlen = 0
            · simp only [hi, if_true, Option.some.injEq] at hd; rw [← hd]
            · simp only [hi, if_false, Option.map_eq_some'] at hd
              obtain ⟨v, _, hv⟩ := hd
              rw [← hv]
        · simp only [hk0, ne_eq, not_false_eq_true, if_true, Option.some.injEq] at hd
          rw [← hd]
    · simp only [pkcs12_pbe_derive_key_iv, hc, if_false, ne_eq, hp, not_false_eq_true, if_true,
        Option.some.injEq] at hd
      simp [hp, ← hd]

theorem pbe_returns_first_failure {CCtx : Type} (asn1 : ttls_asn1_ops)
    (reg : Nat → Option (ttls_md_info_t Ctx))
    (creg : Nat → Option (ttls_cipher_info_t CCtx))
    (fuel : Nat) (junk : Nat → Nat → Nat → Nat)
    (params : ttls_asn1_buf) (mode : Int) (cipher_type md_type : Nat)
    (pwd : Buf) (pwdlen : Nat) (data : Buf) (len : Nat) (output : Buf)
    (ci : ttls_cipher_info_t CCtx) (d : DeriveKeyIv)
    (hci : creg cipher_type = some ci)
    (hd : pkcs12_pbe_derive_key_iv asn1 reg fuel junk params md_type pwd pwdlen
      (stack_array (junk 0 1) 32) (ci.key_bitlen / 8) (some (stack_array (junk 0 2) 16))
      ci.iv_size = some d) :
    ∃ r, ttls_pkcs12_pbe asn1 reg creg fuel junk params mode cipher_type md_type pwd pwdlen
        data len output = some r ∧
      r.ret = pbe_first_failure ci d (d.iv.getD (stack_array (junk 0 2) 16)) mode data len := by
  simp only [ttls_pkcs12_pbe, hci, hd, pbe_first_failure, pbe_finish, pbe_update, pbe_reset,
    pbe_set_iv, pbe_setkey]
  split_ifs <;> first | exact ⟨_, rfl, rfl⟩ | (refine ⟨_, rfl, ?_⟩; simp_all)

theorem strlen_eq_length (l : Buf) (h : ∀ x ∈ l, x ≠ 0) : strlen l = l.length := by
  induction l with
  | nil => rfl
  | cons x rest ih =>
    have hx : x ≠ 0 := h x (List.mem_cons_self _ _)
    simp only [strlen, hx, if_false, List.length_cons]
    rw [ih (fun y hy => h y (List.mem_cons_of_mem _ hy))]

theorem le_strlen_append (t rest : Buf) (h : ∀ x ∈ t, x ≠ 0) :
    t.length ≤ strlen (t ++ rest) := by
  induction t with
  | nil => simp
  | cons x tl ih =>
    have hx : x ≠ 0 := h x (List.mem_cons_self _ _)
    have := ih (fun y hy => h y (List.mem_cons_of_mem _ hy))
    rw [List.cons_append, strlen, if_neg hx, List.length_cons]
    omega

theorem strncmp_eq_zero_iff (a : Buf) (h0 : ∀ x ∈ a, x ≠ 0) (b : Buf) :
    strncmp a b a.length = 0 ↔ b.take a.length = a := by
  induction a generalizing b with
  | nil => simp [strncmp]
  | cons x tl ih =>
    have hx : x ≠ 0 := h0 x (List.mem_cons_self _ _)
    have ih2 := ih (fun y hy => h0 y (List.mem_cons_of_mem _ hy))
    cases b with
    | nil =>
      simp only [List.length_cons, strncmp, List.headD_cons, List.headD_nil, ne_eq, hx,
        not_false_eq_true, if_true, List.take_nil]
      constructor
      · intro h; exfalso; omega
      · intro h; cases h
    | cons y tb =>
      simp only [List.length_cons, strncmp, List.headD_cons, ne_eq, List.tail_cons,
        List.take_succ_cons, List.cons.injEq]
      by_cases hxy : x = y
      · subst hxy
        simp only [not_true_eq_false, if_false, hx, true_and]
        exact ih2 tb
      · simp only [hxy, not_false_eq_true, if_true, false_and, iff_false]
        omega

theorem x509_attrs_ok : attrs_ok x509_attrs := by
  unfold attrs_ok
  decide

theorem at_oid_loop_find (tbl : List x509_attr_descriptor_t) (h : attrs_ok tbl) (name : Buf)
    (n : Nat) :
    at_oid_loop tbl name n
      = (tbl.find? (fun cur => decide (cur.name_len = n ∧ cur.name = name.take n))).map
          (fun cur => cur.oid) := by
  induction tbl with
  | nil => rfl
  | cons cur rest ih =>
    have hc := h cur (List.mem_cons_self _ _)
    have ih2 := ih (fun y hy => h y (List.mem_cons_of_mem _ hy))
    simp only [at_oid_loop, List.find?_cons]
    by_cases hn : cur.name_len = n
    · have hl : cur.name.length = n := by rw [← hc.1]; exact hn
      have e := strncmp_eq_zero_iff cur.name hc.2 name
      rw [hl] at e
      by_cases hs : strncmp cur.name name n = 0
      · have := e.mp hs
        simp [hn, hs, this]
      · have : ¬ name.take n = cur.name := fun h => hs (e.mpr h)
        have this2 : ¬ cur.name = name.take n := fun h => this h.symm
        simp [hn, hs, this2, ih2]
    · simp [hn, ih2]

theorem at_oid_append (t rest : Buf) :
    x509_at_oid_from_name (t ++ rest) t.length = x509_at_oid_from_name t t.length := by
  simp only [x509_at_oid_from_name, at_oid_loop_find _ x509_attrs_ok, List.take_left',
    List.take_length]

theorem names_loop_exit (store : store_named_data_t) (name : Buf) (e fuel : Nat)
    (st : NamesState) (h : e < st.c) :
    names_loop store name e fuel st = some ⟨0, st.head, st.overflow⟩ := by
  have hc : ¬ st.c ≤ e := by omega
  cases fuel with
  | zero => simp [names_loop, hc]
  | succ n => simp [names_loop, hc]

theorem names_loop_succ (store : store_named_data_t) (name : Buf) (e fuel : Nat)
    (st : NamesState) (h : st.c ≤ e) :
    names_loop store name e (fuel + 1) st
      = match names_step store name e st with
        | .done r => some r
        | .more st1 => names_loop store name e fuel st1 := by
  simp only [names_loop, h, if_true]

theorem names_loop_mono (store : store_named_data_t) (name : Buf) (e : Nat) (fuel : Nat) :
    ∀ (st : NamesState) (r : NamesResult), names_loop store name e fuel st = some r →
      names_loop store name e (fuel + 1) st = some r := by
  induction fuel with
  | zero =>
    intro st r h
    by_cases hc : st.c ≤ e
    · simp [names_loop, hc] at h
    · rw [names_loop_exit store name e _ st (by omega)]
      rw [names_loop_exit store name e _ st (by omega)] at h
      exact h
  | succ n ih =>
    intro st r h
    by_cases hc : st.c ≤ e
    · rw [names_loop_succ store name e _ st hc] at h ⊢
      cases hs : names_step store name e st with
      | done r1 => rw [hs] at h; exact h
      | more st1 => rw [hs] at h; exact ih st1 r h
    · rw [names_loop_exit store name e _ st (by omega)]
      rw [names_loop_exit store name e _ st (by omega)] at h
      exact h

theorem names_loop_mono_le (store : store_named_data_t) (name : Buf) (e : Nat) (f1 f2 : Nat)
    (st : NamesState) (r : NamesResult) (h : names_loop store name e f1 st = some r)
    (hle : f1 ≤ f2) : names_loop store name e f2 st = some r := by
  induction f2 with
  | zero =>
    have : f1 = 0 := by omega
    subst this; exact h
  | succ n ih =>
    by_cases hn : f1 = n + 1
    · subst hn; exact h
    · exact names_loop_mono store name e n st r (ih (by omega))

theorem skip_loop_ge (name : Buf) (e : Nat) (k : Nat) : ∀ c, c ≤ skip_loop name e k c := by
  induction k with
  | zero => intro c; simp [skip_loop]
  | succ n ih =>
    intro c
    simp only [skip_loop]
    split_ifs
    · have := ih (c + 1); omega
    · omega

theorem names_write_c (name : Buf) (st st1 : NamesState)
    (h : names_write name st = .more st1) : st1.c = st.c + 1 := by
  simp only [names_write] at h
  split_ifs at h
  all_goals (simp only [NamesStep.more.injEq] at h; rw [← h])

theorem names_step_c (store : store_named_data_t) (name : Buf) (e : Nat) (st st1 : NamesState)
    (h : names_step store name e st = .more st1) : st.c < st1.c := by
  simp only [names_step] at h
  cases ht : names_tag name st with
  | none => rw [ht] at h; simp at h
  | some st0 =>
    rw [ht] at h
    have hc0 : st0.c = st.c := by
      simp only [names_tag] at ht
      split_ifs at ht
      · cases hl : x509_at_oid_from_name (name.drop st.s) (st.c - st.s) with
        | none => rw [hl] at ht; simp at ht
        | some o => rw [hl] at ht; simp only [Option.some.injEq] at ht; rw [← ht]
      · simp only [Option.some.injEq] at ht; rw [← ht]
    simp only at h
    split_ifs at h
    · have := names_write_c name _ st1 h
      simp only at this; omega
    · cases hs : store st0.head (st0.oid.take (strlen st0.oid)) (some (st0.data.take st0.d))
          st0.d with
      | none => rw [hs] at h; simp at h
      | some p =>
        rw [hs] at h
        have := names_write_c name _ st1 h
        have g := skip_loop_ge name e (e - st0.c) st0.c
        simp only at this; omega
    · have := names_write_c name _ st1 h
      omega

theorem names_loop_total (store : store_named_data_t) (name : Buf) (e : Nat) (fuel : Nat) :
    ∀ (st : NamesState), e + 1 ≤ st.c + fuel → ∃ r, names_loop store name e fuel st = some r := by
  induction fuel with
  | zero =>
    intro st h
    exact ⟨_, names_loop_exit store name e 0 st (by omega)⟩
  | succ n ih =>
    intro st h
    by_cases hc : st.c ≤ e
    · rw [names_loop_succ store name e _ st hc]
      cases hs : names_step store name e st with
      | done r1 => exact ⟨r1, rfl⟩
      | more st1 =>
        have := names_step_c store name e st st1 hs
        exact ih st1 (by omega)
    · exact ⟨_, names_loop_exit store name e _ st (by omega)⟩

theorem names_loop_agree (store : store_named_data_t) (name : Buf) (e : Nat) (f1 f2 : Nat)
    (st : NamesState) (r1 r2 : NamesResult) (h1 : names_loop store name e f1 st = some r1)
    (h2 : names_loop store name e f2 st = some r2) : r1 = r2 := by
  have a := names_loop_mono_le store name e f1 (max f1 f2) st r1 h1 (Nat.le_max_left _ _)
  have b := names_loop_mono_le store name e f2 (max f1 f2) st r2 h2 (Nat.le_max_right _ _)
  rw [a] at b
  exact Option.some.inj b

theorem names_write_safe (name : Buf) (st : NamesState)
    (hd : st.d < TTLS_X509_MAX_DN_NAME_SIZE) (ho : st.overflow = false) :
    match names_write name st with
    | .done r => r.overflow = false
    | .more st1 => st1.d < TTLS_X509_MAX_DN_NAME_SIZE ∧ st1.overflow = false := by
  have hn : ¬ TTLS_X509_MAX_DN_NAME_SIZE ≤ st.d := by omega
  simp only [names_write]
  split_ifs with h1 h2
  · simp [ho, hn]
  · simp only [ho, hn, decide_False, Bool.or_self, and_true]
    omega
  · exact ⟨hd, ho⟩

theorem names_step_safe (store : store_named_data_t) (name : Buf) (e : Nat) (st : NamesState)
    (hd : st.d < TTLS_X509_MAX_DN_NAME_SIZE) (ho : st.overflow = false) :
    match names_step store name e st with
    | .done r => r.overflow = false
    | .more st1 => st1.d < TTLS_X509_MAX_DN_NAME_SIZE ∧ st1.overflow = false := by
  have hM : 0 < TTLS_X509_MAX_DN_NAME_SIZE := by decide
  simp only [names_step]
  cases ht : names_tag name st with
  | none => exact ho
  | some st0 =>
    have h0 : st0.d < TTLS_X509_MAX_DN_NAME_SIZE ∧ st0.overflow = false := by
      simp only [names_tag] at ht
      split_ifs at ht
      · cases hl : x509_at_oid_from_name (name.drop st.s) (st.c - st.s) with
        | none => rw [hl] at ht; simp at ht
        | some o =>
          rw [hl] at ht; simp only [Option.some.injEq] at ht; rw [← ht]
          exact ⟨hM, ho⟩
      · simp only [Option.some.injEq] at ht; rw [← ht]; exact ⟨hd, ho⟩
    simp only
    split_ifs
    · exact h0.2
    · exact names_write_safe name _ h0.1 h0.2
    · cases hs : store st0.head (st0.oid.take (strlen st0.oid)) (some (st0.data.take st0.d))
          st0.d with
      | none => exact h0.2
      | some p =>
        dsimp only
        exact names_write_safe name
          { st0 with head := p.1, c := skip_loop name e (e - st0.c) st0.c,
                     s := skip_loop name e (e - st0.c) st0.c + 1, in_tag := true } h0.1 h0.2
    · exact names_write_safe name _ h0.1 h0.2

theorem names_loop_safe (store : store_named_data_t) (name : Buf) (e : Nat) (fuel : Nat) :
    ∀ (st : NamesState) (r : NamesResult), st.d < TTLS_X509_MAX_DN_NAME_SIZE →
      st.overflow = false → names_loop store name e fuel st = some r → r.overflow = false := by
  induction fuel with
  | zero =>
    intro st r hd ho h
    by_cases hc : st.c ≤ e
    · simp [names_loop, hc] at h
    · rw [names_loop_exit store name e _ st (by omega)] at h
      simp only [Option.some.injEq] at h
      rw [← h]; exact ho
  | succ n ih =>
    intro st r hd ho h
    by_cases hc : st.c ≤ e
    · rw [names_loop_succ store name e _ st hc] at h
      have hs := names_step_safe store name e st hd ho
      cases hstep : names_step store name e st with
      | done r1 =>
        rw [hstep] at h hs
        simp only [Option.some.injEq] at h
        rw [← h]; exact hs
      | more st1 =>
        rw [hstep] at h hs
        exact ih st1 r hs.1 hs.2 h
    · rw [names_loop_exit store name e _ st (by omega)] at h
      simp only [Option.some.injEq] at h
      rw [← h]; exact ho

theorem tag_scan (store : store_named_data_t) (name : Buf) (e : Nat) (head : List ttls_asn1_named_data)
    (s : Nat) (oid data : Buf) (d : Nat) (ov : Bool) (fuel : Nat) (k : Nat) :
    ∀ c, (∀ i, i < k → name.getD (c + i) 0 ≠ 61) → c + k ≤ e + 1 →
      names_loop store name e (fuel + k) ⟨head, c, s, true, oid, data, d, ov⟩
        = names_loop store name e fuel ⟨head, c + k, s, true, oid, data, d, ov⟩ := by
  induction k with
  | zero => intro c _ _; rfl
  | succ n ih =>
    intro c h hc
    have h0 := h 0 (by omega)
    rw [Nat.add_zero] at h0
    rw [← Nat.add_assoc, names_loop_succ store name e _ _ (by simp only; omega)]
    simp [-List.getD_eq_getElem?_getD, names_step, names_tag, h0, names_write]
    rw [ih (c + 1) (fun i hi => by
      have := h (i + 1) (by omega)
      rwa [Nat.add_assoc, Nat.add_comm 1 i]) (by omega)]
    rw [Nat.add_assoc, Nat.add_comm 1 n]

theorem eq_step (store : store_named_data_t) (name : Buf) (e : Nat) (head : List ttls_asn1_named_data)
    (c s : Nat) (oid data : Buf) (d : Nat) (ov : Bool) (fuel : Nat) (o : Buf)
    (h : name.getD c 0 = 61) (hc : c < e)
    (hl : x509_at_oid_from_name (name.drop s) (c - s) = some o) :
    names_loop store name e (fuel + 1) ⟨head, c, s, true, oid, data, d, ov⟩
      = names_loop store name e fuel ⟨head, c + 1, c + 1, false, o, data, 0, ov⟩ := by
  have hne : ¬ c = e := by omega
  rw [names_loop_succ store name e _ _ (by simp only; omega)]
  simp [-List.getD_eq_getElem?_getD, names_step, names_tag, h, hl, names_write, hne]

theorem eq_unknown (store : store_named_data_t) (name : Buf) (e : Nat) (head : List ttls_asn1_named_data)
    (c s : Nat) (oid data : Buf) (d : Nat) (ov : Bool) (fuel : Nat)
    (h : name.getD c 0 = 61) (hc : c ≤ e)
    (hl : x509_at_oid_from_name (name.drop s) (c - s) = none) :
    names_loop store name e (fuel + 1) ⟨head, c, s, true, oid, data, d, ov⟩
      = some ⟨TTLS_ERR_X509_UNKNOWN_OID, head, ov⟩ := by
  rw [names_loop_succ store name e _ _ (by simp only; omega)]
  simp [-List.getD_eq_getElem?_getD, names_step, names_tag, h, hl]

theorem plain_step (store : store_named_data_t) (name : Buf) (e : Nat) (head : List ttls_asn1_named_data)
    (c s : Nat) (oid data : Buf) (d : Nat) (ov : Bool) (fuel : Nat)
    (h1 : name.getD c 0 ≠ 92) (h2 : name.getD c 0 ≠ 44) (hc : c < e) (hs : s ≤ c)
    (hd : d + 1 < TTLS_X509_MAX_DN_NAME_SIZE) :
    names_loop store name e (fuel + 1) ⟨head, c, s, false, oid, data, d, ov⟩
      = names_loop store name e fuel
          ⟨head, c + 1, s, false, oid, data.set d (name.getD c 0), d + 1, ov⟩ := by
  have hne : ¬ c = e := by omega
  have hs1 : ¬ s = c + 1 := by omega
  have hd1 : ¬ d + 1 = TTLS_X509_MAX_DN_NAME_SIZE := by omega
  have hd2 : ¬ TTLS_X509_MAX_DN_NAME_SIZE ≤ d := by omega
  rw [names_loop_succ store name e _ _ (by simp only; omega)]
  simp [-List.getD_eq_getElem?_getD, names_step, names_tag, h1, h2, names_write, hne, hs1, hd1, hd2]

theorem plain_full (store : store_named_data_t) (name : Buf) (e : Nat) (head : List ttls_asn1_named_data)
    (c s : Nat) (oid data : Buf) (d : Nat) (fuel : Nat)
    (h1 : name.getD c 0 ≠ 92) (h2 : name.getD c 0 ≠ 44) (hc : c < e) (hs : s ≤ c)
    (hd : d + 1 = TTLS_X509_MAX_DN_NAME_SIZE) :
    names_loop store name e (fuel + 1) ⟨head, c, s, false, oid, data, d, false⟩
      = some ⟨TTLS_ERR_X509_INVALID_NAME, head, false⟩ := by
  have hne : ¬ c = e := by omega
  have hs1 : ¬ s = c + 1 := by omega
  have hd2 : ¬ TTLS_X509_MAX_DN_NAME_SIZE ≤ d := by omega
  rw [names_loop_succ store name e _ _ (by simp only; omega)]
  simp [-List.getD_eq_getElem?_getD, names_step, names_tag, h1, h2, names_write, hne, hs1, hd, hd2]

theorem esc_step (store : store_named_data_t) (name : Buf) (e : Nat) (head : List ttls_asn1_named_data)
    (c s : Nat) (oid data : Buf) (d : Nat) (ov : Bool) (fuel : Nat)
    (h1 : name.getD c 0 = 92) (h2 : name.getD (c + 1) 0 = 44) (hc : c + 1 < e) (hs : s ≤ c)
    (hd : d + 1 < TTLS_X509_MAX_DN_NAME_SIZE) :
    names_loop store name e (fuel + 1) ⟨head, c, s, false, oid, data, d, ov⟩
      = names_loop store name e fuel ⟨head, c + 2, s, false, oid, data.set d 44, d + 1, ov⟩ := by
  have hne : ¬ c = e := by omega
  have hne1 : ¬ c + 1 = e := by omega
  have hs1 : ¬ s = c + 1 + 1 := by omega
  have hd1 : ¬ d + 1 = TTLS_X509_MAX_DN_NAME_SIZE := by omega
  have hd2 : ¬ TTLS_X509_MAX_DN_NAME_SIZE ≤ d := by omega
  rw [names_loop_succ store name e _ _ (by simp only; omega)]
  simp [-List.getD_eq_getElem?_getD, names_step, names_tag, h1, h2, names_write, hne, hne1, hs1, hd1, hd2]

theorem esc_full (store : store_named_data_t) (name : Buf) (e : Nat) (head : List ttls_asn1_named_data)
    (c s : Nat) (oid data : Buf) (d : Nat) (fuel : Nat)
    (h1 : name.getD c 0 = 92) (h2 : name.getD (c + 1) 0 = 44) (hc : c + 1 < e) (hs : s ≤ c)
    (hd : d + 1 = TTLS_X509_MAX_DN_NAME_SIZE) :
    names_loop store name e (fuel + 1) ⟨head, c, s, false, oid, data, d, false⟩
      = some ⟨TTLS_ERR_X509_INVALID_NAME, head, false⟩ := by
  have hne : ¬ c = e := by omega
  have hne1 : ¬ c + 1 = e := by omega
  have hs1 : ¬ s = c + 1 + 1 := by omega
  have hd2 : ¬ TTLS_X509_MAX_DN_NAME_SIZE ≤ d := by omega
  rw [names_loop_succ store name e _ _ (by simp only; omega)]
  simp [-List.getD_eq_getElem?_getD, names_step, names_tag, h1, h2, names_write, hne, hne1, hs1, hd, hd2]

theorem esc_bad (store : store_named_data_t) (name : Buf) (e : Nat) (head : List ttls_asn1_named_data)
    (c s : Nat) (oid data : Buf) (d : Nat) (ov : Bool) (fuel : Nat)
    (h1 : name.getD c 0 = 92) (hc : c < e) (h2 : c + 1 = e ∨ name.getD (c + 1) 0 ≠ 44) :
    names_loop store name e (fuel + 1) ⟨head, c, s, false, oid, data, d, ov⟩
      = some ⟨TTLS_ERR_X509_INVALID_NAME, head, ov⟩ := by
  have hne : ¬ c = e := by omega
  rw [names_loop_succ store name e _ _ (by simp only; omega)]
  simp only [names_step, names_tag, Bool.false_eq_true, false_and, if_false, h1, ne_eq, hne,
    not_false_eq_true, and_self, if_true, h2]

theorem drop_cons_facts (name : Buf) (c x : Nat) (r : Buf) (h : name.drop c = x :: r) :
    name.getD c 0 = x ∧ c < name.length ∧ name.drop (c + 1) = r := by
  have hl : c < name.length := by
    by_contra hc
    rw [List.drop_eq_nil_of_le (by omega)] at h
    cases h
  refine ⟨?_, hl, ?_⟩
  · have := congrArg (fun l => l.getD 0 0) h
    simpa [List.getD_eq_getElem?_getD, List.getElem?_drop] using this
  · have := congrArg List.tail h
    simpa [List.tail_drop] using this

theorem skip_loop_count (name : Buf) (e : Nat) (k : Nat) :
    ∀ c n, (∀ i, i < k → name.getD (c + 1 + i) 0 = 32) → name.getD (c + k + 1) 0 ≠ 32 →
      c + k < e ∨ k = 0 → k ≤ n → skip_loop name e n c = c + k := by
  induction k with
  | zero =>
    intro c n _ h2 _ _
    cases n with
    | zero => rfl
    | succ m =>
      have h2b : ¬ name.getD (c + 1) 0 = 32 := h2
      simp only [skip_loop, h2b, and_false, if_false, Nat.add_zero]
  | succ j ih =>
    intro c n h1 h2 h3 h4
    cases n with
    | zero => omega
    | succ m =>
      have a := h1 0 (by omega)
      rw [Nat.add_zero] at a
      have hc : c < e := by omega
      simp only [skip_loop, hc, a, and_self, if_true]
      rw [ih (c + 1) m (fun i hi => by
        have := h1 (i + 1) (by omega)
        rwa [show c + 1 + (i + 1) = c + 1 + 1 + i by omega] at this)
        (by rwa [show c + 1 + j + 1 = c + (j + 1) + 1 by omega]) (by omega) (by omega)]
      omega

theorem comma_step (store : store_named_data_t) (name : Buf) (e : Nat) (head : List ttls_asn1_named_data)
    (c s : Nat) (oid data : Buf) (d : Nat) (ov : Bool) (fuel : Nat)
    (p : List ttls_asn1_named_data × Nat)
    (h : name.getD c 0 = 44) (hc : c ≤ e)
    (hs : store head (oid.take (strlen oid)) (some (data.take d)) d = some p) :
    names_loop store name e (fuel + 1) ⟨head, c, s, false, oid, data, d, ov⟩
      = names_loop store name e fuel
          ⟨p.1, skip_loop name e (e - c) c + 1, skip_loop name e (e - c) c + 1, true, oid, data,
            d, ov⟩ := by
  rw [names_loop_succ store name e _ _ (by simp only; omega)]
  simp [-List.getD_eq_getElem?_getD, names_step, names_tag, h, hs, names_write]

theorem end_step (store : store_named_data_t) (name : Buf) (e : Nat) (head : List ttls_asn1_named_data)
    (s : Nat) (oid data : Buf) (d : Nat) (ov : Bool) (fuel : Nat)
    (p : List ttls_asn1_named_data × Nat)
    (hs : store head (oid.take (strlen oid)) (some (data.take d)) d = some p) :
    names_loop store name e (fuel + 1) ⟨head, e, s, false, oid, data, d, ov⟩
      = some ⟨0, p.1, ov⟩ := by
  rw [names_loop_succ store name e _ _ (by simp only; omega)]
  simp only [names_step, names_tag, Bool.false_eq_true, false_and, if_false, ne_eq,
    not_true_eq_false, and_false, or_true, and_self, if_true, hs, Nat.sub_self, skip_loop,
    names_write, Bool.true_eq_false]
  rw [names_loop_exit store name e fuel _ (by simp only; omega)]

theorem value_scan (store : store_named_data_t) (name : Buf) (head : List ttls_asn1_named_data)
    (s : Nat) (oid : Buf) (ov : Bool) (rest : Buf) (v : Buf) :
    ∀ (c d : Nat) (data : Buf), (∀ x ∈ v, x ≠ 92) → name.drop c = escape_value v ++ rest →
      d + v.length < TTLS_X509_MAX_DN_NAME_SIZE → data.length = TTLS_X509_MAX_DN_NAME_SIZE →
      s ≤ c →
      ∃ data1, data1.length = data.length ∧ data1.take (d + v.length) = data.take d ++ v ∧
        ∀ fuel, names_loop store name name.length (fuel + v.length)
            ⟨head, c, s, false, oid, data, d, ov⟩
          = names_loop store name name.length fuel
              ⟨head, c + (escape_value v).length, s, false, oid, data1, d + v.length, ov⟩ := by
  induction v with
  | nil =>
    intro c d data _ _ _ _ _
    exact ⟨data, rfl, by simp, fun _ => rfl⟩
  | cons x tl ih =>
    intro c d data hv hn hd hdl hs
    have hx : x ≠ 92 := hv x (List.mem_cons_self _ _)
    have htl : ∀ y ∈ tl, y ≠ 92 := fun y hy => hv y (List.mem_cons_of_mem _ hy)
    simp only [List.length_cons] at hd
    by_cases h44 : x = 44
    · subst h44
      simp only [escape_value, if_true, List.cons_append] at hn
      obtain ⟨g1, l1, n1⟩ := drop_cons_facts name c 92 _ hn
      obtain ⟨g2, l2, n2⟩ := drop_cons_facts name (c + 1) 44 _ n1
      obtain ⟨data1, e1, e2, e3⟩ := ih (c + 2) (d + 1) (data.set d 44) htl n2 (by omega)
        (by rw [List.length_set]; exact hdl) (by omega)
      refine ⟨data1, by rw [e1, List.length_set], ?_, ?_⟩
      · rw [List.length_cons, show d + (tl.length + 1) = d + 1 + tl.length by omega, e2,
          take_succ_getD _ d (by rw [List.length_set]; omega), take_set_self]
        simp [List.getD_eq_getElem?_getD, List.getElem?_set_self (show d < data.length by omega)]
      · intro fuel
        rw [List.length_cons, ← Nat.add_assoc,
          esc_step store name name.length head c s oid data d ov _ g1 g2 l2 hs (by omega), e3]
        simp only [escape_value, if_true, List.length_cons]
        rw [show c + 2 + (escape_value tl).length = c + ((escape_value tl).length + 1 + 1) by omega,
          show d + 1 + tl.length = d + (tl.length + 1) by omega]
    · simp only [escape_value, h44, if_false, List.cons_append] at hn
      obtain ⟨g1, l1, n1⟩ := drop_cons_facts name c x _ hn
      obtain ⟨data1, e1, e2, e3⟩ := ih (c + 1) (d + 1) (data.set d x) htl n1 (by omega)
        (by rw [List.length_set]; exact hdl) (by omega)
      refine ⟨data1, by rw [e1, List.length_set], ?_, ?_⟩
      · rw [List.length_cons, show d + (tl.length + 1) = d + 1 + tl.length by omega, e2,
          take_succ_getD _ d (by rw [List.length_set]; omega), take_set_self]
        simp [List.getD_eq_getElem?_getD, List.getElem?_set_self (show d < data.length by omega)]
      · intro fuel
        rw [List.length_cons, ← Nat.add_assoc,
          plain_step store name name.length head c s oid data d ov _ (by rw [g1]; exact hx)
            (by rw [g1]; exact h44) l1 hs (by omega), g1, e3]
        simp only [escape_value, h44, if_false, List.length_cons]
        rw [show c + 1 + (escape_value tl).length = c + ((escape_value tl).length + 1) by omega,
          show d + 1 + tl.length = d + (tl.length + 1) by omega]

theorem table_name_facts :
    ∀ t ∈ x509_attrs.map (fun cur => cur.name),
      (∀ x ∈ t, x ≠ 61 ∧ x ≠ 0) ∧ t.headD 0 ≠ 32 ∧ t ≠ [] := by
  decide

theorem drop_append_facts (name : Buf) (c : Nat) (t r : Buf) (h : name.drop c = t ++ r) :
    (∀ i, i < t.length → name.getD (c + i) 0 = t.getD i 0) ∧ name.drop (c + t.length) = r := by
  induction t generalizing c with
  | nil => exact ⟨fun i hi => by simp at hi, by simpa using h⟩
  | cons x tl ih =>
    obtain ⟨g, _, n⟩ := drop_cons_facts name c x _ h
    obtain ⟨a, b⟩ := ih (c + 1) n
    refine ⟨?_, ?_⟩
    · intro i hi
      cases i with
      | zero => simpa using g
      | succ j =>
        have := a j (by simp only [List.length_cons] at hi; omega)
        rw [show c + (j + 1) = c + 1 + j by omega, this]
        simp
    · rw [List.length_cons, show c + (tl.length + 1) = c + 1 + tl.length by omega]
      exact b

theorem value_overlong (store : store_named_data_t) (name : Buf) (head : List ttls_asn1_named_data)
    (s : Nat) (oid : Buf) (fuel : Nat) (rest : Buf) (v : Buf) :
    ∀ (c d : Nat) (data : Buf), (∀ x ∈ v, x ≠ 92) → name.drop c = escape_value v ++ rest →
      d < TTLS_X509_MAX_DN_NAME_SIZE → TTLS_X509_MAX_DN_NAME_SIZE ≤ d + v.length → s ≤ c →
      names_loop store name name.length (fuel + v.length) ⟨head, c, s, false, oid, data, d, false⟩
        = some ⟨TTLS_ERR_X509_INVALID_NAME, head, false⟩ := by
  induction v with
  | nil => intro c d data _ _ h1 h2 _; simp at h2; omega
  | cons x tl ih =>
    intro c d data hv hn hd hdl hs
    have hx : x ≠ 92 := hv x (List.mem_cons_self _ _)
    have htl : ∀ y ∈ tl, y ≠ 92 := fun y hy => hv y (List.mem_cons_of_mem _ hy)
    simp only [List.length_cons] at hdl
    rw [List.length_cons, ← Nat.add_assoc]
    by_cases h44 : x = 44
    · subst h44
      simp only [escape_value, if_true, List.cons_append] at hn
      obtain ⟨g1, l1, n1⟩ := drop_cons_facts name c 92 _ hn
      obtain ⟨g2, l2, n2⟩ := drop_cons_facts name (c + 1) 44 _ n1
      by_cases hfull : d + 1 = TTLS_X509_MAX_DN_NAME_SIZE
      · exact esc_full store name name.length head c s oid data d _ g1 g2 l2 hs hfull
      · rw [esc_step store name name.length head c s oid data d false _ g1 g2 l2 hs (by omega)]
        exact ih (c + 2) (d + 1) _ htl n2 (by omega) (by omega) (by omega)
    · simp only [escape_value, h44, if_false, List.cons_append] at hn
      obtain ⟨g1, l1, n1⟩ := drop_cons_facts name c x _ hn
      by_cases hfull : d + 1 = TTLS_X509_MAX_DN_NAME_SIZE
      · exact plain_full store name name.length head c s oid data d _ (by rw [g1]; exact hx)
          (by rw [g1]; exact h44) l1 hs hfull
      · rw [plain_step store name name.length head c s oid data d false _ (by rw [g1]; exact hx)
          (by rw [g1]; exact h44) l1 hs (by omega)]
        exact ih (c + 1) (d + 1) _ htl n1 (by omega) (by omega) (by omega)

theorem drop_length_eq (name : Buf) (c : Nat) (l : Buf) (h : name.drop c = l) (hl : l ≠ []) :
    name.length = c + l.length := by
  have := congrArg List.length h
  rw [List.length_drop] at this
  have : l.length ≠ 0 := fun h0 => hl (List.length_eq_zero.mp h0)
  omega

theorem attr_scan (store : store_named_data_t) (name : Buf) (a : dn_attr) (r : Buf)
    (head : List ttls_asn1_named_data) (c : Nat) (oid data : Buf) (d : Nat) (ov : Bool) (o : Buf)
    (hok : attr_ok a) (hn : name.drop c = a.tag ++ 61 :: (escape_value a.value ++ r))
    (hdl : data.length = TTLS_X509_MAX_DN_NAME_SIZE)
    (hl : x509_at_oid_from_name a.tag a.tag.length = some o) :
    ∃ data1, data1.length = TTLS_X509_MAX_DN_NAME_SIZE ∧ data1.take a.value.length = a.value ∧
      name.drop (c + a.tag.length + 1 + (escape_value a.value).length) = r ∧
      c + a.tag.length + 1 + (escape_value a.value).length ≤ name.length ∧
      ∀ fuel, names_loop store name name.length (fuel + a.value.length + 1 + a.tag.length)
          ⟨head, c, c, true, oid, data, d, ov⟩
        = names_loop store name name.length fuel
          ⟨head, c + a.tag.length + 1 + (escape_value a.value).length, c + a.tag.length + 1,
            false, o, data1, a.value.length, ov⟩ := by
  obtain ⟨hmem, hval, hlen⟩ := hok
  obtain ⟨t1, t2, t3⟩ := table_name_facts a.tag hmem
  obtain ⟨g1, n1⟩ := drop_append_facts name c a.tag _ hn
  obtain ⟨g2, l2, n2⟩ := drop_cons_facts name (c + a.tag.length) 61 _ n1
  have hlook : x509_at_oid_from_name (name.drop c) (c + a.tag.length - c) = some o := by
    rw [hn, Nat.add_sub_cancel_left, at_oid_append, hl]
  obtain ⟨data1, e1, e2, e3⟩ := value_scan store name head (c + a.tag.length + 1) o ov r
    a.value (c + a.tag.length + 1) 0 data (fun x hx => (hval x hx).1) n2 (by omega) hdl
    (Nat.le_refl _)
  obtain ⟨_, n3⟩ := drop_append_facts name (c + a.tag.length + 1) (escape_value a.value) r n2
  have hle : c + a.tag.length + 1 + (escape_value a.value).length ≤ name.length := by
    have := congrArg List.length n2
    rw [List.length_drop, List.length_append] at this
    omega
  refine ⟨data1, by rw [e1, hdl], by simpa using e2, n3, hle, ?_⟩
  intro fuel
  rw [tag_scan store name name.length head c oid data d ov (fuel + a.value.length + 1)
    a.tag.length c (fun i hi => by
      rw [g1 i hi, List.getD_eq_getElem?_getD, List.getElem?_eq_getElem hi]
      exact (t1 _ (List.getElem_mem hi)).1) (by omega)]
  rw [eq_step store name name.length head (c + a.tag.length) c oid data d ov
    (fuel + a.value.length) o g2 l2 hlook]
  rw [e3 fuel]
  simp only [Nat.zero_add]

theorem store_seq_cons (store : store_named_data_t) (h : List ttls_asn1_named_data)
    (a : dn_attr) (rest : List dn_attr) (h1 : List ttls_asn1_named_data)
    (hst : store_seq store h (a :: rest) = some h1) :
    ∃ o p, x509_at_oid_from_name a.tag a.tag.length = some o ∧
      store h (o.take (strlen o)) (some a.value) a.value.length = some p ∧
      store_seq store p.1 rest = some h1 := by
  simp only [store_seq] at hst
  cases hl : x509_at_oid_from_name a.tag a.tag.length with
  | none => rw [hl] at hst; simp at hst
  | some o =>
    rw [hl] at hst
    simp only at hst
    cases hs : store h (o.take (strlen o)) (some a.value) a.value.length with
    | none => rw [hs] at hst; simp at hst
    | some p =>
      rw [hs] at hst
      exact ⟨o, p, rfl, hs, hst⟩

theorem parse_entries (store : store_named_data_t) (name : Buf) (rest : List dn_attr) :
    ∀ (a : dn_attr) (head : List ttls_asn1_named_data) (c : Nat) (oid data : Buf) (d : Nat)
      (ov : Bool) (h1 : List ttls_asn1_named_data),
      (∀ b ∈ a :: rest, attr_ok b) → name.drop c = dn_text (a :: rest) →
      data.length = TTLS_X509_MAX_DN_NAME_SIZE →
      store_seq store head (a :: rest) = some h1 →
      ∃ fuel, names_loop store name name.length fuel ⟨head, c, c, true, oid, data, d, ov⟩
        = some ⟨0, h1, ov⟩ := by
  induction rest with
  | nil =>
    intro a head c oid data d ov h1 hok hn hdl hst
    have ha := hok a (List.mem_cons_self _ _)
    obtain ⟨o, p, hl, hs, hst⟩ := store_seq_cons store head a [] h1 hst
    simp only [store_seq, Option.some.injEq] at hst
    simp only [dn_text, dn_rest, List.append_nil] at hn
    obtain ⟨data1, e1, e2, e3, e4, e5⟩ := attr_scan store name a [] head c oid data d ov o ha
      (by simpa using hn) hdl hl
    have hend : c + a.tag.length + 1 + (escape_value a.value).length = name.length := by
      have := congrArg List.length e3
      rw [List.length_drop, List.length_nil] at this
      omega
    refine ⟨0 + 1 + a.value.length + 1 + a.tag.length, ?_⟩
    rw [e5 (0 + 1), hend, end_step store name name.length head _ o data1 a.value.length ov 0 p
      (by rw [e2]; exact hs), hst]
  | cons b rest ih =>
    intro a head c oid data d ov h1 hok hn hdl hst
    have ha := hok a (List.mem_cons_self _ _)
    have hb := hok b (List.mem_cons_of_mem _ (List.mem_cons_self _ _))
    obtain ⟨o, p, hl, hs, hst⟩ := store_seq_cons store head a (b :: rest) h1 hst
    simp only [dn_text, dn_rest] at hn
    obtain ⟨data1, e1, e2, e3, e4, e5⟩ := attr_scan store name a _ head c oid data d ov o ha
      hn hdl hl
    obtain ⟨g1, l1, n1⟩ := drop_cons_facts name _ 44 _ e3
    obtain ⟨g2, n2⟩ := drop_append_facts name _ (List.replicate b.spaces 32) _ n1
    obtain ⟨t1, t2, t3⟩ := table_name_facts b.tag hb.1
    rw [List.length_replicate] at g2 n2
    have hlen := drop_length_eq name _ _ n2 (by simp [t3])
    have hhead : name.getD (c + a.tag.length + 1 + (escape_value a.value).length + 1 + b.spaces) 0
        = b.tag.headD 0 := by
      cases hb2 : b.tag with
      | nil => exact absurd hb2 t3
      | cons x tl =>
        rw [hb2] at n2
        exact (drop_cons_facts name _ x _ n2).1
    have hskip := skip_loop_count name name.length b.spaces
      (c + a.tag.length + 1 + (escape_value a.value).length)
      (name.length - (c + a.tag.length + 1 + (escape_value a.value).length))
      (fun i hi => by
        rw [g2 i hi]
        simp [List.getD_eq_getElem?_getD, List.getElem?_replicate, hi])
      (by
        rw [show c + a.tag.length + 1 + (escape_value a.value).length + b.spaces + 1
          = c + a.tag.length + 1 + (escape_value a.value).length + 1 + b.spaces by omega, hhead]
        exact t2)
      (by simp only [List.length_append, List.length_cons] at hlen; omega)
      (by simp only [List.length_append, List.length_cons] at hlen; omega)
    obtain ⟨fuel, hf⟩ := ih b p.1
      (c + a.tag.length + 1 + (escape_value a.value).length + 1 + b.spaces) o data1
      a.value.length ov h1 (fun x hx => hok x (List.mem_cons_of_mem _ hx))
      (by rw [n2]; simp [dn_text]) e1 hst
    refine ⟨fuel + 1 + a.value.length + 1 + a.tag.length, ?_⟩
    rw [e5 (fuel + 1), comma_step store name name.length head _ _ o data1 a.value.length ov fuel p
      g1 e4 (by rw [e2]; exact hs), hskip,
      show c + a.tag.length + 1 + (escape_value a.value).length + b.spaces + 1
        = c + a.tag.length + 1 + (escape_value a.value).length + 1 + b.spaces by omega]
    exact hf

theorem strlen_le_length (l : Buf) : strlen l ≤ l.length := by
  induction l with
  | nil => simp [strlen]
  | cons x rest ih =>
    simp only [strlen, List.length_cons]
    split_ifs <;> omega

theorem escape_value_mem (v : Buf) : ∀ x ∈ escape_value v, x = 92 ∨ x = 44 ∨ x ∈ v := by
  induction v with
  | nil => intro x hx; simp [escape_value] at hx
  | cons y tl ih =>
    intro x hx
    simp only [escape_value] at hx
    split_ifs at hx with h
    · simp only [List.mem_cons] at hx
      rcases hx with hx | hx | hx
      · exact Or.inl hx
      · exact Or.inr (Or.inl hx)
      · rcases ih x hx with h1 | h1 | h1
        · exact Or.inl h1
        · exact Or.inr (Or.inl h1)
        · exact Or.inr (Or.inr (List.mem_cons_of_mem _ h1))
    · simp only [List.mem_cons] at hx
      rcases hx with hx | hx
      · exact Or.inr (Or.inr (by rw [hx]; exact List.mem_cons_self _ _))
      · rcases ih x hx with h1 | h1 | h1
        · exact Or.inl h1
        · exact Or.inr (Or.inl h1)
        · exact Or.inr (Or.inr (List.mem_cons_of_mem _ h1))

theorem escape_value_plain (v : Buf) (h : ∀ x ∈ v, x ≠ 44) : escape_value v = v := by
  induction v with
  | nil => rfl
  | cons y tl ih =>
    have hy : y ≠ 44 := h y (List.mem_cons_self _ _)
    simp only [escape_value, hy, if_false]
    rw [ih (fun x hx => h x (List.mem_cons_of_mem _ hx))]

theorem attr_text_no_nul (a : dn_attr) (h : attr_ok a) (r : Buf) (hr : ∀ x ∈ r, x ≠ 0) :
    ∀ x ∈ a.tag ++ 61 :: (escape_value a.value ++ r), x ≠ 0 := by
  intro x hx
  obtain ⟨hmem, hval, _⟩ := h
  obtain ⟨t1, _, _⟩ := table_name_facts a.tag hmem
  simp only [List.mem_append, List.mem_cons] at hx
  rcases hx with hx | hx | hx | hx
  · exact (t1 x hx).2
  · omega
  · rcases escape_value_mem a.value x hx with h1 | h1 | h1
    · omega
    · omega
    · exact (hval x h1).2
  · exact hr x hx

theorem dn_rest_no_nul (rest : List dn_attr) (h : ∀ b ∈ rest, attr_ok b) :
    ∀ x ∈ dn_rest rest, x ≠ 0 := by
  induction rest with
  | nil => intro x hx; simp [dn_rest] at hx
  | cons b tl ih =>
    intro x hx
    simp only [dn_rest, List.mem_cons, List.mem_append, List.mem_replicate] at hx
    rcases hx with hx | hx | hx
    · omega
    · omega
    · exact attr_text_no_nul b (h b (List.mem_cons_self _ _)) _
        (ih (fun c hc => h c (List.mem_cons_of_mem _ hc))) x
        (by simpa only [List.mem_append, List.mem_cons] using hx)

theorem string_to_names_entries (store : store_named_data_t) (fuel : Nat) (junk : Nat → Nat)
    (head : List ttls_asn1_named_data) (a : dn_attr) (rest : List dn_attr)
    (h1 : List ttls_asn1_named_data) (hok : ∀ b ∈ a :: rest, attr_ok b)
    (hst : store_seq store (ttls_asn1_free_named_data_list head) (a :: rest) = some h1)
    (hfuel : (dn_text (a :: rest)).length + 1 ≤ fuel) :
    ttls_x509_string_to_names store fuel junk head (dn_text (a :: rest))
      = some ⟨0, h1, false⟩ := by
  have hnul : ∀ x ∈ dn_text (a :: rest), x ≠ 0 :=
    attr_text_no_nul a (hok a (List.mem_cons_self _ _)) _
      (dn_rest_no_nul rest (fun b hb => hok b (List.mem_cons_of_mem _ hb)))
  have hlen := strlen_eq_length _ hnul
  obtain ⟨k, hk⟩ := parse_entries store (dn_text (a :: rest)) rest a
    (ttls_asn1_free_named_data_list head) 0 [] (stack_array junk TTLS_X509_MAX_DN_NAME_SIZE) 0
    false h1 hok rfl (by simp [stack_array]) hst
  obtain ⟨r, hr⟩ := names_loop_total store (dn_text (a :: rest)) (dn_text (a :: rest)).length fuel
    ⟨ttls_asn1_free_named_data_list head, 0, 0, true, [],
      stack_array junk TTLS_X509_MAX_DN_NAME_SIZE, 0, false⟩ (by simp only; omega)
  have := names_loop_agree store _ _ _ _ _ _ _ hk hr
  rw [ttls_x509_string_to_names, hlen, hr, this]

theorem table_lookup_some :
    ∀ t ∈ x509_attrs.map (fun cur => cur.name), (x509_at_oid_from_name t t.length).isSome = true := by
  decide

theorem getD_ne_of_not_mem (l : Buf) (y : Nat) (h : ∀ x ∈ l, x ≠ y) (hy : y ≠ 0) (i : Nat) :
    l.getD i 0 ≠ y := by
  by_cases hi : i < l.length
  · rw [List.getD_eq_getElem?_getD, List.getElem?_eq_getElem hi]
    exact h _ (List.getElem_mem hi)
  · rw [List.getD_eq_getElem?_getD, List.getElem?_eq_none (by omega)]
    exact fun h0 => hy h0.symm

theorem first_tag_scan (store : store_named_data_t) (name t r : Buf) (e : Nat)
    (head : List ttls_asn1_named_data) (data : Buf) (fuel : Nat)
    (hn : name = t ++ 61 :: r) (ht : ∀ x ∈ t, x ≠ 61) (he : t.length ≤ e) :
    names_loop store name e (fuel + t.length) ⟨head, 0, 0, true, [], data, 0, false⟩
      = names_loop store name e fuel ⟨head, t.length, 0, true, [], data, 0, false⟩ ∧
    name.getD t.length 0 = 61 ∧ name.drop (t.length + 1) = r := by
  have hd : name.drop 0 = t ++ 61 :: r := by rw [List.drop_zero, hn]
  obtain ⟨g1, n1⟩ := drop_append_facts name 0 t _ hd
  rw [Nat.zero_add] at n1
  obtain ⟨g2, _, n2⟩ := drop_cons_facts name t.length 61 _ n1
  refine ⟨?_, g2, n2⟩
  have := tag_scan store name e head 0 [] data 0 false fuel t.length 0 (fun i hi => by
    rw [g1 i hi, List.getD_eq_getElem?_getD, List.getElem?_eq_getElem hi]
    exact ht _ (List.getElem_mem hi)) (by omega)
  rw [Nat.zero_add] at this
  exact this

theorem first_tag_unknown (store : store_named_data_t) (fuel : Nat) (junk : Nat → Nat)
    (head : List ttls_asn1_named_data) (t r : Buf) (ht : ∀ x ∈ t, x ≠ 61 ∧ x ≠ 0)
    (hl : x509_at_oid_from_name t t.length = none) (hfuel : t.length + 1 ≤ fuel) :
    ttls_x509_string_to_names store fuel junk head (t ++ 61 :: r)
      = some ⟨TTLS_ERR_X509_UNKNOWN_OID, [], false⟩ := by
  have he := le_strlen_append t (61 :: r) (fun x hx => (ht x hx).2)
  obtain ⟨a, g, _⟩ := first_tag_scan store (t ++ 61 :: r) t r (strlen (t ++ 61 :: r)) []
    (stack_array junk TTLS_X509_MAX_DN_NAME_SIZE) 1 rfl (fun x hx => (ht x hx).1) he
  have b := eq_unknown store (t ++ 61 :: r) (strlen (t ++ 61 :: r)) [] t.length 0 []
    (stack_array junk TTLS_X509_MAX_DN_NAME_SIZE) 0 false 0 g he
    (by rw [List.drop_zero, Nat.sub_zero, at_oid_append, hl])
  rw [Nat.zero_add] at b
  rw [b] at a
  rw [ttls_x509_string_to_names, ttls_asn1_free_named_data_list]
  exact names_loop_mono_le store _ _ (1 + t.length) fuel _ _ a (by omega)

theorem first_value_start (store : store_named_data_t) (name t r : Buf)
    (data : Buf) (hn : name = t ++ 61 :: r)
    (ht : t ∈ x509_attrs.map (fun cur => cur.name)) :
    ∃ o, ∀ fuel, names_loop store name name.length (fuel + 1 + t.length)
        ⟨[], 0, 0, true, [], data, 0, false⟩
      = names_loop store name name.length fuel
        ⟨[], t.length + 1, t.length + 1, false, o, data, 0, false⟩ := by
  obtain ⟨t1, _, _⟩ := table_name_facts t ht
  have hs := table_lookup_some t ht
  obtain ⟨o, ho⟩ := Option.isSome_iff_exists.mp hs
  have hlen : t.length < name.length := by rw [hn]; simp
  refine ⟨o, fun fuel => ?_⟩
  obtain ⟨a, g, _⟩ := first_tag_scan store name t r name.length []
    data (fuel + 1) hn (fun x hx => (t1 x hx).1) (by omega)
  rw [a, eq_step store name name.length [] t.length 0 [] data 0 false fuel o g hlen
    (by rw [List.drop_zero, Nat.sub_zero, hn, at_oid_append, ho])]

theorem first_value_invalid (store : store_named_data_t) (fuel : Nat) (junk : Nat → Nat)
    (head : List ttls_asn1_named_data) (t u r : Buf)
    (ht : t ∈ x509_attrs.map (fun cur => cur.name)) (hu : ∀ x ∈ u, x ≠ 92)
    (hnul : ∀ x ∈ t ++ 61 :: (escape_value u ++ r), x ≠ 0)
    (hbad : TTLS_X509_MAX_DN_NAME_SIZE ≤ u.length ∨
      ∃ r1, r = 92 :: r1 ∧ (r1 = [] ∨ r1.headD 0 ≠ 44))
    (hfuel : (t ++ 61 :: (escape_value u ++ r)).length + 1 ≤ fuel) :
    ttls_x509_string_to_names store fuel junk head (t ++ 61 :: (escape_value u ++ r))
      = some ⟨TTLS_ERR_X509_INVALID_NAME, [], false⟩ := by
  have hlen := strlen_eq_length _ hnul
  obtain ⟨o, ho⟩ := first_value_start store (t ++ 61 :: (escape_value u ++ r)) t _
    (stack_array junk TTLS_X509_MAX_DN_NAME_SIZE) rfl ht
  have hd : (t ++ 61 :: (escape_value u ++ r)).drop (t.length + 1) = escape_value u ++ r := by
    rw [show t ++ 61 :: (escape_value u ++ r) = (t ++ [61]) ++ (escape_value u ++ r) by simp]
    exact List.drop_left' (by simp)
  have key : ∃ k, names_loop store (t ++ 61 :: (escape_value u ++ r))
      (t ++ 61 :: (escape_value u ++ r)).length k
      ⟨[], 0, 0, true, [], stack_array junk TTLS_X509_MAX_DN_NAME_SIZE, 0, false⟩
        = some ⟨TTLS_ERR_X509_INVALID_NAME, [], false⟩ := by
    by_cases hlong : TTLS_X509_MAX_DN_NAME_SIZE ≤ u.length
    · refine ⟨0 + u.length + 1 + t.length, ?_⟩
      rw [ho (0 + u.length)]
      exact value_overlong store _ [] (t.length + 1) o 0 r u (t.length + 1) 0 _ hu hd
        (by decide) (by omega) (Nat.le_refl _)
    · rcases hbad with hbad | ⟨r1, hr, hr1⟩
      · exact absurd hbad hlong
      · subst hr
        obtain ⟨data1, _, _, e3⟩ := value_scan store (t ++ 61 :: (escape_value u ++ 92 :: r1)) []
          (t.length + 1) o false (92 :: r1) u (t.length + 1) 0
          (stack_array junk TTLS_X509_MAX_DN_NAME_SIZE) hu hd (by omega) (by simp [stack_array])
          (Nat.le_refl _)
        obtain ⟨_, n3⟩ := drop_append_facts _ (t.length + 1) (escape_value u) (92 :: r1) hd
        obtain ⟨g1, l1, n4⟩ := drop_cons_facts _ _ 92 _ n3
        refine ⟨0 + 1 + u.length + 1 + t.length, ?_⟩
        rw [ho (0 + 1 + u.length), e3 (0 + 1)]
        refine esc_bad store _ _ [] _ _ o data1 _ false 0 g1 l1 ?_
        cases r1 with
        | nil =>
          left
          have := congrArg List.length n4
          rw [List.length_drop, List.length_nil] at this
          omega
        | cons y tl =>
          right
          rw [(drop_cons_facts _ _ y _ n4).1]
          rcases hr1 with h | h
          · cases h
          · simpa using h
  obtain ⟨k, hk⟩ := key
  obtain ⟨res, hres⟩ := names_loop_total store (t ++ 61 :: (escape_value u ++ r))
    (t ++ 61 :: (escape_value u ++ r)).length fuel
    ⟨[], 0, 0, true, [], stack_array junk TTLS_X509_MAX_DN_NAME_SIZE, 0, false⟩
    (by simp only; omega)
  have := names_loop_agree store _ _ _ _ _ _ _ hk hres
  rw [ttls_x509_string_to_names, ttls_asn1_free_named_data_list, hlen, hres, this]

theorem no_tag_returns (store : store_named_data_t) (fuel : Nat) (junk : Nat → Nat)
    (head : List ttls_asn1_named_data) (name : Buf) (h : ∀ x ∈ name, x ≠ 61)
    (hfuel : name.length + 1 ≤ fuel) :
    ttls_x509_string_to_names store fuel junk head name = some ⟨0, [], false⟩ := by
  have hle := strlen_le_length name
  have a := tag_scan store name (strlen name) [] 0 []
    (stack_array junk TTLS_X509_MAX_DN_NAME_SIZE) 0 false 0 (strlen name + 1) 0
    (fun i _ => getD_ne_of_not_mem name 61 h (by decide) (0 + i)) (by omega)
  rw [names_loop_exit store name (strlen name) 0 _ (by simp only; omega)] at a
  rw [ttls_x509_string_to_names, ttls_asn1_free_named_data_list]
  exact names_loop_mono_le store _ _ _ fuel _ _ a (by omega)

theorem table_oid_strlen :
    ∀ t ∈ x509_attrs.map (fun cur => cur.name),
      (x509_at_oid_from_name t t.length).map (fun o => decide (o.take (strlen o) = o))
        = some true := by
  decide

theorem toy_store_seq (entries : List dn_attr) :
    ∀ (h : List ttls_asn1_named_data),
      (∀ b ∈ entries, b.tag ∈ x509_attrs.map (fun cur => cur.name)) →
      store_seq toy_store h entries = some (h ++ entries.map named_entry) := by
  induction entries with
  | nil => intro h _; simp [store_seq]
  | cons a rest ih =>
    intro h hm
    have ha := table_oid_strlen a.tag (hm a (List.mem_cons_self _ _))
    cases hl : x509_at_oid_from_name a.tag a.tag.length with
    | none => rw [hl] at ha; simp at ha
    | some o =>
      rw [hl] at ha
      simp only [Option.map_some', Option.some.injEq, decide_eq_true_eq] at ha
      simp only [store_seq, hl, toy_store, Option.getD_some, List.take_length, ha]
      rw [ih _ (fun b hb => hm b (List.mem_cons_of_mem _ hb))]
      simp [named_entry, hl]

theorem attr_ok_of (b : dn_attr) (ht : b.tag ∈ x509_attrs.map (fun cur => cur.name))
    (hv : b.value.length < TTLS_X509_MAX_DN_NAME_SIZE ∧
      ∀ x ∈ b.value, x ≠ 92 ∧ x ≠ 44 ∧ x ≠ 0) : attr_ok b :=
  ⟨ht, fun x hx => ⟨(hv.2 x hx).1, (hv.2 x hx).2.2⟩, hv.1⟩

theorem at_oid_empty (name : Buf) : x509_at_oid_from_name name 0 = none := by
  rw [x509_at_oid_from_name, at_oid_loop_find _ x509_attrs_ok, Option.map_eq_none',
    List.find?_eq_none]
  intro cur hc
  have : ∀ cur ∈ x509_attrs, cur.name_len ≠ 0 := by decide
  simp [this cur hc]

theorem set_extension_writes (store : store_named_data_t) (head : List ttls_asn1_named_data)
    (oid : Buf) (oid_len : Nat) (critical : Int) (val : Buf) (val_len : Nat)
    (l : List ttls_asn1_named_data) (i : Nat) (cur : ttls_asn1_named_data)
    (hs : store head (oid.take oid_len) none (val_len + 1) = some (l, i))
    (hcur : l[i]? = some cur) (hbuf : val_len + 1 ≤ cur.val.length)
    (hsz : cur.val.length < 2 ^ SIZE_T_BITS) :
    ttls_x509_set_extension store head oid oid_len critical val val_len
        = (0, l.set i ⟨cur.oid,
            (critical % 256).toNat :: (val.take val_len ++ cur.val.drop (val_len + 1))⟩) ∧
      i < l.length := by
  have hi : i < l.length := by
    by_contra hn
    rw [List.getElem?_eq_none (by omega)] at hcur
    cases hcur
  refine ⟨?_, hi⟩
  have hm : (val_len + 1) % 2 ^ SIZE_T_BITS = val_len + 1 := Nat.mod_eq_of_lt (by omega)
  simp only [ttls_x509_set_extension, hm, hs, hcur, memcpy]
  congr 3
  obtain ⟨oid1, val1⟩ := cur
  simp only at hbuf ⊢
  cases val1 with
  | nil => simp at hbuf
  | cons x tl =>
    simp only [List.set_cons_zero, List.take_succ_cons, List.take_zero, List.cons_append,
      List.nil_append, List.cons.injEq, true_and]
    rw [Nat.add_comm 1 val_len, List.drop_succ_cons, List.drop_succ_cons]

/-! ## The claims C21 to C28 -/

/-- Claim C21: for a password of at most 128 bytes and parameters that parse,
`pkcs12_pbe_derive_key_iv` derives the key with the diversifier `TTLS_PKCS12_DERIVE_KEY`;
when `iv` is `NULL` or `ivlen` is 0 nothing else is derived and `iv` is returned as it
was; otherwise, after a successful key derivation, the IV is derived with the diversifier
`TTLS_PKCS12_DERIVE_IV` from the same transcoded password, salt and iteration count; a
failed key derivation ends the call. The key of two calls that return and differ only
in `iv` and `ivlen` is the same. -/
theorem C21_key_then_iv (asn1 : ttls_asn1_ops)
    (reg : Nat → Option (ttls_md_info_t Ctx)) (fuel : Nat) (junk : Nat → Nat → Nat → Nat)
    (params : ttls_asn1_buf) (md_type : Nat) (pwd : Buf) (pwdlen : Nat) (key : Buf)
    (keylen : Nat) (h : pwdlen ≤ PKCS12_MAX_PWDLEN)
    (hparse : (pkcs12_parse_pbe_params asn1 params 0 0 0).ret = 0) :
    (∀ iv ivlen, iv = none ∨ ivlen = 0 →
      pkcs12_pbe_derive_key_iv asn1 reg fuel junk params md_type pwd pwdlen key keylen iv ivlen
        = (pbe_key_derivation asn1 reg fuel junk params md_type pwd pwdlen key keylen).map
            (fun k => ⟨k.ret, k.data, iv, pbe_unipwd pwd pwdlen⟩)) ∧
    (∀ ivbuf ivlen k, ivlen ≠ 0 →
      pbe_key_derivation asn1 reg fuel junk params md_type pwd pwdlen key keylen = some k →
      k.ret = 0 →
      pkcs12_pbe_derive_key_iv asn1 reg fuel junk params md_type pwd pwdlen key keylen
          (some ivbuf) ivlen
        = (pbe_iv_derivation asn1 reg fuel junk params md_type pwd pwdlen ivbuf ivlen).map
            (fun v => ⟨v.ret, k.data, some v.data, pbe_unipwd pwd pwdlen⟩)) ∧
    (∀ iv ivlen k,
      pbe_key_derivation asn1 reg fuel junk params md_type pwd pwdlen key keylen = some k →
      k.ret ≠ 0 →
      pkcs12_pbe_derive_key_iv asn1 reg fuel junk params md_type pwd pwdlen key keylen iv ivlen
        = some ⟨k.ret, k.data, iv, pbe_unipwd pwd pwdlen⟩) ∧
    (∀ iv1 ivlen1 iv2 ivlen2 d1 d2,
      pkcs12_pbe_derive_key_iv asn1 reg fuel junk params md_type pwd pwdlen key keylen
        iv1 ivlen1 = some d1 →
      pkcs12_pbe_derive_key_iv asn1 reg fuel junk params md_type pwd pwdlen key keylen
        iv2 ivlen2 = some d2 →
      d1.key = d2.key) := by
  refine ⟨?_, ?_, ?_, ?_⟩
  · intro iv ivlen hi
    rw [derive_key_iv_unfold asn1 reg fuel junk params md_type pwd pwdlen key keylen iv ivlen
      h hparse]
    cases pbe_key_derivation asn1 reg fuel junk params md_type pwd pwdlen key keylen with
    | none => rfl
    | some k =>
      by_cases hk : k.ret = 0
      · rcases hi with hi | hi
        · subst hi; simp [hk]
        · subst hi
          cases iv with
          | none => simp [hk]
          | some ivbuf => simp [hk]
      · simp [hk]
  · intro ivbuf ivlen k hi hk hk0
    rw [derive_key_iv_unfold asn1 reg fuel junk params md_type pwd pwdlen key keylen
      (some ivbuf) ivlen h hparse, hk]
    simp [hk0, hi]
  · intro iv ivlen k hk hk0
    rw [derive_key_iv_unfold asn1 reg fuel junk params md_type pwd pwdlen key keylen iv ivlen
      h hparse, hk]
    simp [hk0]
  · intro iv1 ivlen1 iv2 ivlen2 d1 d2 h1 h2
    rw [derive_key_iv_key asn1 reg fuel junk params md_type pwd pwdlen key keylen iv1 ivlen1
      d1 h1, derive_key_iv_key asn1 reg fuel junk params md_type pwd pwdlen key keylen iv2
      ivlen2 d2 h2]

/-- Claim C21 at a concrete input: the password `AB`, the parameters
`SEQUENCE { OCTET STRING 01 02, INTEGER 1 }` and no IV buffer. -/
theorem C21_witness :
    pkcs12_pbe_derive_key_iv toy_asn1 toy_registry 128 (fun _ _ _ => 7) toy_params 4
        [65, 66] 2 [0, 0, 0] 3 none 0
      = (pbe_key_derivation toy_asn1 toy_registry 128 (fun _ _ _ => 7) toy_params 4
          [65, 66] 2 [0, 0, 0] 3).map
            (fun k => ⟨k.ret, k.data, none, pbe_unipwd [65, 66] 2⟩) :=
  (C21_key_then_iv toy_asn1 toy_registry 128 (fun _ _ _ => 7) toy_params 4 [65, 66] 2
    [0, 0, 0] 3 (by decide) (by decide)).1 none 0 (Or.inl rfl)

/-- Claim C22: in `ttls_pkcs12_pbe` with a registered cipher and a key derivation that
returns, a failure of the key derivation, of the cipher setup, of setkey, of set_iv, of
reset or of update is returned with its own code; every failure of
`ttls_cipher_finish` is returned as `TTLS_ERR_PKCS12_PASSWORD_MISMATCH`; and the function
returns 0 exactly when every step returned 0. -/
theorem C22_finish_failure_is_password_mismatch {CCtx : Type} (asn1 : ttls_asn1_ops)
    (reg : Nat → Option (ttls_md_info_t Ctx))
    (creg : Nat → Option (ttls_cipher_info_t CCtx))
    (fuel : Nat) (junk : Nat → Nat → Nat → Nat)
    (params : ttls_asn1_buf) (mode : Int) (cipher_type md_type : Nat)
    (pwd : Buf) (pwdlen : Nat) (data : Buf) (len : Nat) (output : Buf)
    (ci : ttls_cipher_info_t CCtx) (d : DeriveKeyIv)
    (hci : creg cipher_type = some ci)
    (hd : pkcs12_pbe_derive_key_iv asn1 reg fuel junk params md_type pwd pwdlen
      (stack_array (junk 0 1) 32) (ci.key_bitlen / 8) (some (stack_array (junk 0 2) 16))
      ci.iv_size = some d) :
    ∃ r, ttls_pkcs12_pbe asn1 reg creg fuel junk params mode cipher_type md_type pwd pwdlen
        data len output = some r ∧
      (d.ret ≠ 0 → r.ret = d.ret) ∧
      (d.ret = 0 → ci.setup.1 ≠ 0 → r.ret = ci.setup.1) ∧
      (d.ret = 0 → ci.setup.1 = 0 → (pbe_setkey ci d.key mode).1 ≠ 0 →
        r.ret = (pbe_setkey ci d.key mode).1) ∧
      (d.ret = 0 → ci.setup.1 = 0 → (pbe_setkey ci d.key mode).1 = 0 →
        (pbe_set_iv ci d.key (d.iv.getD (stack_array (junk 0 2) 16)) mode).1 ≠ 0 →
        r.ret = (pbe_set_iv ci d.key (d.iv.getD (stack_array (junk 0 2) 16)) mode).1) ∧
      (d.ret = 0 → ci.setup.1 = 0 → (pbe_setkey ci d.key mode).1 = 0 →
        (pbe_set_iv ci d.key (d.iv.getD (stack_array (junk 0 2) 16)) mode).1 = 0 →
        (pbe_reset ci d.key (d.iv.getD (stack_array (junk 0 2) 16)) mode).1 ≠ 0 →
        r.ret = (pbe_reset ci d.key (d.iv.getD (stack_array (junk 0 2) 16)) mode).1) ∧
      (d.ret = 0 → ci.setup.1 = 0 → (pbe_setkey ci d.key mode).1 = 0 →
        (pbe_set_iv ci d.key (d.iv.getD (stack_array (junk 0 2) 16)) mode).1 = 0 →
        (pbe_reset ci d.key (d.iv.getD (stack_array (junk 0 2) 16)) mode).1 = 0 →
        (pbe_update ci d.key (d.iv.getD (stack_array (junk 0 2) 16)) mode data len).1 ≠ 0 →
        r.ret = (pbe_update ci d.key (d.iv.getD (stack_array (junk 0 2) 16)) mode data len).1) ∧
      (d.ret = 0 → ci.setup.1 = 0 → (pbe_setkey ci d.key mode).1 = 0 →
        (pbe_set_iv ci d.key (d.iv.getD (stack_array (junk 0 2) 16)) mode).1 = 0 →
        (pbe_reset ci d.key (d.iv.getD (stack_array (junk 0 2) 16)) mode).1 = 0 →
        (pbe_update ci d.key (d.iv.getD (stack_array (junk 0 2) 16)) mode data len).1 = 0 →
        (pbe_finish ci d.key (d.iv.getD (stack_array (junk 0 2) 16)) mode data len).1 ≠ 0 →
        r.ret = TTLS_ERR_PKCS12_PASSWORD_MISMATCH) ∧
      (r.ret = 0 ↔
        d.ret = 0 ∧ ci.setup.1 = 0 ∧ (pbe_setkey ci d.key mode).1 = 0 ∧
        (pbe_set_iv ci d.key (d.iv.getD (stack_array (junk 0 2) 16)) mode).1 = 0 ∧
        (pbe_reset ci d.key (d.iv.getD (stack_array (junk 0 2) 16)) mode).1 = 0 ∧
        (pbe_update ci d.key (d.iv.getD (stack_array (junk 0 2) 16)) mode data len).1 = 0 ∧
        (pbe_finish ci d.key (d.iv.getD (stack_array (junk 0 2) 16)) mode data len).1 = 0) := by
  have hne : TTLS_ERR_PKCS12_PASSWORD_MISMATCH ≠ 0 := by decide
  obtain ⟨r, hr, hret⟩ := pbe_returns_first_failure asn1 reg creg fuel junk params mode
    cipher_type md_type pwd pwdlen data len output ci d hci hd
  refine ⟨r, hr, ?_, ?_, ?_, ?_, ?_, ?_, ?_, ?_⟩
  · intro h0; rw [hret, pbe_first_failure, if_pos h0]
  · intro h0 h1; simp only [hret, pbe_first_failure, h0, h1, ne_eq, not_true_eq_false,
      not_false_eq_true, if_true, if_false]
  · intro h0 h1 h2; simp only [hret, pbe_first_failure, h0, h1, h2, ne_eq, not_true_eq_false,
      not_false_eq_true, if_true, if_false]
  · intro h0 h1 h2 h3; simp only [hret, pbe_first_failure, h0, h1, h2, h3, ne_eq,
      not_true_eq_false, not_false_eq_true, if_true, if_false]
  · intro h0 h1 h2 h3 h4; simp only [hret, pbe_first_failure, h0, h1, h2, h3, h4, ne_eq,
      not_true_eq_false, not_false_eq_true, if_true, if_false]
  · intro h0 h1 h2 h3 h4 h5; simp only [hret, pbe_first_failure, h0, h1, h2, h3, h4, h5, ne_eq,
      not_true_eq_false, not_false_eq_true, if_true, if_false]
  · intro h0 h1 h2 h3 h4 h5 h6; simp only [hret, pbe_first_failure, h0, h1, h2, h3, h4, h5, h6,
      ne_eq, not_true_eq_false, not_false_eq_true, if_true, if_false]
  · rw [hret, pbe_first_failure]
    constructor
    · intro h
      split_ifs at h with h0 h1 h2 h3 h4 h5 h6
      · exact absurd h h0
      · exact absurd h h1
      · exact absurd h h2
      · exact absurd h h3
      · exact absurd h h4
      · exact absurd h h5
      · exact absurd h hne
      · exact ⟨not_not.mp h0, not_not.mp h1, not_not.mp h2, not_not.mp h3, not_not.mp h4,
          not_not.mp h5, not_not.mp h6⟩
    · rintro ⟨h0, h1, h2, h3, h4, h5, h6⟩
      simp only [h0, h1, h2, h3, h4, h5, h6, ne_eq, not_true_eq_false, if_false]

/-- Claim C22 at a concrete input: a cipher whose `ttls_cipher_finish` fails with -0x6200
after every other step succeeded. -/
theorem C22_witness :
    ∃ r, ttls_pkcs12_pbe toy_asn1 toy_registry toy_cipher_registry_finish 128 (fun _ _ _ => 7)
        toy_params 1 3 4 [65, 66] 2 [1, 2, 3] 3 [0, 0, 0] = some r ∧
      r.ret = TTLS_ERR_PKCS12_PASSWORD_MISMATCH :=
  (C22_finish_failure_is_password_mismatch toy_asn1 toy_registry
      toy_cipher_registry_finish 128 (fun _ _ _ => 7) toy_params 1 3 4 [65, 66] 2 [1, 2, 3] 3
      [0, 0, 0] toy_cipher_bad_finish
      ⟨0, stack_array (fun _ => 7) 32, some (stack_array (fun _ => 7) 16),
        pbe_unipwd [65, 66] 2⟩ rfl (by decide)).elim
    fun r h => ⟨r, h.1, h.2.2.2.2.2.2.2.1 (by decide) (by decide) (by decide) (by decide)
      (by decide) (by decide) (by decide)⟩

/-- Claim C23: for a text `T1=V1,T2=V2,...,Tn=Vn` with `n ≥ 1`, any number of spaces
after each comma, tags that are names of the attribute table and values of fewer than
`TTLS_X509_MAX_DN_NAME_SIZE` bytes without backslash, comma or NUL, each value stands in
the text as it is, and `ttls_x509_string_to_names` clears the chain, calls
`ttls_asn1_store_named_data` once per attribute in the order of the text with the table
OID of the tag and the bytes of the value, and returns 0 when no call fails; with a
store that appends, the chain is then the `n` entries in that order. -/
theorem C23_names_stored_in_order (store : store_named_data_t) (fuel : Nat) (junk : Nat → Nat)
    (head : List ttls_asn1_named_data) (a : dn_attr) (rest : List dn_attr)
    (htag : ∀ b ∈ a :: rest, b.tag ∈ x509_attrs.map (fun cur => cur.name))
    (hval : ∀ b ∈ a :: rest, b.value.length < TTLS_X509_MAX_DN_NAME_SIZE ∧
      ∀ x ∈ b.value, x ≠ 92 ∧ x ≠ 44 ∧ x ≠ 0)
    (hfuel : (dn_text (a :: rest)).length + 1 ≤ fuel) :
    (∀ b ∈ a :: rest, escape_value b.value = b.value) ∧
    ttls_asn1_free_named_data_list head = [] ∧
    (∀ h1, store_seq store [] (a :: rest) = some h1 →
      ttls_x509_string_to_names store fuel junk head (dn_text (a :: rest))
        = some ⟨0, h1, false⟩) ∧
    ttls_x509_string_to_names toy_store fuel junk head (dn_text (a :: rest))
      = some ⟨0, (a :: rest).map named_entry, false⟩ := by
  have hok : ∀ b ∈ a :: rest, attr_ok b := fun b hb => attr_ok_of b (htag b hb) (hval b hb)
  refine ⟨fun b hb => escape_value_plain b.value (fun x hx => ((hval b hb).2 x hx).2.1), rfl,
    fun h1 hst => string_to_names_entries store fuel junk head a rest h1 hok hst hfuel, ?_⟩
  exact string_to_names_entries toy_store fuel junk head a rest _ hok
    (by rw [ttls_asn1_free_named_data_list, toy_store_seq _ [] htag, List.nil_append]) hfuel

/-- Claim C23 at the text `CN=ab,  O=x y` and a chain that held one entry. -/
theorem C23_witness :
    dn_text [⟨str_bytes "CN", str_bytes "ab", 0⟩, ⟨str_bytes "O", str_bytes "x y", 2⟩]
      = str_bytes "CN=ab,  O=x y" ∧
    ttls_x509_string_to_names toy_store 14 (fun _ => 7) [⟨[1], [2]⟩]
        (dn_text [⟨str_bytes "CN", str_bytes "ab", 0⟩, ⟨str_bytes "O", str_bytes "x y", 2⟩])
      = some ⟨0, [⟨str_bytes "CN", str_bytes "ab", 0⟩,
          ⟨str_bytes "O", str_bytes "x y", 2⟩].map named_entry, false⟩ ∧
    [⟨str_bytes "CN", str_bytes "ab", 0⟩, ⟨str_bytes "O", str_bytes "x y", 2⟩].map named_entry
      = [⟨TTLS_OID_AT_CN, str_bytes "ab"⟩, ⟨TTLS_OID_AT_ORGANIZATION, str_bytes "x y"⟩] :=
  ⟨by decide,
    (C23_names_stored_in_order toy_store 14 (fun _ => 7) [⟨[1], [2]⟩]
      ⟨str_bytes "CN", str_bytes "ab", 0⟩ [⟨str_bytes "O", str_bytes "x y", 2⟩]
      (by decide) (by decide) (by decide)).2.2.2,
    by decide⟩

/-- Claim C24: in a value, the pair backslash comma stands for one comma byte of the
stored value and does not end the value, so a text whose values are written with every
comma escaped is parsed into these values; a backslash followed by another byte or by
the end of the string makes `ttls_x509_string_to_names` return
`TTLS_ERR_X509_INVALID_NAME`, in the first value of a text and in every pass of the loop
that reads a value. -/
theorem C24_backslash_escapes_comma_only (store : store_named_data_t) (fuel : Nat)
    (junk : Nat → Nat) (head : List ttls_asn1_named_data) :
    (∀ v, escape_value (44 :: v) = 92 :: 44 :: escape_value v) ∧
    (∀ x v, x ≠ 44 → escape_value (x :: v) = x :: escape_value v) ∧
    (∀ a rest h1, (∀ b ∈ a :: rest, attr_ok b) → store_seq store [] (a :: rest) = some h1 →
      (dn_text (a :: rest)).length + 1 ≤ fuel →
      ttls_x509_string_to_names store fuel junk head (dn_text (a :: rest))
        = some ⟨0, h1, false⟩) ∧
    (∀ t u r1, t ∈ x509_attrs.map (fun cur => cur.name) → (∀ x ∈ u, x ≠ 92) →
      (∀ x ∈ t ++ 61 :: (escape_value u ++ 92 :: r1), x ≠ 0) → r1 = [] ∨ r1.headD 0 ≠ 44 →
      (t ++ 61 :: (escape_value u ++ 92 :: r1)).length + 1 ≤ fuel →
      ttls_x509_string_to_names store fuel junk head (t ++ 61 :: (escape_value u ++ 92 :: r1))
        = some ⟨TTLS_ERR_X509_INVALID_NAME, [], false⟩) ∧
    (∀ name e hd c s oid data d ov k, name.getD c 0 = 92 → c < e →
      c + 1 = e ∨ name.getD (c + 1) 0 ≠ 44 →
      names_loop store name e (k + 1) ⟨hd, c, s, false, oid, data, d, ov⟩
        = some ⟨TTLS_ERR_X509_INVALID_NAME, hd, ov⟩) := by
  refine ⟨fun v => by simp [escape_value], fun x v hx => by simp [escape_value, hx], ?_, ?_, ?_⟩
  · intro a rest h1 hok hst hf
    exact string_to_names_entries store fuel junk head a rest h1 hok hst hf
  · intro t u r1 ht hu hnul hr hf
    exact first_value_invalid store fuel junk head t u (92 :: r1) ht hu hnul
      (Or.inr ⟨r1, rfl, hr⟩) hf
  · intro name e hd c s oid data d ov k h1 hc h2
    exact esc_bad store name e hd c s oid data d ov k h1 hc h2

/-- Claim C24 at the texts `CN=a\,b`, stored as the value `a,b`, and `CN=a\b`,
rejected. -/
theorem C24_witness :
    dn_text [⟨str_bytes "CN", str_bytes "a,b", 0⟩] = str_bytes "CN=a\\,b" ∧
    ttls_x509_string_to_names toy_store 9 (fun _ => 7) []
        (dn_text [⟨str_bytes "CN", str_bytes "a,b", 0⟩])
      = some ⟨0, [⟨TTLS_OID_AT_CN, str_bytes "a,b"⟩], false⟩ ∧
    str_bytes "CN" ++ 61 :: (escape_value (str_bytes "a") ++ 92 :: str_bytes "b")
      = str_bytes "CN=a\\b" ∧
    ttls_x509_string_to_names toy_store 9 (fun _ => 7) []
        (str_bytes "CN" ++ 61 :: (escape_value (str_bytes "a") ++ 92 :: str_bytes "b"))
      = some ⟨TTLS_ERR_X509_INVALID_NAME, [], false⟩ :=
  ⟨by decide,
    (C24_backslash_escapes_comma_only toy_store 9 (fun _ => 7) []).2.2.1
      ⟨str_bytes "CN", str_bytes "a,b", 0⟩ [] [⟨TTLS_OID_AT_CN, str_bytes "a,b"⟩]
      (by unfold attr_ok; decide) (by decide) (by decide),
    by decide,
    (C24_backslash_escapes_comma_only toy_store 9 (fun _ => 7) []).2.2.2.1
      (str_bytes "CN") (str_bytes "a") (str_bytes "b") (by decide) (by decide) (by decide)
      (by decide) (by decide)⟩

/-- Claim C25: `x509_at_oid_from_name` returns the OID of the first row of the table
whose name has the given length and the bytes of the given name, and `NULL` when there
is none, the names of the table being pairwise different; `CN` and `commonName`, `R` and
`emailAddress` give the same OID, `cn` and the empty name give `NULL`; and
`ttls_x509_string_to_names` returns `TTLS_ERR_X509_UNKNOWN_OID` when the text up to the
first `=` is not in the table, and in every pass of the loop that reads the `=` after
such a tag, leaving the chain as it is. -/
theorem C25_unknown_tag_is_rejected (store : store_named_data_t) (fuel : Nat)
    (junk : Nat → Nat) (head : List ttls_asn1_named_data) :
    (∀ name n, x509_at_oid_from_name name n
      = (x509_attrs.find? (fun cur => decide (cur.name_len = n ∧ cur.name = name.take n))).map
          (fun cur => cur.oid)) ∧
    (x509_at_oid_from_name (str_bytes "CN") 2 = some TTLS_OID_AT_CN ∧
      x509_at_oid_from_name (str_bytes "commonName") 10 = some TTLS_OID_AT_CN ∧
      x509_at_oid_from_name (str_bytes "R") 1 = some TTLS_OID_PKCS9_EMAIL ∧
      x509_at_oid_from_name (str_bytes "emailAddress") 12 = some TTLS_OID_PKCS9_EMAIL ∧
      x509_at_oid_from_name (str_bytes "cn") 2 = none) ∧
    (∀ name, x509_at_oid_from_name name 0 = none) ∧
    (x509_attrs.map (fun cur => cur.name)).Nodup ∧
    (∀ t r, (∀ x ∈ t, x ≠ 61 ∧ x ≠ 0) → x509_at_oid_from_name t t.length = none →
      t.length + 1 ≤ fuel →
      ttls_x509_string_to_names store fuel junk head (t ++ 61 :: r)
        = some ⟨TTLS_ERR_X509_UNKNOWN_OID, [], false⟩) ∧
    (∀ name e hd c s oid data d ov k, name.getD c 0 = 61 → c ≤ e →
      x509_at_oid_from_name (name.drop s) (c - s) = none →
      names_loop store name e (k + 1) ⟨hd, c, s, true, oid, data, d, ov⟩
        = some ⟨TTLS_ERR_X509_UNKNOWN_OID, hd, ov⟩) := by
  refine ⟨fun name n => at_oid_loop_find _ x509_attrs_ok name n, by decide, at_oid_empty,
    by decide, ?_, ?_⟩
  · intro t r ht hl hf
    exact first_tag_unknown store fuel junk head t r ht hl hf
  · intro name e hd c s oid data d ov k h hc hl
    exact eq_unknown store name e hd c s oid data d ov k h hc hl

/-- Claim C25 at the texts `XX=a` and `=a`. -/
theorem C25_witness :
    ttls_x509_string_to_names toy_store 5 (fun _ => 7) [] (str_bytes "XX" ++ 61 :: str_bytes "a")
      = some ⟨TTLS_ERR_X509_UNKNOWN_OID, [], false⟩ ∧
    ttls_x509_string_to_names toy_store 5 (fun _ => 7) [] ([] ++ 61 :: str_bytes "a")
      = some ⟨TTLS_ERR_X509_UNKNOWN_OID, [], false⟩ :=
  ⟨(C25_unknown_tag_is_rejected toy_store 5 (fun _ => 7) []).2.2.2.2.1 (str_bytes "XX")
      (str_bytes "a") (by decide) (by decide) (by decide),
    (C25_unknown_tag_is_rejected toy_store 5 (fun _ => 7) []).2.2.2.2.1 [] (str_bytes "a")
      (by decide) (by decide) (by decide)⟩

/-- Claim C26: `ttls_x509_string_to_names` returns for every string (fuel
`strlen(name) + 1` is enough) and never writes `data` at an offset that is not below
`TTLS_X509_MAX_DN_NAME_SIZE`; a value of `TTLS_X509_MAX_DN_NAME_SIZE` bytes or more
(counted without the backslashes) is rejected with `TTLS_ERR_X509_INVALID_NAME`, as the
first value of a text and from every pass of the loop that reads a value; and a text
whose values have fewer bytes, no NUL and no backslash but before a comma returns 0 when
no store fails. -/
theorem C26_value_buffer_bound (store : store_named_data_t) (fuel : Nat) (junk : Nat → Nat)
    (head : List ttls_asn1_named_data) :
    (∀ name r, ttls_x509_string_to_names store fuel junk head name = some r →
      r.overflow = false) ∧
    (∀ name, strlen name + 1 ≤ fuel →
      ∃ r, ttls_x509_string_to_names store fuel junk head name = some r) ∧
    (∀ t u r, t ∈ x509_attrs.map (fun cur => cur.name) → (∀ x ∈ u, x ≠ 92) →
      TTLS_X509_MAX_DN_NAME_SIZE ≤ u.length →
      (∀ x ∈ t ++ 61 :: (escape_value u ++ r), x ≠ 0) →
      (t ++ 61 :: (escape_value u ++ r)).length + 1 ≤ fuel →
      ttls_x509_string_to_names store fuel junk head (t ++ 61 :: (escape_value u ++ r))
        = some ⟨TTLS_ERR_X509_INVALID_NAME, [], false⟩) ∧
    (∀ name hd s oid k rest v c d data, (∀ x ∈ v, x ≠ 92) →
      name.drop c = escape_value v ++ rest → d < TTLS_X509_MAX_DN_NAME_SIZE →
      TTLS_X509_MAX_DN_NAME_SIZE ≤ d + v.length → s ≤ c →
      names_loop store name name.length (k + v.length) ⟨hd, c, s, false, oid, data, d, false⟩
        = some ⟨TTLS_ERR_X509_INVALID_NAME, hd, false⟩) ∧
    (∀ a rest h1, (∀ b ∈ a :: rest, attr_ok b) → store_seq store [] (a :: rest) = some h1 →
      (dn_text (a :: rest)).length + 1 ≤ fuel →
      ttls_x509_string_to_names store fuel junk head (dn_text (a :: rest))
        = some ⟨0, h1, false⟩) := by
  refine ⟨?_, ?_, ?_, ?_, ?_⟩
  · intro name r h
    exact names_loop_safe store name (strlen name) fuel _ r
      (show 0 < TTLS_X509_MAX_DN_NAME_SIZE by decide) rfl h
  · intro name hf
    exact names_loop_total store name (strlen name) fuel _ (by simp only; omega)
  · intro t u r ht hu hlong hnul hf
    exact first_value_invalid store fuel junk head t u r ht hu hnul (Or.inl hlong) hf
  · intro name hd s oid k rest v c d data hv hn hd1 hd2 hs
    exact value_overlong store name hd s oid k rest v c d data hv hn hd1 hd2 hs
  · intro a rest h1 hok hst hf
    exact string_to_names_entries store fuel junk head a rest h1 hok hst hf

/-- Claim C26 at a value of 255 bytes, which is stored, and a value of 256 bytes, which
is rejected. -/
theorem C26_witness :
    ttls_x509_string_to_names toy_store 260 (fun _ => 7) []
        (dn_text [⟨str_bytes "CN", List.replicate 255 97, 0⟩])
      = some ⟨0, [⟨TTLS_OID_AT_CN, List.replicate 255 97⟩], false⟩ ∧
    ttls_x509_string_to_names toy_store 260 (fun _ => 7) []
        (str_bytes "CN" ++ 61 :: (escape_value (List.replicate 256 97) ++ []))
      = some ⟨TTLS_ERR_X509_INVALID_NAME, [], false⟩ :=
  ⟨(C26_value_buffer_bound toy_store 260 (fun _ => 7) []).2.2.2.2
      ⟨str_bytes "CN", List.replicate 255 97, 0⟩ [] [⟨TTLS_OID_AT_CN, List.replicate 255 97⟩]
      (by unfold attr_ok; decide) (by decide) (by decide),
    (C26_value_buffer_bound toy_store 260 (fun _ => 7) []).2.2.1
      (str_bytes "CN") (List.replicate 256 97) [] (by decide) (by decide) (by decide)
      (by decide) (by decide)⟩

/-- Claim C27: for every string without the byte `=`, the empty one included,
`ttls_x509_string_to_names` returns 0 after clearing the chain and without a call of
`ttls_asn1_store_named_data`, so the chain is empty after the call. -/
theorem C27_no_equals_sign_stores_nothing (store : store_named_data_t) (fuel : Nat)
    (junk : Nat → Nat) (head : List ttls_asn1_named_data) (name : Buf)
    (h : ∀ x ∈ name, x ≠ 61) (hfuel : name.length + 1 ≤ fuel) :
    ttls_x509_string_to_names store fuel junk head name = some ⟨0, [], false⟩ :=
  no_tag_returns store fuel junk head name h hfuel

/-- Claim C27 at the string `abc, def` and at the empty string, with a store that
always fails and a chain that held one entry. -/
theorem C27_witness :
    ttls_x509_string_to_names (fun _ _ _ _ => none) 9 (fun _ => 7) [⟨[1], [2]⟩]
        (str_bytes "abc, def") = some ⟨0, [], false⟩ ∧
    ttls_x509_string_to_names (fun _ _ _ _ => none) 1 (fun _ => 7) [⟨[1], [2]⟩] []
      = some ⟨0, [], false⟩ :=
  ⟨C27_no_equals_sign_stores_nothing (fun _ _ _ _ => none) 9 (fun _ => 7) [⟨[1], [2]⟩]
      (str_bytes "abc, def") (by decide) (by decide),
    C27_no_equals_sign_stores_nothing (fun _ _ _ _ => none) 1 (fun _ => 7) [⟨[1], [2]⟩] []
      (by decide) (by decide)⟩

/-- Claim C28, amended: when `ttls_asn1_store_named_data` returns an entry `cur` of the
chain whose value buffer holds at least the `val_len + 1` bytes asked for,
`ttls_x509_set_extension` returns 0 and leaves in that entry the OID of `cur` and a value
of the length the store left, at least `val_len + 1 ≥ 1` bytes: the low 8 bits of
`critical`, then the `val_len` bytes of `val`, then the bytes the buffer had after them;
so `val.len - 1` in `x509_write_extension` does not wrap, and the function writes the
bytes after the first one as the OCTET STRING and a BOOLEAN TRUE exactly when the low 8
bits of `critical` are not 0, which they are for `critical = 256` and `critical = 0`.
When the buffer has exactly `val_len + 1` bytes the value is the flag and `val`, and the
OCTET STRING holds the `val_len` bytes of `val`. -/
theorem C28_extension_value_layout {W : Type} (store : store_named_data_t)
    (ops : ttls_asn1_write_ops W) (w : W) (head : List ttls_asn1_named_data)
    (oid : Buf) (oid_len : Nat) (critical : Int) (val : Buf) (val_len : Nat)
    (l : List ttls_asn1_named_data) (i : Nat) (cur : ttls_asn1_named_data)
    (hs : store head (oid.take oid_len) none (val_len + 1) = some (l, i))
    (hcur : l[i]? = some cur) (hbuf : val_len + 1 ≤ cur.val.length)
    (hval : val_len ≤ val.length) (hsz : cur.val.length < 2 ^ SIZE_T_BITS) :
    ∃ ext, ttls_x509_set_extension store head oid oid_len critical val val_len
        = (0, l.set i ext) ∧
      (l.set i ext)[i]? = some ext ∧
      ext.oid = cur.oid ∧
      ext.val = (critical % 256).toNat :: (val.take val_len ++ cur.val.drop (val_len + 1)) ∧
      ext.val.getD 0 0 = (critical % 256).toNat ∧
      (ext.val.drop 1).take val_len = val.take val_len ∧
      ext.val.length = cur.val.length ∧ val_len + 1 ≤ ext.val.length ∧ 1 ≤ ext.val.length ∧
      size_sub ext.val.length 1 + 1 = ext.val.length ∧
      x509_write_extension ops w ext
        = extension_words ops w cur.oid (decide (critical % 256 ≠ 0))
            (val.take val_len ++ cur.val.drop (val_len + 1)) ∧
      (cur.val.length = val_len + 1 →
        ext.val = (critical % 256).toNat :: val.take val_len ∧
        size_sub ext.val.length 1 = val_len ∧
        x509_write_extension ops w ext
          = extension_words ops w cur.oid (decide (critical % 256 ≠ 0)) (val.take val_len)) ∧
      ((256 : Int) % 256 = 0 ∧ (0 : Int) % 256 = 0) := by
  obtain ⟨h1, hi⟩ := set_extension_writes store head oid oid_len critical val val_len l i cur
    hs hcur hbuf hsz
  have htake : (val.take val_len).length = val_len := by
    rw [List.length_take, Nat.min_eq_left hval]
  have hlen : ((critical % 256).toNat ::
      (val.take val_len ++ cur.val.drop (val_len + 1))).length = cur.val.length := by
    rw [List.length_cons, List.length_append, htake, List.length_drop]
    omega
  have hsub : size_sub cur.val.length 1 + 1 = cur.val.length := by
    simp only [size_sub, SIZE_T_BITS] at hsz ⊢
    omega
  have hnn : 0 ≤ critical % 256 := Int.emod_nonneg _ (by decide)
  have hflag : ((critical % 256).toNat ≠ 0) ↔ critical % 256 ≠ 0 := by
    constructor
    · intro h h0; rw [h0] at h; exact h rfl
    · intro h h0
      have := Int.toNat_of_nonneg hnn
      rw [h0] at this
      exact h this.symm
  have hwrite : x509_write_extension ops w
      ⟨cur.oid, (critical % 256).toNat :: (val.take val_len ++ cur.val.drop (val_len + 1))⟩
        = extension_words ops w cur.oid (decide (critical % 256 ≠ 0))
            (val.take val_len ++ cur.val.drop (val_len + 1)) := by
    have hs1 : size_sub cur.val.length 1
        = (val.take val_len ++ cur.val.drop (val_len + 1)).length := by
      rw [List.length_append, htake, List.length_drop]
      omega
    simp only [x509_write_extension, extension_words, hlen, hs1, List.drop_succ_cons,
      List.drop_zero, List.getD_cons_zero]
    by_cases hcr : critical % 256 = 0
    · have : ¬ (critical % 256).toNat ≠ 0 := fun h => (hflag.mp h) hcr
      simp [hcr]
    · have : (critical % 256).toNat ≠ 0 := hflag.mpr hcr
      simp [hcr, this]
  refine ⟨⟨cur.oid, (critical % 256).toNat ::
      (val.take val_len ++ cur.val.drop (val_len + 1))⟩, h1, ?_, rfl, rfl, ?_, ?_, hlen,
    by rw [hlen]; exact hbuf, by rw [hlen]; omega, by rw [hlen]; exact hsub, hwrite, ?_,
    by decide⟩
  · rw [List.getElem?_set_self hi]
  · simp
  · simp only [List.drop_succ_cons, List.drop_zero]
    rw [List.take_append_of_le_length (by omega), List.take_of_length_le (by omega)]
  · intro hex
    have hd : cur.val.drop (val_len + 1) = [] := List.drop_eq_nil_of_le (by omega)
    simp only
    rw [hwrite, hd, List.append_nil]
    refine ⟨rfl, ?_, rfl⟩
    rw [hex] at hsub
    rw [List.length_cons, htake]
    omega

/-- Claim C28, amended, at the extension `55 1D 13` with the value `30 00`, stored with
`critical = 256` in a buffer of 3 bytes: it is written without a BOOLEAN. -/
theorem C28_witness :
    ∃ ext, ttls_x509_set_extension toy_store [] [0x55, 0x1D, 0x13] 3 256 [0x30, 0x00] 2
        = (0, [ext]) ∧ ext.val = [0, 0x30, 0x00] ∧
      x509_write_extension toy_writer [] ext
        = (11, [0x30, 9, 0x06, 3, 0x55, 0x1D, 0x13, 0x04, 2, 0x30, 0x00]) :=
  (C28_extension_value_layout toy_store toy_writer [] [] [0x55, 0x1D, 0x13] 3 256
      [0x30, 0x00] 2 [⟨[0x55, 0x1D, 0x13], [0, 0, 0]⟩] 0 ⟨[0x55, 0x1D, 0x13], [0, 0, 0]⟩
      (by decide) (by decide) (by decide) (by decide) (by decide)).elim
    fun ext h =>
      ⟨ext, h.1, (h.2.2.2.2.2.2.2.2.2.2.2.1 (by decide)).1,
        by rw [(h.2.2.2.2.2.2.2.2.2.2.2.1 (by decide)).2.2]; decide⟩

/-- Claim C28 as stated fails with a store that keeps a value buffer that is large
enough: stored over an entry of the same OID with a value of 6 bytes, the extension with
the 2 bytes `30 00` keeps a value of 6 bytes, not 3, and is written with an OCTET STRING of
5 bytes, the last 3 of them old. -/
theorem C28_counterexample :
    ttls_x509_set_extension toy_store_reuse
        [⟨[0x55, 0x1D, 0x13], [1, 0x30, 0x03, 0x01, 0x01, 0xFF]⟩] [0x55, 0x1D, 0x13] 3 0
        [0x30, 0x00] 2
      = (0, [⟨[0x55, 0x1D, 0x13], [0, 0x30, 0x00, 0x01, 0x01, 0xFF]⟩]) ∧
    ([0, 0x30, 0x00, 0x01, 0x01, 0xFF] : Buf).length ≠ 2 + 1 ∧
    x509_write_extension toy_writer [] ⟨[0x55, 0x1D, 0x13], [0, 0x30, 0x00, 0x01, 0x01, 0xFF]⟩
      = (14, [0x30, 12, 0x06, 3, 0x55, 0x1D, 0x13, 0x04, 5, 0x30, 0x00, 0x01, 0x01, 0xFF]) ∧
    x509_write_extension toy_writer [] ⟨[0x55, 0x1D, 0x13], [0, 0x30, 0x00, 0x01, 0x01, 0xFF]⟩
      ≠ extension_words toy_writer [] [0x55, 0x1D, 0x13] false [0x30, 0x00] := by
  decide

end Tempesta
